import Mathlib

/-!
# openvslam: ORB feature extraction, relocalizer and mapping configuration, radial-division camera

A shallow embedding of `feature/orb_extractor.{h,cc}`, `module/relocalizer.h`,
`mapping_module.h` and `camera/radial_division.cc`.

Conventions of the embedding:

* `float` and `double` values are rationals (`ℚ`): arithmetic is exact, rounding of the
  floating-point formats is not modelled.  Where a square root is taken the field and its
  square root are parameters, instantiated with `ℝ` and `Real.sqrt` in the theorems.
* `unsigned int` values are naturals; subtraction and accumulation wrap modulo `2^32`
  explicitly.  `int` values are integers.
* `std::vector::at` and the range checks of `cv::Mat::rowRange`/`colRange` throw: functions
  which use them return an `Option`, `none` standing for the exception.
* `while (true)` loops take fuel; running out of fuel is `none`.
* OpenCV primitives and helpers whose code is not part of the translated files are fields of
  the structure `external`.
-/

namespace openvslam

/-! ## Machine arithmetic -/

/-- Conversion of an integer value to `unsigned int`: modulo `2^32`. -/
def to_unsigned (n : Int) : Nat := (n % 4294967296).toNat

/-- Conversion of an `unsigned int` to `int` (`static_cast<int>`): two's complement. -/
def to_int (n : Nat) : Int := if n < 2147483648 then (n : Int) else (n : Int) - 4294967296

/-- Subtraction of two `unsigned int` values: wraps below zero. -/
def usub (a b : Nat) : Nat := if b ≤ a then a - b else a + 4294967296 - b

/-- Addition of two `unsigned int` values: wraps at `2^32`. -/
def uadd (a b : Nat) : Nat := (a + b) % 4294967296

/-- Multiplication of two `unsigned int` values: wraps at `2^32`. -/
def umul (a b : Nat) : Nat := (a * b) % 4294967296

/-- The function `std::round`: to the nearest integer, halfway cases away from zero. -/
def std_round (x : ℚ) : Int := if 0 ≤ x then ⌊x + 1 / 2⌋ else -⌊-x + 1 / 2⌋

/-- Conversion of a floating value to an integer type: truncation toward zero. -/
def truncate (x : ℚ) : Int := if 0 ≤ x then ⌊x⌋ else -⌊-x⌋

/-- The call `std::vector::at` for reading: `none` is `std::out_of_range`. -/
def vector_at {α : Type} (v : List α) (i : Nat) : Option α := v.get? i

/-- The call `std::vector::at` for writing: `none` is `std::out_of_range`. -/
def vector_set {α : Type} (v : List α) (i : Nat) (a : α) : Option (List α) :=
  if i < v.length then some (v.set i a) else none

/-- The call `std::vector::resize`: keeps the first `n` elements, pads with `d`. -/
def vector_resize {α : Type} (v : List α) (n : Nat) (d : α) : List α :=
  v.take n ++ List.replicate (n - v.length) d

/-! ## OpenCV data -/

/-- The template `cv::Point_`. -/
structure Point_ (α : Type) where
  x : α
  y : α
deriving DecidableEq

/-- The type `cv::Point2f`. -/
abbrev Point2f : Type := Point_ ℚ

/-- The type `cv::Point2i`. -/
abbrev Point2i : Type := Point_ Int

/-- The type `cv::KeyPoint`. -/
structure KeyPoint where
  pt : Point2f
  size : ℚ
  angle : ℚ
  response : ℚ
  octave : Int
  class_id : Int
deriving DecidableEq

/-- A continuous single-channel 8-bit `cv::Mat`: `data` holds the rows. -/
structure Mat where
  rows : Nat
  cols : Nat
  data : List (List Nat)
deriving DecidableEq

namespace Mat

/-- The default-constructed (released) matrix `cv::Mat()`. -/
def released : Mat := ⟨0, 0, []⟩

/-- The test `cv::Mat::empty`: no element. -/
def empty (m : Mat) : Bool := m.rows * m.cols == 0

/-- The matrix `cv::Mat(rows, cols, CV_8UC1, cv::Scalar(v))`. -/
def filled (rows cols v : Nat) : Mat := ⟨rows, cols, List.replicate rows (List.replicate cols v)⟩

/-- The access `m.at<uchar>(y, x)`; reads outside the buffer (undefined in C++) give 0. -/
def at_uchar (m : Mat) (y x : Int) : Nat :=
  if 0 ≤ y ∧ 0 ≤ x then (m.data.getD y.toNat []).getD x.toNat 0 else 0

/-- The read `p[k]` through a pointer `p = &m.at<uchar>(0, 0)` into the continuous buffer
(`step` = `cols`); reads outside the buffer (undefined in C++) give 0. -/
def at_flat (m : Mat) (k : Int) : Nat :=
  if 0 ≤ k then m.data.flatten.getD k.toNat 0 else 0

/-- The view `m.rowRange(a, b)`; `none` is the failed range assertion. -/
def rowRange (m : Mat) (a b : Int) : Option Mat :=
  if 0 ≤ a ∧ a ≤ b ∧ b ≤ (m.rows : Int) then
    some ⟨(b - a).toNat, m.cols, (m.data.drop a.toNat).take (b - a).toNat⟩
  else none

/-- The view `m.colRange(a, b)`; `none` is the failed range assertion. -/
def colRange (m : Mat) (a b : Int) : Option Mat :=
  if 0 ≤ a ∧ a ≤ b ∧ b ≤ (m.cols : Int) then
    some ⟨m.rows, (b - a).toNat, m.data.map (fun r => (r.drop a.toNat).take (b - a).toNat)⟩
  else none

end Mat

/-! ## Parameters and state of the extractor -/

/-- The fields of `feature::orb_params` read by the extractor. -/
structure orb_params where
  scale_factor_ : ℚ
  num_levels_ : Nat
  ini_fast_thr_ : Nat
  min_fast_thr_ : Nat
  scale_factors_ : List ℚ
deriving DecidableEq

/-- The fields of `feature::orb_extractor_node` used by the extractor.  `iter_` is the identity
of the `std::list` cell holding the node: 0 for the initial nodes, a fresh number for every cell
pushed by `assign_child_nodes`. -/
structure orb_extractor_node where
  keypts_ : List KeyPoint
  pt_begin_ : Point2i
  pt_end_ : Point2i
  is_leaf_node_ : Bool
  iter_ : Nat
deriving DecidableEq

/-- The data members of `feature::orb_extractor`. -/
structure orb_extractor where
  orb_params_ : orb_params
  mask_rects_ : List (List ℚ)
  image_pyramid_ : List Mat
  max_num_keypts_ : Nat
  mask_is_initialized_ : Bool
  rect_mask_ : Mat
  num_keypts_per_level_ : List Nat
  u_max_ : List Int
deriving DecidableEq

/-- The OpenCV primitives and the helpers of other translation units that the extractor calls. -/
structure external where
  /-- The call `cv::resize(src, dst, cv::Size(width, height), 0, 0, cv::INTER_LINEAR)`. -/
  resize : Mat → Int → Int → Mat
  /-- The call `cv::FAST(image, keypts, threshold, true)`. -/
  FAST : Mat → Nat → List KeyPoint
  /-- The call `cv::GaussianBlur(m, m, cv::Size(7, 7), 2, 2, cv::BORDER_REFLECT_101)`. -/
  GaussianBlur : Mat → Mat
  /-- The call `cv::rectangle(m, (x_min, y_min), (x_max, y_max), cv::Scalar(0), -1, cv::LINE_AA)`. -/
  rectangle : Mat → Int → Int → Int → Int → Mat
  /-- The call `cv::fastAtan2(y, x)`. -/
  fastAtan2 : Int → Int → ℚ
  /-- The call `cvRound`. -/
  cvRound : ℚ → Int
  /-- The helper `util::cos`. -/
  cos : ℚ → ℚ
  /-- The helper `util::sin`. -/
  sin : ℚ → ℚ
  /-- The table `orb_point_pairs`. -/
  orb_point_pairs : Nat → ℚ
  /-- The method `orb_extractor_node::divide_node`: the four children of a node. -/
  divide_node : orb_extractor_node → List orb_extractor_node

/-- The constant `fast_patch_size_`. -/
def fast_patch_size_ : Nat := 31

/-- The constant `fast_half_patch_size_`. -/
def fast_half_patch_size_ : Nat := fast_patch_size_ / 2

/-- The constant `orb_patch_radius_`. -/
def orb_patch_radius_ : Nat := 19

/-! ## `orb_extractor::initialize` -/

/-- The value `std::round(std::sqrt(k))` for a natural `k`: the integer square root `s`, plus
one when `k` lies above `s^2 + s` (that is, above `(s + 1/2)^2`). -/
def round_sqrt (k : Nat) : Nat :=
  if Nat.sqrt k * Nat.sqrt k + Nat.sqrt k < k then Nat.sqrt k + 1 else Nat.sqrt k

/-- The bound `vmax = std::floor(fast_half_patch_size_ * std::sqrt(2.0) / 2 + 1)`: the integer
square root of `fast_half_patch_size_^2 / 2`, plus one. -/
def u_max_vmax : Nat := Nat.sqrt (fast_half_patch_size_ * fast_half_patch_size_ / 2) + 1

/-- The bound `vmin = std::ceil(fast_half_patch_size_ * std::sqrt(2.0) / 2)`; the half of
`fast_half_patch_size_^2` is not a square, so this is the integer square root plus one. -/
def u_max_vmin : Nat := Nat.sqrt (fast_half_patch_size_ * fast_half_patch_size_ / 2) + 1

/-- The inner loop `while (u_max_.at(v0) == u_max_.at(v0 + 1)) ++v0;`.  Every turn increases
`v0` and the loop throws once `v0 + 1` leaves the vector, so fuel above the length of the
vector never runs out. -/
def u_max_skip (u : List Int) : Nat → Nat → Option Nat
  | 0, _ => none
  | fuel + 1, v0 => do
    let a ← vector_at u v0
    let b ← vector_at u (v0 + 1)
    if a = b then u_max_skip u fuel (v0 + 1) else pure v0

/-- One turn of the loop `for (v = fast_half_patch_size_, v0 = 0; vmin <= v; --v)`. -/
def u_max_fill_step (st : List Int × Nat) (v : Nat) : Option (List Int × Nat) := do
  let v0 ← u_max_skip st.1 (st.1.length + 1) st.2
  let u ← vector_set st.1 v (v0 : Int)
  pure (u, v0 + 1)

/-- The part of `initialize` which fills `u_max_` (already resized). -/
def compute_u_max (u0 : List Int) : Option (List Int) := do
  let u1 ← (List.range (u_max_vmax + 1)).foldlM
    (fun u v => vector_set u v (round_sqrt (usub (fast_half_patch_size_ * fast_half_patch_size_) (v * v)) : Int)) u0
  let r ← ((List.range' u_max_vmin (fast_half_patch_size_ + 1 - u_max_vmin)).reverse).foldlM
    u_max_fill_step (u1, 0)
  pure r.1

/-- The value `desired_num_keypts_per_scale` before the loop of `initialize`. -/
def desired_num_keypts_per_scale (max_num_keypts : Nat) (p : orb_params) : ℚ :=
  (max_num_keypts : ℚ) * (1 - 1 / p.scale_factor_) / (1 - (1 / p.scale_factor_) ^ p.num_levels_)

/-- One turn of the loop over the levels `0 .. num_levels_ - 2` of `initialize`; the state is
`(num_keypts_per_level_, total_num_keypts, desired_num_keypts_per_scale)`. -/
def quota_step (scale_factor : ℚ) (st : List Nat × Nat × ℚ) (level : Nat) :
    Option (List Nat × Nat × ℚ) := do
  let quotas ← vector_set st.1 level (to_unsigned (std_round st.2.2))
  let q ← vector_at quotas level
  pure (quotas, uadd st.2.1 q, st.2.2 * (1 / scale_factor))

/-- The part of `initialize` which fills `num_keypts_per_level_` (already resized). -/
def compute_num_keypts_per_level (max_num_keypts : Nat) (p : orb_params) (quotas0 : List Nat) :
    Option (List Nat) := do
  let st ← (List.range (usub p.num_levels_ 1)).foldlM (quota_step p.scale_factor_)
    (quotas0, 0, desired_num_keypts_per_scale max_num_keypts p)
  vector_set st.1 (usub p.num_levels_ 1)
    (to_unsigned (max (to_int max_num_keypts - to_int st.2.1) 0))

/-- The method `orb_extractor::initialize`. -/
def initialize_ (e : orb_extractor) : Option orb_extractor := do
  let image_pyramid := vector_resize e.image_pyramid_ e.orb_params_.num_levels_ Mat.released
  let quotas ← compute_num_keypts_per_level e.max_num_keypts_ e.orb_params_
    (vector_resize e.num_keypts_per_level_ e.orb_params_.num_levels_ 0)
  let u_max ← compute_u_max (vector_resize e.u_max_ (fast_half_patch_size_ + 1) 0)
  pure { e with image_pyramid_ := image_pyramid, num_keypts_per_level_ := quotas, u_max_ := u_max }

/-- The constructor `orb_extractor::orb_extractor`. -/
def orb_extractor_new (p : orb_params) (max_num_keypts : Nat) (mask_rects : List (List ℚ)) :
    Option orb_extractor :=
  initialize_
    { orb_params_ := p, mask_rects_ := mask_rects, image_pyramid_ := [],
      max_num_keypts_ := max_num_keypts, mask_is_initialized_ := false,
      rect_mask_ := Mat.released, num_keypts_per_level_ := [], u_max_ := [] }

/-- The value `std::round(desired_num_keypts_per_scale * scale_factor_^(-level))`, which the
loop of `initialize` stores for `level`. -/
def rounded_quota (max_num_keypts : Nat) (p : orb_params) (level : Nat) : Int :=
  std_round (desired_num_keypts_per_scale max_num_keypts p * (1 / p.scale_factor_) ^ level)

/-- The sum of the rounded quotas of the levels `0 .. k - 1`. -/
def rounded_quota_sum (max_num_keypts : Nat) (p : orb_params) (k : Nat) : Int :=
  ((List.range k).map (rounded_quota max_num_keypts p)).sum

/-- The method `orb_extractor::get_max_num_keypoints`. -/
def get_max_num_keypoints (e : orb_extractor) : Nat := e.max_num_keypts_

/-- The method `orb_extractor::set_max_num_keypoints`. -/
def set_max_num_keypoints (e : orb_extractor) (max_num_keypts : Nat) : Option orb_extractor :=
  initialize_ { e with max_num_keypts_ := max_num_keypts }

/-! ## Masks and the image pyramid -/

/-- One turn of the loop of `create_rectangle_mask`: draws one black rectangle. -/
def draw_mask_rect (cv : external) (cols rows : Nat) (rect_mask : Mat) (mask_rect : List ℚ) :
    Option Mat := do
  let r0 ← vector_at mask_rect 0
  let r1 ← vector_at mask_rect 1
  let r2 ← vector_at mask_rect 2
  let r3 ← vector_at mask_rect 3
  let x_min := to_unsigned (std_round ((cols : ℚ) * r0))
  let x_max := to_unsigned (std_round ((cols : ℚ) * r1))
  let y_min := to_unsigned (std_round ((rows : ℚ) * r2))
  let y_max := to_unsigned (std_round ((rows : ℚ) * r3))
  pure (cv.rectangle rect_mask (to_int x_min) (to_int y_min) (to_int x_max) (to_int y_max))

/-- The method `orb_extractor::create_rectangle_mask`: the new value of `rect_mask_`. -/
def create_rectangle_mask (cv : external) (e : orb_extractor) (cols rows : Nat) : Option Mat :=
  e.mask_rects_.foldlM (draw_mask_rect cv cols rows)
    (if e.rect_mask_.empty then Mat.filled rows cols 255 else e.rect_mask_)

/-- One turn of the loop of `compute_image_pyramid`. -/
def pyramid_step (cv : external) (p : orb_params) (image : Mat) (pyramid : List Mat)
    (level : Nat) : Option (List Mat) := do
  let scale ← vector_at p.scale_factors_ level
  let width := std_round ((image.cols : ℚ) * 1 / scale)
  let height := std_round ((image.rows : ℚ) * 1 / scale)
  let src ← vector_at pyramid (level - 1)
  vector_set pyramid level (cv.resize src width height)

/-- The method `orb_extractor::compute_image_pyramid`: the new value of `image_pyramid_`. -/
def compute_image_pyramid (cv : external) (e : orb_extractor) (image : Mat) :
    Option (List Mat) := do
  let pyramid ← vector_set e.image_pyramid_ 0 image
  (List.range' 1 (e.orb_params_.num_levels_ - 1)).foldlM
    (pyramid_step cv e.orb_params_ image) pyramid

/-! ## Orientation, scale correction and descriptors -/

/-- The method `orb_extractor::ic_angle`. -/
def ic_angle (cv : external) (e : orb_extractor) (image : Mat) (point : Point2f) : Option ℚ := do
  let half : Int := fast_half_patch_size_
  let center : Int := cv.cvRound point.y * image.cols + cv.cvRound point.x
  let row0 : Int := ((List.range (2 * fast_half_patch_size_ + 1)).map
    (fun k => ((k : Int) - half) * (image.at_flat (center + ((k : Int) - half)) : Int))).sum
  let step : Int := image.cols
  let st ← (List.range' 1 fast_half_patch_size_).foldlM
    (fun (m : Int × Int) (v : Nat) => do
      let d ← vector_at e.u_max_ v
      let us : List Int := (List.range (2 * d + 1).toNat).map (fun k => (k : Int) - d)
      let v_sum : Int := (us.map (fun u =>
        (image.at_flat (center + u + v * step) : Int) - image.at_flat (center + u - v * step))).sum
      let m_10 : Int := (us.map (fun u =>
        u * ((image.at_flat (center + u + v * step) : Int)
          + image.at_flat (center + u - v * step)))).sum
      pure (m.1 + v * v_sum, m.2 + m_10))
    ((0 : Int), row0)
  pure (cv.fastAtan2 st.1 st.2)

/-- The method `orb_extractor::compute_orientation`. -/
def compute_orientation (cv : external) (e : orb_extractor) (image : Mat)
    (keypts : List KeyPoint) : Option (List KeyPoint) :=
  keypts.mapM (fun keypt => do
    let a ← ic_angle cv e image keypt.pt
    pure { keypt with angle := a })

/-- The method `orb_extractor::correct_keypoint_scale`. -/
def correct_keypoint_scale (e : orb_extractor) (keypts_at_level : List KeyPoint) (level : Nat) :
    Option (List KeyPoint) :=
  if level = 0 then some keypts_at_level
  else do
    let scale_at_level ← vector_at e.orb_params_.scale_factors_ level
    pure (keypts_at_level.map (fun keypt =>
      { keypt with pt := ⟨keypt.pt.x * scale_at_level, keypt.pt.y * scale_at_level⟩ }))

/-- Modelled from the spec: the constant `orb_point_pairs_size` of `orb_point_pairs.h`, which is
not among the translated files.  A descriptor has 256 bits, one per pair of points, and a pair
takes four entries of the table. -/
def orb_point_pairs_size : Nat := 256 * 4

/-- The constant `M_PI`. -/
def M_PI : ℚ := 3.14159265358979323846

/-- The expression `GET_VALUE(shift)` of `compute_orb_descriptor` (scalar branch). -/
def GET_VALUE (cv : external) (image : Mat) (center : Int) (cos_angle sin_angle : ℚ)
    (shift : Nat) : Nat :=
  image.at_flat (center
    + cv.cvRound (cv.orb_point_pairs shift * sin_angle
        + cv.orb_point_pairs (shift + 1) * cos_angle) * image.cols
    + cv.cvRound (cv.orb_point_pairs shift * cos_angle
        - cv.orb_point_pairs (shift + 1) * sin_angle))

/-- The expression `COMPARE_ORB_POINTS(shift)` of `compute_orb_descriptor`, as 0 or 1. -/
def COMPARE_ORB_POINTS (cv : external) (image : Mat) (center : Int) (cos_angle sin_angle : ℚ)
    (shift : Nat) : Nat :=
  if GET_VALUE cv image center cos_angle sin_angle shift
      < GET_VALUE cv image center cos_angle sin_angle (shift + 2) then 1 else 0

/-- The method `orb_extractor::compute_orb_descriptor`: the 32 bytes of the row `desc`, which
`compute_orb_descriptors` has set to zero. -/
def compute_orb_descriptor (cv : external) (keypt : KeyPoint) (image : Mat) : List Nat :=
  let angle : ℚ := keypt.angle * M_PI / 180
  let cos_angle := cv.cos angle
  let sin_angle := cv.sin angle
  let center : Int := cv.cvRound keypt.pt.y * image.cols + cv.cvRound keypt.pt.x
  let interval : Nat := 32
  (List.range 32).map (fun i =>
    if i < orb_point_pairs_size / interval then
      ((List.range 8).map (fun b =>
        COMPARE_ORB_POINTS cv image center cos_angle sin_angle (i * interval + 4 * b) * 2 ^ b)).sum
        % 256
    else 0)

/-- The method `orb_extractor::compute_orb_descriptors`: the rows written into `descriptors`,
a view of `keypts.size()` rows and 32 columns. -/
def compute_orb_descriptors (cv : external) (image : Mat) (keypts : List KeyPoint) :
    List (List Nat) :=
  keypts.map (fun keypt => compute_orb_descriptor cv keypt image)

/-! ## Distribution of the keypoints via a tree -/

/-- A default-constructed `orb_extractor_node` with the given patch. -/
def initial_node (pt_begin pt_end : Point2i) : orb_extractor_node :=
  { keypts_ := [], pt_begin_ := pt_begin, pt_end_ := pt_end, is_leaf_node_ := false, iter_ := 0 }

/-- The grid of `initialize_nodes`: `(num_x_grid, num_y_grid, delta_x, delta_y)`. -/
def initial_grid (min_x max_x min_y max_y : Int) : Nat × Nat × ℚ × ℚ :=
  let ratio : ℚ := ((max_x - min_x : Int) : ℚ) / ((max_y - min_y : Int) : ℚ)
  if ratio > 1 then
    let num_x_grid := to_unsigned (std_round ratio)
    (num_x_grid, 1, ((max_x - min_x : Int) : ℚ) / (num_x_grid : ℚ), ((max_y - min_y : Int) : ℚ))
  else
    let num_y_grid := to_unsigned (std_round (1 / ratio))
    (1, num_y_grid, ((max_x - min_y : Int) : ℚ), ((max_y - min_y : Int) : ℚ) / (num_y_grid : ℚ))

/-- The loop of `initialize_nodes` which assigns a keypoint to the initial node owning its
position. -/
def assign_to_initial_node (num_x_grid : Nat) (delta_x delta_y : ℚ)
    (nodes : List orb_extractor_node) (keypt : KeyPoint) : Option (List orb_extractor_node) := do
  let ix := to_unsigned (truncate (keypt.pt.x / delta_x))
  let iy := to_unsigned (truncate (keypt.pt.y / delta_y))
  let node_idx := uadd ix (umul iy num_x_grid)
  let node ← vector_at nodes node_idx
  vector_set nodes node_idx { node with keypts_ := node.keypts_ ++ [keypt] }

/-- The method `orb_extractor::initialize_nodes`. -/
def initialize_nodes (keypts_to_distribute : List KeyPoint) (min_x max_x min_y max_y : Int) :
    Option (List orb_extractor_node) := do
  let grid := initial_grid min_x max_x min_y max_y
  let num_x_grid := grid.1
  let num_y_grid := grid.2.1
  let delta_x := grid.2.2.1
  let delta_y := grid.2.2.2
  let num_initial_nodes := umul num_x_grid num_y_grid
  let nodes0 := (List.range num_initial_nodes).map (fun i =>
    let ix := i % num_x_grid
    let iy := i / num_x_grid
    initial_node ⟨truncate (delta_x * ix), truncate (delta_y * iy)⟩
      ⟨truncate (delta_x * (ix + 1 : Nat)), truncate (delta_y * (iy + 1 : Nat))⟩)
  let nodes1 ← keypts_to_distribute.foldlM (assign_to_initial_node num_x_grid delta_x delta_y)
    nodes0
  pure ((nodes1.filter (fun node => !node.keypts_.isEmpty)).map
    (fun node => { node with is_leaf_node_ := (node.keypts_.length == 1) }))

/-- The working state of `distribute_keypoints_via_tree`: the list `nodes`, the vector
`leaf_nodes_pool` (keypoint count and the node pointed to) and the next free cell identity. -/
structure tree_state where
  nodes : List orb_extractor_node
  leaf_nodes_pool : List (Nat × orb_extractor_node)
  fresh : Nat
deriving DecidableEq

/-- The method `orb_extractor::assign_child_nodes`. -/
def assign_child_nodes (child_nodes : List orb_extractor_node) (st : tree_state) : tree_state :=
  child_nodes.foldl (fun st child_node =>
    if child_node.keypts_.isEmpty then st
    else
      let cell := { child_node with iter_ := st.fresh }
      if child_node.keypts_.length = 1 then
        { st with nodes := cell :: st.nodes, fresh := st.fresh + 1 }
      else
        { nodes := cell :: st.nodes,
          leaf_nodes_pool := st.leaf_nodes_pool ++ [(child_node.keypts_.length, cell)],
          fresh := st.fresh + 1 }) st

/-- The inner loop `while (iter != nodes.end())` of the first loop of
`distribute_keypoints_via_tree`.  `rest` are the cells from `iter` on, `kept` the cells already
passed (in order); the cells pushed to the front are in `st.nodes`. -/
def fork_nodes (cv : external) :
    List orb_extractor_node → List orb_extractor_node → tree_state → tree_state
  | [], kept, st => { st with nodes := st.nodes ++ kept }
  | node :: rest, kept, st =>
    if node.is_leaf_node_ then fork_nodes cv rest (kept ++ [node]) st
    else fork_nodes cv rest kept (assign_child_nodes (cv.divide_node node) st)

/-- The first loop `while (true)` of `distribute_keypoints_via_tree`: the state at the `break`
and the flag `is_filled`. -/
def fork_loop (cv : external) (num_keypts : Nat) : Nat → tree_state → Option (tree_state × Bool)
  | 0, _ => none
  | fuel + 1, st =>
    let prev_size := st.nodes.length
    let st1 := fork_nodes cv st.nodes [] { st with nodes := [], leaf_nodes_pool := [] }
    if num_keypts ≤ st1.nodes.length ∨ st1.nodes.length = prev_size then some (st1, true)
    else if num_keypts < st1.nodes.length + st1.leaf_nodes_pool.length then some (st1, false)
    else fork_loop cv num_keypts fuel st1

/-- The loop `for (const auto& prev_leaf_node : prev_leaf_nodes_pool)` of the second loop, for
one value of `target_num_keypts`; it stops at the `break`. -/
def select_for_target (cv : external) (num_keypts target_num_keypts : Nat) :
    List (Nat × orb_extractor_node) → tree_state × Bool → tree_state × Bool
  | [], r => r
  | prev_leaf_node :: rest, (st, is_filled) =>
    if prev_leaf_node.1 = target_num_keypts then
      let st1 := assign_child_nodes (cv.divide_node prev_leaf_node.2) st
      let st2 := { st1 with
        nodes := st1.nodes.eraseP (fun node => node.iter_ == prev_leaf_node.2.iter_) }
      if num_keypts ≤ st2.nodes.length then (st2, true)
      else select_for_target cv num_keypts target_num_keypts rest (st2, is_filled)
    else select_for_target cv num_keypts target_num_keypts rest (st, is_filled)

/-- The second loop `while (!is_filled)` of `distribute_keypoints_via_tree`. -/
def select_loop (cv : external) (num_keypts : Nat) : Nat → tree_state → Option tree_state
  | 0, _ => none
  | fuel + 1, st =>
    let prev_size := st.nodes.length
    let prev_leaf_nodes_pool := st.leaf_nodes_pool
    let max_num_keypts := (prev_leaf_nodes_pool.map (fun prev_leaf_node => prev_leaf_node.1)).foldl
      (fun m c => if m < c then c else m) 0
    let r := ((List.range max_num_keypts).reverse.map (fun t => t + 1)).foldl
      (fun r target_num_keypts =>
        select_for_target cv num_keypts target_num_keypts prev_leaf_nodes_pool r)
      ({ st with leaf_nodes_pool := [] }, false)
    if r.2 ∨ num_keypts ≤ r.1.nodes.length ∨ r.1.nodes.length = prev_size then some r.1
    else select_loop cv num_keypts fuel r.1

/-- The loop of `find_keypoints_with_max_response` over the keypoints `1 ..` of one node: the
final value of `(keypt, max_response)`. -/
def max_response_keypoint (node_keypts : List KeyPoint) (keypt : KeyPoint) : KeyPoint :=
  (node_keypts.foldl (fun (r : KeyPoint × ℚ) (k : KeyPoint) =>
    if k.response > r.2 then (k, k.response) else r) (keypt, keypt.response)).1

/-- The method `orb_extractor::find_keypoints_with_max_response`. -/
def find_keypoints_with_max_response (nodes : List orb_extractor_node) :
    Option (List KeyPoint) :=
  nodes.mapM (fun node => do
    let keypt ← vector_at node.keypts_ 0
    pure (max_response_keypoint (node.keypts_.drop 1) keypt))

/-- The method `orb_extractor::distribute_keypoints_via_tree`. -/
def distribute_keypoints_via_tree (cv : external) (fuel : Nat)
    (keypts_to_distribute : List KeyPoint) (min_x max_x min_y max_y : Int) (num_keypts : Nat) :
    Option (List KeyPoint) := do
  let nodes ← initialize_nodes keypts_to_distribute min_x max_x min_y max_y
  let r ← fork_loop cv num_keypts fuel { nodes := nodes, leaf_nodes_pool := [], fresh := 1 }
  let st ← if r.2 then some r.1 else select_loop cv num_keypts fuel r.1
  find_keypoints_with_max_response st.nodes

/-! ## Detection of the FAST keypoints -/

/-- The constant `overlap` of `compute_fast_keypoints`. -/
def overlap : Nat := 6

/-- The constant `cell_size` of `compute_fast_keypoints`. -/
def cell_size : Nat := 64

/-- The anonymous function `is_in_mask` of `compute_fast_keypoints`. -/
def is_in_mask (mask : Mat) (y x : Nat) (scale_factor : ℚ) : Bool :=
  mask.at_uchar (truncate ((y : ℚ) * scale_factor)) (truncate ((x : ℚ) * scale_factor)) == 0

/-- The body of the loop over `j` of `compute_fast_keypoints`: the keypoints which the cell
`(i, j)` appends to `keypts_to_distribute`. -/
def fast_keypoints_in_cell (cv : external) (p : orb_params) (image mask : Mat)
    (scale_factor : ℚ) (max_border_x min_y max_y i j : Nat) : Option (List KeyPoint) :=
  let min_x := uadd orb_patch_radius_ (umul j cell_size)
  if usub max_border_x overlap ≤ min_x then some []
  else
    let max_x := if max_border_x < uadd (uadd min_x cell_size) overlap then max_border_x
      else uadd (uadd min_x cell_size) overlap
    if !mask.empty && (is_in_mask mask min_y min_x scale_factor
        || is_in_mask mask max_y min_x scale_factor
        || is_in_mask mask min_y max_x scale_factor
        || is_in_mask mask max_y max_x scale_factor) then some []
    else do
      let image_rows ← image.rowRange (to_int min_y) (to_int max_y)
      let cell ← image_rows.colRange (to_int min_x) (to_int max_x)
      let keypts_in_cell :=
        if (cv.FAST cell p.ini_fast_thr_).isEmpty then cv.FAST cell p.min_fast_thr_
        else cv.FAST cell p.ini_fast_thr_
      let moved := keypts_in_cell.map (fun keypt =>
        { keypt with pt := ⟨keypt.pt.x + (umul j cell_size : ℚ),
                            keypt.pt.y + (umul i cell_size : ℚ)⟩ })
      pure (moved.filter (fun keypt =>
        !(!mask.empty && is_in_mask mask
            (to_unsigned (truncate ((orb_patch_radius_ : ℚ) + keypt.pt.y)))
            (to_unsigned (truncate ((orb_patch_radius_ : ℚ) + keypt.pt.x))) scale_factor)))

/-- The body of the loop over `i` of `compute_fast_keypoints`: the keypoints which the row `i`
of cells appends to `keypts_to_distribute`. -/
def fast_keypoints_in_row (cv : external) (p : orb_params) (image mask : Mat)
    (scale_factor : ℚ) (max_border_x max_border_y num_cols i : Nat) : Option (List KeyPoint) :=
  let min_y := uadd orb_patch_radius_ (umul i cell_size)
  if usub max_border_y overlap ≤ min_y then some []
  else
    let max_y := if max_border_y < uadd (uadd min_y cell_size) overlap then max_border_y
      else uadd (uadd min_y cell_size) overlap
    ((List.range num_cols).mapM
      (fast_keypoints_in_cell cv p image mask scale_factor max_border_x min_y max_y i)).map
      List.flatten

/-- The body of the first loop over the levels of `compute_fast_keypoints`: the value of
`all_keypts.at(level)` before the orientations are computed. -/
def fast_keypoints_at_level (cv : external) (fuel : Nat) (e : orb_extractor) (mask : Mat)
    (level : Nat) : Option (List KeyPoint) := do
  let scale_factor ← vector_at e.orb_params_.scale_factors_ level
  let image ← vector_at e.image_pyramid_ level
  let max_border_x := usub image.cols orb_patch_radius_
  let max_border_y := usub image.rows orb_patch_radius_
  let width := usub max_border_x orb_patch_radius_
  let height := usub max_border_y orb_patch_radius_
  let num_cols := uadd (width / cell_size) 1
  let num_rows := uadd (height / cell_size) 1
  let keypts_to_distribute ← ((List.range num_rows).mapM
    (fast_keypoints_in_row cv e.orb_params_ image mask scale_factor max_border_x max_border_y
      num_cols)).map List.flatten
  let num_keypts ← vector_at e.num_keypts_per_level_ level
  let keypts_at_level ← distribute_keypoints_via_tree cv fuel keypts_to_distribute
    (to_int orb_patch_radius_) (to_int max_border_x) (to_int orb_patch_radius_)
    (to_int max_border_y) num_keypts
  let scaled_patch_size := to_unsigned (truncate ((fast_patch_size_ : ℚ) * scale_factor))
  pure (keypts_at_level.map (fun keypt =>
    { keypt with pt := ⟨keypt.pt.x + (orb_patch_radius_ : ℚ), keypt.pt.y + (orb_patch_radius_ : ℚ)⟩,
                 octave := (level : Int), size := (scaled_patch_size : ℚ) }))

/-- The method `orb_extractor::compute_fast_keypoints`: the final value of `all_keypts`. -/
def compute_fast_keypoints (cv : external) (fuel : Nat) (e : orb_extractor) (mask : Mat) :
    Option (List (List KeyPoint)) := do
  let all_keypts ← (List.range e.orb_params_.num_levels_).mapM
    (fast_keypoints_at_level cv fuel e mask)
  (List.range e.orb_params_.num_levels_).mapM (fun level => do
    let image ← vector_at e.image_pyramid_ level
    let keypts ← vector_at all_keypts level
    compute_orientation cv e image keypts)

/-! ## `orb_extractor::extract` -/

/-- The matrix made by `out_descriptors.create(rows, 32, CV_8U)`.  Its content is unspecified
until written; `extract` writes every row. -/
def create_descriptors (rows : Nat) : Mat := Mat.filled rows 32 0

/-- The effect on `descriptors` of writing `rows` through the view
`descriptors.rowRange(offset, offset + rows.size())`. -/
def write_rows (descriptors : Mat) (offset : Nat) (rows : List (List Nat)) : Mat :=
  { descriptors with
    data := descriptors.data.take offset ++ rows ++ descriptors.data.drop (offset + rows.length) }

/-- The body of the second loop over the levels of `extract`; the state is
`(keypts, descriptors, offset)`.  The assignment of `cv::Mat::zeros` in
`compute_orb_descriptors` keeps the buffer of the view, which has the size and type assigned, so
the rows computed there are the rows `offset ..` of `descriptors`. -/
def extract_level (cv : external) (e : orb_extractor) (all_keypts : List (List KeyPoint))
    (st : List KeyPoint × Mat × Nat) (level : Nat) : Option (List KeyPoint × Mat × Nat) := do
  let keypts_at_level ← vector_at all_keypts level
  let num_keypts_at_level := keypts_at_level.length
  if num_keypts_at_level = 0 then pure st
  else do
    let image ← vector_at e.image_pyramid_ level
    let blurred_image := cv.GaussianBlur image
    let _ ← st.2.1.rowRange (to_int st.2.2) (to_int (uadd st.2.2 num_keypts_at_level))
    let descriptors := write_rows st.2.1 st.2.2
      (compute_orb_descriptors cv blurred_image keypts_at_level)
    let offset := uadd st.2.2 num_keypts_at_level
    let corrected ← correct_keypoint_scale e keypts_at_level level
    pure (st.1 ++ corrected, descriptors, offset)

/-- The first part of `extract` for a non-empty image (up to the selection of the mask and the
call of `compute_fast_keypoints`): the extractor after it and `all_keypts`. -/
def extract_detect (cv : external) (fuel : Nat) (e : orb_extractor) (in_image in_image_mask : Mat) :
    Option (orb_extractor × List (List KeyPoint)) := do
  let image_pyramid ← compute_image_pyramid cv e in_image
  let e1 := { e with image_pyramid_ := image_pyramid }
  let e2 ←
    if !e1.mask_is_initialized_ && !e1.mask_rects_.isEmpty then do
      let rect_mask ← create_rectangle_mask cv e1 in_image.cols in_image.rows
      pure { e1 with rect_mask_ := rect_mask, mask_is_initialized_ := true }
    else pure e1
  let all_keypts ← compute_fast_keypoints cv fuel e2
    (if !in_image_mask.empty then in_image_mask
     else if !e2.rect_mask_.empty then e2.rect_mask_ else Mat.released)
  pure (e2, all_keypts)

/-- The second part of `extract` (from the declaration of `descriptors` on): the final values
of `keypts` and `out_descriptors`. -/
def extract_describe (cv : external) (e : orb_extractor) (all_keypts : List (List KeyPoint)) :
    Option (List KeyPoint × Mat) := do
  let num_keypts ← (List.range e.orb_params_.num_levels_).foldlM
    (fun (n : Nat) (level : Nat) => do
      let keypts_at_level ← vector_at all_keypts level
      pure (uadd n keypts_at_level.length)) 0
  let descriptors := if num_keypts = 0 then Mat.released else create_descriptors num_keypts
  let st ← (List.range e.orb_params_.num_levels_).foldlM (extract_level cv e all_keypts)
    ([], descriptors, 0)
  pure (st.1, st.2.1)

/-- The method `orb_extractor::extract`: the extractor, `keypts` and `out_descriptors` after the
call. -/
def extract (cv : external) (fuel : Nat) (e : orb_extractor) (in_image in_image_mask : Mat)
    (keypts : List KeyPoint) (out_descriptors : Mat) :
    Option (orb_extractor × List KeyPoint × Mat) :=
  if in_image.empty then some (e, keypts, out_descriptors)
  else do
    let detected ← extract_detect cv fuel e in_image in_image_mask
    let described ← extract_describe cv detected.1 detected.2
    pure (detected.1, described.1, described.2)

/-! ## Concrete stand-ins for the external functions -/

/-- Modelled from the spec: the method `orb_extractor_node::divide_node`, whose code is not among
the translated files.  It splits a node's keypoints among four children, the quadrants of the
node's patch. -/
def divide_node_quadrants (node : orb_extractor_node) : List orb_extractor_node :=
  let half_x : Int := (node.pt_end_.x - node.pt_begin_.x + 1) / 2
  let half_y : Int := (node.pt_end_.y - node.pt_begin_.y + 1) / 2
  let right (keypt : KeyPoint) : Bool := ((node.pt_begin_.x + half_x : Int) : ℚ) ≤ keypt.pt.x
  let below (keypt : KeyPoint) : Bool := ((node.pt_begin_.y + half_y : Int) : ℚ) ≤ keypt.pt.y
  let child (pt_begin pt_end : Point2i) (keypts : List KeyPoint) : orb_extractor_node :=
    { keypts_ := keypts, pt_begin_ := pt_begin, pt_end_ := pt_end,
      is_leaf_node_ := (keypts.length == 1), iter_ := 0 }
  [ child node.pt_begin_ ⟨node.pt_begin_.x + half_x, node.pt_begin_.y + half_y⟩
      (node.keypts_.filter (fun k => !right k && !below k)),
    child ⟨node.pt_begin_.x + half_x, node.pt_begin_.y⟩ ⟨node.pt_end_.x, node.pt_begin_.y + half_y⟩
      (node.keypts_.filter (fun k => right k && !below k)),
    child ⟨node.pt_begin_.x, node.pt_begin_.y + half_y⟩ ⟨node.pt_begin_.x + half_x, node.pt_end_.y⟩
      (node.keypts_.filter (fun k => !right k && below k)),
    child ⟨node.pt_begin_.x + half_x, node.pt_begin_.y + half_y⟩ node.pt_end_
      (node.keypts_.filter (fun k => right k && below k)) ]

/-- A stand-in for the OpenCV primitives, for concrete runs of the model: `FAST` reports the
pixels brighter than `255 - threshold` (response: the pixel value), `resize` samples the nearest
pixel, the blur is the identity, `rectangle` fills the closed rectangle with 0, angles are 0 and
rounding is `std_round`. -/
def cv_stand_in : external where
  resize := fun src width height =>
    ⟨height.toNat, width.toNat, (List.range height.toNat).map (fun (y : Nat) =>
      (List.range width.toNat).map (fun (x : Nat) =>
        src.at_uchar ((y * src.rows / height.toNat : Nat) : Int)
          ((x * src.cols / width.toNat : Nat) : Int)))⟩
  FAST := fun image threshold =>
    (List.range image.rows).flatMap (fun (y : Nat) =>
      ((List.range image.cols).filter (fun (x : Nat) =>
        255 < image.at_uchar (y : Int) (x : Int) + threshold)).map (fun (x : Nat) =>
          { pt := ⟨(x : ℚ), (y : ℚ)⟩, size := 7, angle := -1,
            response := (image.at_uchar (y : Int) (x : Int) : ℚ), octave := 0, class_id := -1 }))
  GaussianBlur := fun m => m
  rectangle := fun m x_min y_min x_max y_max =>
    { m with data := (List.range m.rows).map (fun (y : Nat) => (List.range m.cols).map (fun (x : Nat) =>
        if x_min ≤ (x : Int) ∧ (x : Int) ≤ x_max ∧ y_min ≤ (y : Int) ∧ (y : Int) ≤ y_max then 0
        else m.at_uchar (y : Int) (x : Int))) }
  fastAtan2 := fun _ _ => 0
  cvRound := std_round
  cos := fun _ => 1
  sin := fun _ => 0
  orb_point_pairs := fun k => ((k % 7 : Nat) : ℚ) - 3
  divide_node := divide_node_quadrants

/-! ## `module::relocalizer` -/

/-- The arguments of the constructor `relocalizer::relocalizer`. -/
structure relocalizer_args where
  bow_match_lowe_ratio : ℚ
  proj_match_lowe_ratio : ℚ
  robust_match_lowe_ratio : ℚ
  min_num_bow_matches : Nat
  min_num_valid_obs : Nat
deriving DecidableEq

/-- The default arguments in the declaration of the constructor `relocalizer::relocalizer`. -/
def relocalizer_default_args : relocalizer_args :=
  { bow_match_lowe_ratio := 0.75, proj_match_lowe_ratio := 0.9, robust_match_lowe_ratio := 0.8,
    min_num_bow_matches := 20, min_num_valid_obs := 50 }

/-- The members of `module::relocalizer` set from the constructor's arguments; of each matcher
only its Lowe ratio is kept. -/
structure relocalizer where
  min_num_bow_matches_ : Nat
  min_num_valid_obs_ : Nat
  bow_matcher_lowe_ratio_ : ℚ
  proj_matcher_lowe_ratio_ : ℚ
  robust_matcher_lowe_ratio_ : ℚ
deriving DecidableEq

/-- Modelled from the spec: the definition of the constructor `relocalizer::relocalizer`, which
is in `relocalizer.cc`, not among the translated files.  The thresholds are stored in the members
and each matcher takes its Lowe ratio. -/
def relocalizer_new (args : relocalizer_args) : relocalizer :=
  { min_num_bow_matches_ := args.min_num_bow_matches,
    min_num_valid_obs_ := args.min_num_valid_obs,
    bow_matcher_lowe_ratio_ := args.bow_match_lowe_ratio,
    proj_matcher_lowe_ratio_ := args.proj_match_lowe_ratio,
    robust_matcher_lowe_ratio_ := args.robust_match_lowe_ratio }

/-! ## `mapping_module` -/

/-- The flags, the keyframe queue (keyframe ids) and the configuration of `mapping_module`. -/
structure mapping_module where
  reset_is_requested_ : Bool
  pause_is_requested_ : Bool
  is_paused_ : Bool
  prevent_pause_ : Bool
  terminate_is_requested_ : Bool
  is_terminated_ : Bool
  keyfrms_queue_ : List Nat
  abort_local_BA_ : Bool
  is_idle_ : Bool
  use_baseline_dist_thr_ratio_ : Bool
  baseline_dist_thr_ratio_ : ℚ
  baseline_dist_thr_ : ℚ
  queue_threshold_ : Nat
deriving DecidableEq

/-- The module given by the default member initializers of `mapping_module.h`. -/
def mapping_module_default : mapping_module :=
  { reset_is_requested_ := false, pause_is_requested_ := false, is_paused_ := false,
    prevent_pause_ := false, terminate_is_requested_ := false, is_terminated_ := true,
    keyfrms_queue_ := [], abort_local_BA_ := false, is_idle_ := true,
    use_baseline_dist_thr_ratio_ := true, baseline_dist_thr_ratio_ := 0.02,
    baseline_dist_thr_ := 1.0, queue_threshold_ := 2 }

/-- Modelled from the spec: the operations of `mapping_module` on its queue and flags; their
code is in `mapping_module.cc`, not among the translated files.  They are the non-const member
functions `queue_keyframe`, `abort_local_BA`, `set_is_idle`, `stop_prevent_pause` and `reset`
declared in `mapping_module.h`. -/
inductive mapping_operation where
  | queue_keyframe (keyfrm : Nat)
  | abort_local_BA
  | set_is_idle (is_idle : Bool)
  | stop_prevent_pause
  | reset
deriving DecidableEq

/-- Modelled from the spec: the effect of an operation of `mapping_module`.  The member
`queue_threshold_` is declared `const`, so no operation assigns it. -/
def mapping_module.apply (m : mapping_module) : mapping_operation → mapping_module
  | .queue_keyframe keyfrm => { m with keyfrms_queue_ := m.keyfrms_queue_ ++ [keyfrm] }
  | .abort_local_BA => { m with abort_local_BA_ := true }
  | .set_is_idle is_idle => { m with is_idle_ := is_idle }
  | .stop_prevent_pause => { m with prevent_pause_ := false }
  | .reset => { m with keyfrms_queue_ := [], reset_is_requested_ := false }

/-- Modelled from the spec: the method `mapping_module::get_num_queued_keyframes`, the size of the
keyframe queue. -/
def mapping_module.get_num_queued_keyframes (m : mapping_module) : Nat := m.keyfrms_queue_.length

/-- Modelled from the spec: the method `mapping_module::is_skipping_localBA`, whose code is in
`mapping_module.cc`, not among the translated files: "If the size of the queue exceeds this
threshold, skip the localBA". -/
def mapping_module.is_skipping_localBA (m : mapping_module) : Bool :=
  decide (m.queue_threshold_ < m.get_num_queued_keyframes)

/-! ## `camera::radial_division` -/

/-- The type `Vec3_t`. -/
structure Vec3_t (α : Type) where
  x : α
  y : α
  z : α

/-- The squared Euclidean norm of a `Vec3_t`. -/
def Vec3_t.squaredNorm {α : Type} [Field α] (v : Vec3_t α) : α := v.x * v.x + v.y * v.y + v.z * v.z

/-- The intrinsic members of `camera::radial_division`. -/
structure radial_division (α : Type) where
  fx_ : α
  fy_ : α
  cx_ : α
  cy_ : α
  distortion_ : α

/-- The method `radial_division::convert_point_to_bearing`, over a field with the square root
`sqrt` standing for `std::sqrt`. -/
def radial_division.convert_point_to_bearing {α : Type} [Field α] (sqrt : α → α)
    (cam : radial_division α) (undist_pt : Point_ α) : Vec3_t α :=
  let x_normalized := (undist_pt.x - cam.cx_) / cam.fx_
  let y_normalized := (undist_pt.y - cam.cy_) / cam.fy_
  let l2_norm := sqrt (x_normalized * x_normalized + y_normalized * y_normalized + 1)
  ⟨x_normalized / l2_norm, y_normalized / l2_norm, 1 / l2_norm⟩

/-! ## Concrete inputs -/

/-- An extractor with eight levels of scale factor 1.2. -/
def extractor_eight_levels : orb_extractor :=
  { orb_params_ :=
      { scale_factor_ := 6 / 5, num_levels_ := 8, ini_fast_thr_ := 20, min_fast_thr_ := 7,
        scale_factors_ := (List.range 8).map (fun l => (6 / 5 : ℚ) ^ l) },
    mask_rects_ := [], image_pyramid_ := [], max_num_keypts_ := 1000,
    mask_is_initialized_ := false, rect_mask_ := Mat.released, num_keypts_per_level_ := [],
    u_max_ := [] }

/-- The extractor of eight levels of scale factor 1.2 asked for seven keypoints. -/
def extractor_seven_keypoints : orb_extractor :=
  { extractor_eight_levels with max_num_keypts_ := 7 }

/-! ## The output of `extract`, level by level -/

/-- The keypoints of `level` as `extract` appends them to `keypts`, each paired with the row
which `extract` writes for it into the descriptors: the keypoint with its position corrected
to the scale of the level, and the descriptor computed for the keypoint on the blurred image of
the level. -/
def described_level (cv : external) (e : orb_extractor) (all_keypts : List (List KeyPoint))
    (level : Nat) : List (KeyPoint × List Nat) :=
  (all_keypts.getD level []).map (fun keypt =>
    (if level = 0 then keypt
     else { keypt with pt :=
        ⟨keypt.pt.x * e.orb_params_.scale_factors_.getD level 0,
         keypt.pt.y * e.orb_params_.scale_factors_.getD level 0⟩ },
     compute_orb_descriptor cv keypt
       (cv.GaussianBlur (e.image_pyramid_.getD level Mat.released))))

/-- The number of keypoints of the levels `0 .. k - 1` of `all_keypts`. -/
def keypoint_count (all_keypts : List (List KeyPoint)) (k : Nat) : Nat :=
  ((List.range k).map (fun level => (all_keypts.getD level []).length)).sum

/-- The keypoints of the levels `0 .. k - 1` with their descriptor rows, level after level. -/
def described_levels (cv : external) (e : orb_extractor) (all_keypts : List (List KeyPoint))
    (k : Nat) : List (KeyPoint × List Nat) :=
  ((List.range k).map (described_level cv e all_keypts)).flatten

/-- A FAST keypoint at `(x, y)` with the given response. -/
def fast_keypoint (x y response : ℚ) : KeyPoint :=
  { pt := ⟨x, y⟩, size := 7, angle := -1, response := response, octave := 0, class_id := -1 }

/-- Two keypoints, one in each half of a detection area 200 wide and 100 high. -/
def two_keypoints : List KeyPoint := [fast_keypoint 50 50 1, fast_keypoint 150 50 2]

/-- Five keypoints spread over the four quadrants of a detection area 100 wide and 100 high. -/
def five_keypoints : List KeyPoint :=
  [fast_keypoint 10 10 1, fast_keypoint 60 10 2, fast_keypoint 10 60 3, fast_keypoint 60 60 4,
   fast_keypoint 61 61 5]

/-! ## Assumptions under which `extract` returns -/

/-- The extractor as its constructor leaves it: at least one level, and the pyramid, the scale
factors and the quotas have one entry per level; the table `u_max_` covers the half patch, and
every mask rectangle has its four entries. -/
structure orb_extractor.well_formed (e : orb_extractor) : Prop where
  levels : 1 ≤ e.orb_params_.num_levels_
  pyramid : e.image_pyramid_.length = e.orb_params_.num_levels_
  scale_factors : e.orb_params_.scale_factors_.length = e.orb_params_.num_levels_
  quotas : e.num_keypts_per_level_.length = e.orb_params_.num_levels_
  u_max : fast_half_patch_size_ < e.u_max_.length
  mask_rects : ∀ mask_rect ∈ e.mask_rects_, 4 ≤ mask_rect.length

/-- What the extractor relies on in the external functions: `cv::FAST` reports keypoints inside
the image it is given, and `divide_node` leaves at least one keypoint of a non-empty node in
one of the children. -/
structure external.sound (cv : external) : Prop where
  FAST_in_image : ∀ (image : Mat) (threshold : Nat), ∀ keypt ∈ cv.FAST image threshold,
    0 ≤ keypt.pt.x ∧ keypt.pt.x < (image.cols : ℚ) ∧ 0 ≤ keypt.pt.y ∧ keypt.pt.y < (image.rows : ℚ)
  divide_node_keeps : ∀ node : orb_extractor_node, node.keypts_ ≠ [] →
    ∃ child ∈ cv.divide_node node, child.keypts_ ≠ []

/-- An image of a pyramid level in which the detection area (the image without a border of
`orb_patch_radius_` pixels) is not empty, and whose sizes fit an `int`. -/
def level_fits (image : Mat) : Prop :=
  2 * orb_patch_radius_ < image.cols ∧ image.cols < 2147483648 ∧
  2 * orb_patch_radius_ < image.rows ∧ image.rows < 2147483648

/-- Every node of the list and every node of the pool holds a keypoint. -/
def tree_state.nonempty (st : tree_state) : Prop :=
  (∀ node ∈ st.nodes, node.keypts_ ≠ []) ∧
  (∀ prev_leaf_node ∈ st.leaf_nodes_pool, prev_leaf_node.2.keypts_ ≠ [])

/-- An image of 56 by 56 pixels, dark but for two bright pixels. -/
def two_corner_image : Mat :=
  ⟨56, 56, (List.range 56).map (fun (y : Nat) => (List.range 56).map (fun (x : Nat) =>
    if (y, x) = (27, 27) ∨ (y, x) = (22, 30) then 250 else 10))⟩

/-- The extractor constructed for ten keypoints over two levels of scale factor 1.2. -/
def extractor_two_levels : orb_extractor :=
  { orb_params_ :=
      { scale_factor_ := 6 / 5, num_levels_ := 2, ini_fast_thr_ := 20, min_fast_thr_ := 7,
        scale_factors_ := [1, 6 / 5] },
    mask_rects_ := [], image_pyramid_ := [Mat.released, Mat.released], max_num_keypts_ := 10,
    mask_is_initialized_ := false, rect_mask_ := Mat.released, num_keypts_per_level_ := [5, 5],
    u_max_ := [15, 15, 15, 15, 14, 14, 14, 13, 13, 12, 11, 10, 9, 8, 6, 3] }

/-- The test of `level_fits`, as a Boolean. -/
def level_fits_check (image : Mat) : Bool :=
  decide (2 * orb_patch_radius_ < image.cols) && decide (image.cols < 2147483648) &&
  decide (2 * orb_patch_radius_ < image.rows) && decide (image.rows < 2147483648)

/-- Two nodes: the first holds three keypoints, the last two of which tie for the maximum
response; the second holds one keypoint. -/
def two_nodes : List orb_extractor_node :=
  [ { keypts_ := [fast_keypoint 1 1 3, fast_keypoint 2 2 5, fast_keypoint 3 3 5],
      pt_begin_ := ⟨0, 0⟩, pt_end_ := ⟨50, 100⟩, is_leaf_node_ := false, iter_ := 0 },
    { keypts_ := [fast_keypoint 60 4 2],
      pt_begin_ := ⟨50, 0⟩, pt_end_ := ⟨100, 100⟩, is_leaf_node_ := true, iter_ := 0 } ]

/-- Three keypoints of level 2 with different octaves, angles, sizes and responses. -/
def three_keypoints : List KeyPoint :=
  [ { pt := ⟨30, 40⟩, size := 44, angle := 90, response := 25, octave := 2, class_id := -1 },
    { pt := ⟨21, 19⟩, size := 44, angle := 7 / 2, response := 60, octave := 2, class_id := -1 },
    { pt := ⟨30, 40⟩, size := 31, angle := 0, response := 12, octave := 0, class_id := 3 } ]

/-! ## `marker_detector::aruco` in a build without ArUco -/

/-- The class `marker_model::base`: the width of a marker and the positions of its corners. -/
structure marker_model.base where
  width_ : ℚ
  corners_pos_ : List (Vec3_t ℚ)

/-- The class `marker_detector::aruco` of `aruco_disabled.cc`: what its constructor hands to
the constructor of `marker_detector::base` (the camera is a pointer, kept as its address). -/
structure marker_detector.aruco where
  camera : Nat
  marker_model : marker_model.base
  num_iter : Nat
  reproj_error_threshold : ℚ

/-- The constructor `marker_detector::aruco::aruco` of `aruco_disabled.cc`. -/
def marker_detector.aruco_new (camera : Nat) (marker_model : marker_model.base) (num_iter : Nat)
    (reproj_error_threshold : ℚ) : marker_detector.aruco :=
  ⟨camera, marker_model, num_iter, reproj_error_threshold⟩

/-- The static method `marker_detector::aruco::is_valid` of `aruco_disabled.cc`. -/
def marker_detector.aruco.is_valid : Bool := false

/-- The method `marker_detector::aruco::detect_2d` of `aruco_disabled.cc`: the values of
`corners` and `ids` after the call. -/
def marker_detector.aruco.detect_2d (_detector : marker_detector.aruco) (_in_image : Mat)
    (corners : List (List Point2f)) (ids : List Int) : List (List Point2f) × List Int :=
  (corners, ids)

/-- The part of `extract` before the selection of the mask, for a non-empty image: the
extractor after `compute_image_pyramid` and the initialization of the rectangle mask. -/
def extract_prepare (cv : external) (e : orb_extractor) (in_image : Mat) : Option orb_extractor := do
  let image_pyramid ← compute_image_pyramid cv e in_image
  let e1 := { e with image_pyramid_ := image_pyramid }
  if !e1.mask_is_initialized_ && !e1.mask_rects_.isEmpty then do
    let rect_mask ← create_rectangle_mask cv e1 in_image.cols in_image.rows
    pure { e1 with rect_mask_ := rect_mask, mask_is_initialized_ := true }
  else pure e1

/-- The part of `extract` after the selection of the mask: `compute_fast_keypoints` with the
mask selected, and the descriptors. -/
def extract_with_mask (cv : external) (fuel : Nat) (e2 : orb_extractor) (mask : Mat) :
    Option (orb_extractor × List KeyPoint × Mat) := do
  let all_keypts ← compute_fast_keypoints cv fuel e2 mask
  let described ← extract_describe cv e2 all_keypts
  pure (e2, described.1, described.2)

/-- A mask of 56 by 56 pixels which hides the left half of the image. -/
def left_half_mask : Mat :=
  ⟨56, 56, (List.range 56).map (fun (_ : Nat) => (List.range 56).map (fun (x : Nat) =>
    if x < 28 then 0 else 255))⟩

end openvslam

/-! # Theorems -/

namespace openvslam

/-! ## Vectors and machine arithmetic -/

theorem usub_one {n : Nat} (h : 1 ≤ n) : usub n 1 = n - 1 := by
  simp [usub, h]

theorem vector_set_append_cons {α : Type} (l : List α) (x a : α) (r : List α) :
    vector_set (l ++ x :: r) l.length a = some (l ++ a :: r) := by
  simp [vector_set]

theorem vector_at_append_cons {α : Type} (l : List α) (x : α) (r : List α) :
    vector_at (l ++ x :: r) l.length = some x := by
  unfold vector_at
  rw [List.get?_eq_getElem?, List.getElem?_append_right (le_refl _)]
  simp

theorem to_unsigned_of_nonneg {z : Int} (h0 : 0 ≤ z) (h1 : z < 4294967296) :
    to_unsigned z = z.toNat := by
  unfold to_unsigned
  rw [Int.emod_eq_of_lt h0 h1]

theorem std_round_nonneg {x : ℚ} (h : 0 ≤ x) : 0 ≤ std_round x := by
  unfold std_round
  rw [if_pos h]
  exact Int.floor_nonneg.2 (by linarith)

theorem std_round_le {x : ℚ} (h : 0 ≤ x) : (std_round x : ℚ) ≤ x + 1 / 2 := by
  unfold std_round
  rw [if_pos h]
  exact Int.floor_le _

/-! ## The quotas computed by `initialize` -/

theorem quota_fold (sf d : ℚ) (quotas0 : List Nat) (k : Nat) (hk : k ≤ quotas0.length) :
    (List.range k).foldlM (quota_step sf) (quotas0, 0, d) =
      some ((List.range k).map (fun l => to_unsigned (std_round (d * (1 / sf) ^ l)))
          ++ quotas0.drop k,
        ((List.range k).map (fun l => to_unsigned (std_round (d * (1 / sf) ^ l)))).sum
          % 4294967296,
        d * (1 / sf) ^ k) := by
  induction k with
  | zero => simp
  | succ k ih =>
    have hk1 : k < quotas0.length := hk
    rw [List.range_succ, List.foldlM_append, ih (Nat.le_of_lt hk1)]
    have hdrop : quotas0.drop k = quotas0[k] :: quotas0.drop (k + 1) :=
      List.drop_eq_getElem_cons hk1
    have h1 := vector_set_append_cons
      ((List.range k).map (fun l => to_unsigned (std_round (d * (1 / sf) ^ l)))) quotas0[k]
      (to_unsigned (std_round (d * (1 / sf) ^ k))) (quotas0.drop (k + 1))
    have h2 := vector_at_append_cons
      ((List.range k).map (fun l => to_unsigned (std_round (d * (1 / sf) ^ l))))
      (to_unsigned (std_round (d * (1 / sf) ^ k))) (quotas0.drop (k + 1))
    simp only [List.length_map, List.length_range] at h1 h2
    simp only [List.foldlM_cons, List.foldlM_nil, quota_step, hdrop, Option.bind_eq_bind,
      Option.some_bind, h1, h2, Option.pure_def, Option.bind_some]
    simp [uadd, pow_succ, mul_assoc, Nat.add_mod]

theorem inv_scale_pos {sf : ℚ} (hsf : 1 < sf) : 0 < 1 / sf := by
  have : 0 < sf := by linarith
  positivity

theorem inv_scale_lt_one {sf : ℚ} (hsf : 1 < sf) : 1 / sf < 1 := by
  have h0 : 0 < sf := by linarith
  rw [div_lt_one h0]
  exact hsf

theorem inv_scale_pow_lt_one {sf : ℚ} (hsf : 1 < sf) {n : Nat} (hn : 1 ≤ n) :
    (1 / sf) ^ n < 1 :=
  pow_lt_one₀ (le_of_lt (inv_scale_pos hsf)) (inv_scale_lt_one hsf) (by omega)

theorem desired_nonneg (max_num_keypts : Nat) (p : orb_params) (hsf : 1 < p.scale_factor_)
    (hn : 1 ≤ p.num_levels_) : 0 ≤ desired_num_keypts_per_scale max_num_keypts p := by
  unfold desired_num_keypts_per_scale
  have h1 := inv_scale_lt_one hsf
  have h2 := inv_scale_pow_lt_one hsf hn
  have h3 : (0 : ℚ) ≤ max_num_keypts := Nat.cast_nonneg _
  apply div_nonneg
  · apply mul_nonneg h3
    linarith
  · linarith

theorem desired_level_nonneg (max_num_keypts : Nat) (p : orb_params)
    (hsf : 1 < p.scale_factor_) (hn : 1 ≤ p.num_levels_) (l : Nat) :
    0 ≤ desired_num_keypts_per_scale max_num_keypts p * (1 / p.scale_factor_) ^ l :=
  mul_nonneg (desired_nonneg max_num_keypts p hsf hn)
    (pow_nonneg (le_of_lt (inv_scale_pos hsf)) l)

theorem rounded_quota_nonneg (max_num_keypts : Nat) (p : orb_params)
    (hsf : 1 < p.scale_factor_) (hn : 1 ≤ p.num_levels_) (l : Nat) :
    0 ≤ rounded_quota max_num_keypts p l :=
  std_round_nonneg (desired_level_nonneg max_num_keypts p hsf hn l)

theorem rounded_quota_sum_succ (max_num_keypts : Nat) (p : orb_params) (k : Nat) :
    rounded_quota_sum max_num_keypts p (k + 1) =
      rounded_quota_sum max_num_keypts p k + rounded_quota max_num_keypts p k := by
  simp [rounded_quota_sum, List.range_succ]

theorem rounded_quota_sum_nonneg (max_num_keypts : Nat) (p : orb_params)
    (hsf : 1 < p.scale_factor_) (hn : 1 ≤ p.num_levels_) (k : Nat) :
    0 ≤ rounded_quota_sum max_num_keypts p k := by
  induction k with
  | zero => simp [rounded_quota_sum]
  | succ k ih =>
    rw [rounded_quota_sum_succ]
    have := rounded_quota_nonneg max_num_keypts p hsf hn k
    omega

theorem rounded_quota_sum_mono (max_num_keypts : Nat) (p : orb_params)
    (hsf : 1 < p.scale_factor_) (hn : 1 ≤ p.num_levels_) (k : Nat) :
    rounded_quota_sum max_num_keypts p k ≤ rounded_quota_sum max_num_keypts p (k + 1) := by
  rw [rounded_quota_sum_succ]
  have := rounded_quota_nonneg max_num_keypts p hsf hn k
  omega

/-- The rounded quotas of the levels `0 .. k - 1` exceed the exact share of these levels by at
most one half per level. -/
theorem rounded_quota_sum_le (max_num_keypts : Nat) (p : orb_params)
    (hsf : 1 < p.scale_factor_) (hn : 1 ≤ p.num_levels_) (k : Nat) :
    (rounded_quota_sum max_num_keypts p k : ℚ) ≤
      (max_num_keypts : ℚ) * (1 - (1 / p.scale_factor_) ^ k)
        / (1 - (1 / p.scale_factor_) ^ p.num_levels_) + (k : ℚ) / 2 := by
  have hq := inv_scale_pow_lt_one hsf hn
  have hden : (1 - (1 / p.scale_factor_) ^ p.num_levels_) ≠ 0 := by linarith
  induction k with
  | zero => simp [rounded_quota_sum]
  | succ k ih =>
    rw [rounded_quota_sum_succ]
    have h := std_round_le (desired_level_nonneg max_num_keypts p hsf hn k)
    have e : (max_num_keypts : ℚ) * (1 - (1 / p.scale_factor_) ^ (k + 1))
        / (1 - (1 / p.scale_factor_) ^ p.num_levels_)
        = (max_num_keypts : ℚ) * (1 - (1 / p.scale_factor_) ^ k)
            / (1 - (1 / p.scale_factor_) ^ p.num_levels_)
          + desired_num_keypts_per_scale max_num_keypts p * (1 / p.scale_factor_) ^ k := by
      unfold desired_num_keypts_per_scale
      generalize (1 / p.scale_factor_) ^ p.num_levels_ = Q at hden
      generalize 1 / p.scale_factor_ = q
      field_simp
      ring
    push_cast
    rw [e]
    unfold rounded_quota
    linarith

theorem rounded_quota_sum_lt (max_num_keypts : Nat) (p : orb_params)
    (hsf : 1 < p.scale_factor_) (hn : 1 ≤ p.num_levels_)
    (hsize : 2 * max_num_keypts + p.num_levels_ ≤ 4294967296) :
    rounded_quota_sum max_num_keypts p (p.num_levels_ - 1) < 2147483648 := by
  have h := rounded_quota_sum_le max_num_keypts p hsf hn (p.num_levels_ - 1)
  have hq := inv_scale_pow_lt_one hsf hn
  have hq0 : 0 < 1 / p.scale_factor_ := inv_scale_pos hsf
  have hk : (1 / p.scale_factor_) ^ p.num_levels_ ≤ (1 / p.scale_factor_) ^ (p.num_levels_ - 1) :=
    pow_le_pow_of_le_one (le_of_lt hq0) (le_of_lt (inv_scale_lt_one hsf)) (Nat.sub_le _ _)
  have hfrac : (max_num_keypts : ℚ) * (1 - (1 / p.scale_factor_) ^ (p.num_levels_ - 1))
      / (1 - (1 / p.scale_factor_) ^ p.num_levels_) ≤ max_num_keypts := by
    rw [div_le_iff₀ (by linarith)]
    have h3 : (0 : ℚ) ≤ max_num_keypts := Nat.cast_nonneg _
    nlinarith
  have hcast : ((p.num_levels_ - 1 : Nat) : ℚ) = (p.num_levels_ : ℚ) - 1 := by
    rw [Nat.cast_sub hn]; simp
  rw [hcast] at h
  have hs : (2 * (max_num_keypts : ℚ) + (p.num_levels_ : ℚ)) ≤ 4294967296 := by
    exact_mod_cast hsize
  have : (rounded_quota_sum max_num_keypts p (p.num_levels_ - 1) : ℚ) < 2147483648 := by
    linarith
  exact_mod_cast this

/-- The list `num_keypts_per_level_` computed by `initialize`, in machine arithmetic: it does
not depend on the previous content of the vector. -/
theorem compute_num_keypts_per_level_raw (max_num_keypts : Nat) (p : orb_params)
    (quotas0 : List Nat) (hn : 1 ≤ p.num_levels_) (hlen : quotas0.length = p.num_levels_) :
    compute_num_keypts_per_level max_num_keypts p quotas0 =
      some ((List.range (p.num_levels_ - 1)).map (fun l => to_unsigned (std_round
          (desired_num_keypts_per_scale max_num_keypts p * (1 / p.scale_factor_) ^ l)))
        ++ [to_unsigned (max (to_int max_num_keypts - to_int
            (((List.range (p.num_levels_ - 1)).map (fun l => to_unsigned (std_round
              (desired_num_keypts_per_scale max_num_keypts p * (1 / p.scale_factor_) ^ l)))).sum
              % 4294967296)) 0)]) := by
  unfold compute_num_keypts_per_level
  rw [usub_one hn, quota_fold _ _ _ _ (by omega)]
  have hdrop : quotas0.drop (p.num_levels_ - 1) = [quotas0[p.num_levels_ - 1]] := by
    rw [List.drop_eq_getElem_cons (by omega)]
    have : quotas0.drop (p.num_levels_ - 1 + 1) = [] :=
      List.drop_eq_nil_iff.2 (by omega)
    rw [this]
  simp only [Option.bind_eq_bind, Option.some_bind, hdrop]
  have h1 := vector_set_append_cons
    ((List.range (p.num_levels_ - 1)).map (fun l => to_unsigned (std_round
      (desired_num_keypts_per_scale max_num_keypts p * (1 / p.scale_factor_) ^ l))))
    quotas0[p.num_levels_ - 1]
    (to_unsigned (max (to_int max_num_keypts - to_int
            (((List.range (p.num_levels_ - 1)).map (fun l => to_unsigned (std_round
              (desired_num_keypts_per_scale max_num_keypts p * (1 / p.scale_factor_) ^ l)))).sum
              % 4294967296)) 0)) []
  simp only [List.length_map, List.length_range] at h1
  exact h1

theorem rounded_quota_le_sum (max_num_keypts : Nat) (p : orb_params)
    (hsf : 1 < p.scale_factor_) (hn : 1 ≤ p.num_levels_) (k l : Nat) (hl : l < k) :
    rounded_quota max_num_keypts p l ≤ rounded_quota_sum max_num_keypts p k := by
  induction k with
  | zero => omega
  | succ k ih =>
    rw [rounded_quota_sum_succ]
    rcases Nat.lt_succ_iff_lt_or_eq.1 hl with h | h
    · have := ih h
      have := rounded_quota_nonneg max_num_keypts p hsf hn k
      omega
    · subst h
      have := rounded_quota_sum_nonneg max_num_keypts p hsf hn l
      omega

theorem sum_map_toNat (f : Nat → Int) (hf : ∀ l, 0 ≤ f l) (k : Nat) :
    (((List.range k).map (fun l => (f l).toNat)).sum : Int) = ((List.range k).map f).sum := by
  induction k with
  | zero => simp
  | succ k ih =>
    simp only [List.range_succ, List.map_append, List.sum_append, List.map_cons, List.map_nil,
      List.sum_cons, List.sum_nil, Nat.cast_add, ih, add_zero]
    rw [Int.toNat_of_nonneg (hf k)]

/-- The list `num_keypts_per_level_` computed by `initialize` when nothing wraps: rounded quotas
on the levels but the last, the clamped remainder on the last level. -/
theorem compute_num_keypts_per_level_eq (max_num_keypts : Nat) (p : orb_params)
    (quotas0 : List Nat) (hsf : 1 < p.scale_factor_) (hn : 1 ≤ p.num_levels_)
    (hlen : quotas0.length = p.num_levels_) (hmax : max_num_keypts < 2147483648)
    (hsum : rounded_quota_sum max_num_keypts p (p.num_levels_ - 1) < 2147483648) :
    compute_num_keypts_per_level max_num_keypts p quotas0 =
      some ((List.range (p.num_levels_ - 1)).map (fun l => (rounded_quota max_num_keypts p l).toNat)
        ++ [(max ((max_num_keypts : Int)
            - rounded_quota_sum max_num_keypts p (p.num_levels_ - 1)) 0).toNat]) := by
  rw [compute_num_keypts_per_level_raw max_num_keypts p quotas0 hn hlen]
  have hmap : (List.range (p.num_levels_ - 1)).map (fun l => to_unsigned (std_round
        (desired_num_keypts_per_scale max_num_keypts p * (1 / p.scale_factor_) ^ l)))
      = (List.range (p.num_levels_ - 1)).map
          (fun l => (rounded_quota max_num_keypts p l).toNat) := by
    apply List.map_congr_left
    intro l hl
    have hl1 : l < p.num_levels_ - 1 := List.mem_range.1 hl
    have h0 := rounded_quota_nonneg max_num_keypts p hsf hn l
    have h1 := rounded_quota_le_sum max_num_keypts p hsf hn _ l hl1
    exact to_unsigned_of_nonneg h0 (show rounded_quota max_num_keypts p l < 4294967296 by omega)
  rw [hmap]
  have hS := sum_map_toNat (rounded_quota max_num_keypts p)
    (rounded_quota_nonneg max_num_keypts p hsf hn) (p.num_levels_ - 1)
  have hS0 := rounded_quota_sum_nonneg max_num_keypts p hsf hn (p.num_levels_ - 1)
  unfold rounded_quota_sum at hsum hS0 ⊢
  generalize ((List.range (p.num_levels_ - 1)).map
    (fun l => (rounded_quota max_num_keypts p l).toNat)).sum = T at hS ⊢
  generalize ((List.range (p.num_levels_ - 1)).map (rounded_quota max_num_keypts p)).sum = S
    at hS hsum hS0 ⊢
  have hT : T % 4294967296 = T := Nat.mod_eq_of_lt (by omega)
  rw [hT]
  have e1 : to_int max_num_keypts = (max_num_keypts : Int) := by
    unfold to_int; rw [if_pos hmax]
  have e2 : to_int T = S := by
    unfold to_int; rw [if_pos (by omega)]; exact hS
  rw [e1, e2]
  have e3 : to_unsigned (max ((max_num_keypts : Int) - S) 0)
      = (max ((max_num_keypts : Int) - S) 0).toNat :=
    to_unsigned_of_nonneg (le_max_right _ _) (by
      rcases max_cases ((max_num_keypts : Int) - S) 0 with ⟨h, _⟩ | ⟨h, _⟩ <;> omega)
  rw [e3]

/-! ## The table `u_max_` -/

theorem round_sqrt_table (v : Nat) (hv : v < 12) :
    (round_sqrt (usub (fast_half_patch_size_ * fast_half_patch_size_) (v * v)) : Int) =
      [15, 15, 15, 15, 14, 14, 14, 13, 13, 12, 11, 10].getD v 0 := by
  interval_cases v <;> decide!

theorem u_max_first_loop (a0 a1 a2 a3 a4 a5 a6 a7 a8 a9 a10 a11 a12 a13 a14 a15 : Int) :
    (List.range (u_max_vmax + 1)).foldlM
      (fun u v => vector_set u v
        (round_sqrt (usub (fast_half_patch_size_ * fast_half_patch_size_) (v * v)) : Int))
      [a0, a1, a2, a3, a4, a5, a6, a7, a8, a9, a10, a11, a12, a13, a14, a15]
    = some [15, 15, 15, 15, 14, 14, 14, 13, 13, 12, 11, 10, a12, a13, a14, a15] := by
  have hv : u_max_vmax + 1 = 12 := by decide!
  rw [hv]
  have e : List.range 12 = [0, 1, 2, 3, 4, 5, 6, 7, 8, 9, 10, 11] := by decide
  rw [e]
  simp only [List.foldlM_cons, List.foldlM_nil]
  rw [round_sqrt_table 0 (by decide), round_sqrt_table 1 (by decide), round_sqrt_table 2 (by decide),
    round_sqrt_table 3 (by decide), round_sqrt_table 4 (by decide), round_sqrt_table 5 (by decide),
    round_sqrt_table 6 (by decide), round_sqrt_table 7 (by decide), round_sqrt_table 8 (by decide),
    round_sqrt_table 9 (by decide), round_sqrt_table 10 (by decide), round_sqrt_table 11 (by decide)]
  rfl

theorem u_max_second_loop (a12 a13 a14 a15 : Int) :
    ((List.range' u_max_vmin (fast_half_patch_size_ + 1 - u_max_vmin)).reverse).foldlM
      u_max_fill_step
      (([15, 15, 15, 15, 14, 14, 14, 13, 13, 12, 11, 10, a12, a13, a14, a15] : List Int), 0)
    = some ([15, 15, 15, 15, 14, 14, 14, 13, 13, 12, 11, 10, 9, 8, 6, 3], 11) := by
  have hv : u_max_vmin = 11 := by decide!
  rw [hv]
  rfl

/-- The table `u_max_` computed by `initialize`, whatever the vector held before. -/
theorem compute_u_max_eq (u : List Int) (h : u.length = 16) :
    compute_u_max u = some [15, 15, 15, 15, 14, 14, 14, 13, 13, 12, 11, 10, 9, 8, 6, 3] := by
  match u, h with
  | [a0, a1, a2, a3, a4, a5, a6, a7, a8, a9, a10, a11, a12, a13, a14, a15], _ =>
    unfold compute_u_max
    rw [u_max_first_loop]
    simp only [Option.bind_eq_bind, Option.some_bind]
    rw [u_max_second_loop]
    rfl

theorem vector_resize_length {α : Type} (v : List α) (n : Nat) (d : α) :
    (vector_resize v n d).length = n := by
  simp [vector_resize]
  omega

/-- The result of `initialize` when the number of levels is positive. -/
theorem initialize_eq (e : orb_extractor) (hn : 1 ≤ e.orb_params_.num_levels_) :
    ∃ quotas, compute_num_keypts_per_level e.max_num_keypts_ e.orb_params_
        (vector_resize e.num_keypts_per_level_ e.orb_params_.num_levels_ 0) = some quotas ∧
      initialize_ e = some { e with
        image_pyramid_ := vector_resize e.image_pyramid_ e.orb_params_.num_levels_ Mat.released,
        num_keypts_per_level_ := quotas,
        u_max_ := [15, 15, 15, 15, 14, 14, 14, 13, 13, 12, 11, 10, 9, 8, 6, 3] } := by
  have h := compute_num_keypts_per_level_raw e.max_num_keypts_ e.orb_params_
    (vector_resize e.num_keypts_per_level_ e.orb_params_.num_levels_ 0) hn
    (vector_resize_length _ _ _)
  refine ⟨_, h, ?_⟩
  unfold initialize_
  rw [h, compute_u_max_eq (vector_resize e.u_max_ (fast_half_patch_size_ + 1) 0)
    (vector_resize_length _ _ _)]
  rfl

/-- C10: after `set_max_num_keypoints(n)` on an extractor with at least one level,
`get_max_num_keypoints()` returns `n`, and the per-level quotas are those of an extractor freshly
constructed with `max_num_keypts = n` and the same `orb_params` (whatever its mask
rectangles). -/
theorem set_max_num_keypoints_as_fresh (e : orb_extractor) (n : Nat)
    (mask_rects : List (List ℚ)) (hn : 1 ≤ e.orb_params_.num_levels_) :
    ∃ e' f, set_max_num_keypoints e n = some e' ∧ get_max_num_keypoints e' = n ∧
      orb_extractor_new e.orb_params_ n mask_rects = some f ∧
      e'.num_keypts_per_level_ = f.num_keypts_per_level_ := by
  obtain ⟨q1, hq1, h1⟩ := initialize_eq { e with max_num_keypts_ := n } hn
  obtain ⟨q2, hq2, h2⟩ := initialize_eq
    { orb_params_ := e.orb_params_, mask_rects_ := mask_rects, image_pyramid_ := [],
      max_num_keypts_ := n, mask_is_initialized_ := false,
      rect_mask_ := Mat.released, num_keypts_per_level_ := [], u_max_ := [] } hn
  refine ⟨_, _, h1, rfl, h2, ?_⟩
  have r1 := compute_num_keypts_per_level_raw n e.orb_params_
    (vector_resize e.num_keypts_per_level_ e.orb_params_.num_levels_ 0) hn
    (vector_resize_length _ _ _)
  have r2 := compute_num_keypts_per_level_raw n e.orb_params_
    (vector_resize ([] : List Nat) e.orb_params_.num_levels_ 0) hn
    (vector_resize_length _ _ _)
  simp only at hq1 hq2
  rw [r1] at hq1
  rw [r2] at hq2
  simp only
  rw [← Option.some_inj.1 hq1, ← Option.some_inj.1 hq2]


/-- C10, witness: an extractor with eight levels. -/
theorem set_max_num_keypoints_as_fresh_witness :
    1 ≤ extractor_eight_levels.orb_params_.num_levels_ ∧
    ∃ e' f, set_max_num_keypoints extractor_eight_levels 7 = some e' ∧
      get_max_num_keypoints e' = 7 ∧
      orb_extractor_new extractor_eight_levels.orb_params_ 7 [] = some f ∧
      e'.num_keypts_per_level_ = f.num_keypts_per_level_ :=
  ⟨by decide, set_max_num_keypoints_as_fresh extractor_eight_levels 7 [] (by decide)⟩

/-! ## C5: the quotas and the number of keypoints asked for -/

/-- C5 (counterexample): for seven keypoints, scale factor 1.2 and eight levels, `initialize`
computes the quotas 2, 1, 1, 1, 1, 1, 1, 0, whose sum is 8 and not 7. -/
theorem initialize_quota_sum_counterexample :
    1 < extractor_seven_keypoints.orb_params_.scale_factor_ ∧
    1 ≤ extractor_seven_keypoints.orb_params_.num_levels_ ∧
    extractor_seven_keypoints.max_num_keypts_ = 7 ∧
    Option.map (fun e => (e.num_keypts_per_level_, e.num_keypts_per_level_.sum))
      (initialize_ extractor_seven_keypoints) = some ([2, 1, 1, 1, 1, 1, 1, 0], 8) := by
  decide!

/-- C5 (amended): for every `max_num_keypts`, every `scale_factor > 1` and every
`num_levels >= 1` with `2 * max_num_keypts + num_levels <= 2^32` (nothing wraps in 32 bits), over
exact arithmetic: `initialize` gives the levels `0 .. num_levels - 2` the quota
`round(d * scale_factor^(-level))`, gives the last level
`max(max_num_keypts - sum of the others, 0)`, and the quotas sum to
`max(max_num_keypts, sum of the others)`: at least `max_num_keypts`, and more when the rounded
quotas of the other levels exceed it. -/
theorem initialize_quotas (e : orb_extractor)
    (hsf : 1 < e.orb_params_.scale_factor_) (hn : 1 ≤ e.orb_params_.num_levels_)
    (hsize : 2 * e.max_num_keypts_ + e.orb_params_.num_levels_ ≤ 4294967296) :
    ∃ e', initialize_ e = some e' ∧
      e'.num_keypts_per_level_.length = e.orb_params_.num_levels_ ∧
      (∀ level, level < e.orb_params_.num_levels_ - 1 →
        (e'.num_keypts_per_level_[level]?).map Int.ofNat
          = some (rounded_quota e.max_num_keypts_ e.orb_params_ level)) ∧
      (e'.num_keypts_per_level_[e.orb_params_.num_levels_ - 1]?).map Int.ofNat
        = some (max ((e.max_num_keypts_ : Int)
            - rounded_quota_sum e.max_num_keypts_ e.orb_params_ (e.orb_params_.num_levels_ - 1))
            0) ∧
      (e'.num_keypts_per_level_.sum : Int)
        = max (e.max_num_keypts_ : Int)
            (rounded_quota_sum e.max_num_keypts_ e.orb_params_ (e.orb_params_.num_levels_ - 1)) := by
  obtain ⟨quotas, hq, he⟩ := initialize_eq e hn
  have hsum := rounded_quota_sum_lt e.max_num_keypts_ e.orb_params_ hsf hn hsize
  have hS0 := rounded_quota_sum_nonneg e.max_num_keypts_ e.orb_params_ hsf hn
    (e.orb_params_.num_levels_ - 1)
  rw [compute_num_keypts_per_level_eq e.max_num_keypts_ e.orb_params_ _ hsf hn
    (vector_resize_length _ _ _) (by omega) hsum] at hq
  have hq' := (Option.some_inj.1 hq).symm
  refine ⟨_, he, ?_, ?_, ?_, ?_⟩
  · simp only [hq']
    simp
    omega
  · intro level hlevel
    simp only [hq']
    rw [List.getElem?_append_left (by simpa using hlevel)]
    simp only [List.getElem?_map, List.getElem?_range hlevel, Option.map_some']
    congr 1
    exact Int.toNat_of_nonneg (rounded_quota_nonneg _ _ hsf hn level)
  · simp only [hq']
    rw [List.getElem?_append_right (by simp)]
    simp only [List.length_map, List.length_range, Nat.sub_self, List.getElem?_cons_zero,
      Option.map_some']
    congr 1
    exact Int.toNat_of_nonneg (le_max_right _ _)
  · simp only [hq', List.sum_append, List.sum_cons, List.sum_nil, add_zero, Nat.cast_add]
    rw [sum_map_toNat (rounded_quota e.max_num_keypts_ e.orb_params_)
      (rounded_quota_nonneg _ _ hsf hn), Int.toNat_of_nonneg (le_max_right _ _)]
    unfold rounded_quota_sum
    rcases max_cases ((e.max_num_keypts_ : Int) - ((List.range (e.orb_params_.num_levels_ - 1)).map
      (rounded_quota e.max_num_keypts_ e.orb_params_)).sum) 0 with ⟨h1, h2⟩ | ⟨h1, h2⟩
    · rw [h1, max_eq_left (by omega)]; omega
    · rw [h1, max_eq_right (by omega)]; omega

/-- C5 (amended), witness: a thousand keypoints over eight levels of scale factor 1.2. -/
theorem initialize_quotas_witness :
    1 < extractor_eight_levels.orb_params_.scale_factor_ ∧
    1 ≤ extractor_eight_levels.orb_params_.num_levels_ ∧
    2 * extractor_eight_levels.max_num_keypts_ + extractor_eight_levels.orb_params_.num_levels_
      ≤ 4294967296 ∧
    ∃ e', initialize_ extractor_eight_levels = some e' ∧
      e'.num_keypts_per_level_.length = extractor_eight_levels.orb_params_.num_levels_ ∧
      (∀ level, level < extractor_eight_levels.orb_params_.num_levels_ - 1 →
        (e'.num_keypts_per_level_[level]?).map Int.ofNat
          = some (rounded_quota extractor_eight_levels.max_num_keypts_
              extractor_eight_levels.orb_params_ level)) ∧
      (e'.num_keypts_per_level_[extractor_eight_levels.orb_params_.num_levels_ - 1]?).map Int.ofNat
        = some (max ((extractor_eight_levels.max_num_keypts_ : Int)
            - rounded_quota_sum extractor_eight_levels.max_num_keypts_
                extractor_eight_levels.orb_params_
                (extractor_eight_levels.orb_params_.num_levels_ - 1)) 0) ∧
      (e'.num_keypts_per_level_.sum : Int)
        = max (extractor_eight_levels.max_num_keypts_ : Int)
            (rounded_quota_sum extractor_eight_levels.max_num_keypts_
              extractor_eight_levels.orb_params_
              (extractor_eight_levels.orb_params_.num_levels_ - 1)) :=
  ⟨by decide!, by decide, by decide,
    initialize_quotas extractor_eight_levels (by decide!) (by decide) (by decide)⟩

/-! ## C6: the defaults of the relocalizer -/

/-- C6: a relocalizer constructed with no arguments has the BoW-match Lowe ratio 0.75, the
projection-match Lowe ratio 0.9, the robust-match Lowe ratio 0.8, at least 20 BoW matches and at
least 50 valid observations as its thresholds. -/
theorem relocalizer_defaults :
    (relocalizer_new relocalizer_default_args).bow_matcher_lowe_ratio_ = 3 / 4 ∧
    (relocalizer_new relocalizer_default_args).proj_matcher_lowe_ratio_ = 9 / 10 ∧
    (relocalizer_new relocalizer_default_args).robust_matcher_lowe_ratio_ = 4 / 5 ∧
    (relocalizer_new relocalizer_default_args).min_num_bow_matches_ = 20 ∧
    (relocalizer_new relocalizer_default_args).min_num_valid_obs_ = 50 := by
  refine ⟨?_, ?_, ?_, rfl, rfl⟩ <;>
    norm_num [relocalizer_new, relocalizer_default_args]

/-! ## C7, C8: the configuration of the mapping module and the skipping of local BA -/

theorem apply_queue_threshold (m : mapping_module) (op : mapping_operation) :
    (m.apply op).queue_threshold_ = m.queue_threshold_ := by
  cases op <;> rfl

theorem foldl_apply_queue_threshold (ops : List mapping_operation) (m : mapping_module) :
    (ops.foldl mapping_module.apply m).queue_threshold_ = m.queue_threshold_ := by
  induction ops generalizing m with
  | nil => rfl
  | cons op ops ih => rw [List.foldl_cons, ih, apply_queue_threshold]

/-- C7: the default member initializers of the mapping module are
`baseline_dist_thr_ratio = 0.02`, `baseline_dist_thr = 1.0`,
`use_baseline_dist_thr_ratio = true` and `queue_threshold = 2`, and no sequence of operations
changes `queue_threshold_`. -/
theorem mapping_module_defaults :
    mapping_module_default.baseline_dist_thr_ratio_ = 2 / 100 ∧
    mapping_module_default.baseline_dist_thr_ = 1 ∧
    mapping_module_default.use_baseline_dist_thr_ratio_ = true ∧
    mapping_module_default.queue_threshold_ = 2 ∧
    ∀ (m : mapping_module) (ops : List mapping_operation),
      (ops.foldl mapping_module.apply m).queue_threshold_ = m.queue_threshold_ := by
  refine ⟨?_, ?_, rfl, rfl, fun m ops => foldl_apply_queue_threshold ops m⟩ <;>
    norm_num [mapping_module_default]

/-- C8: in every state of the mapping module `is_skipping_localBA()` is true if and only if
the number of queued keyframes exceeds `queue_threshold_`, and false if and only if the queue
depth is at most the threshold; in every state reached from the default configuration the
threshold is 2. -/
theorem is_skipping_localBA_iff (m : mapping_module) :
    (m.is_skipping_localBA = true ↔ m.queue_threshold_ < m.get_num_queued_keyframes) ∧
    (m.is_skipping_localBA = false ↔ m.get_num_queued_keyframes ≤ m.queue_threshold_) ∧
    ∀ ops : List mapping_operation,
      ((ops.foldl mapping_module.apply mapping_module_default).is_skipping_localBA = true ↔
        2 < (ops.foldl mapping_module.apply mapping_module_default).get_num_queued_keyframes) := by
  refine ⟨?_, ?_, ?_⟩
  · simp [mapping_module.is_skipping_localBA]
  · simp [mapping_module.is_skipping_localBA]
  · intro ops
    have h := foldl_apply_queue_threshold ops mapping_module_default
    simp only [mapping_module.is_skipping_localBA, decide_eq_true_eq, h]
    rfl

/-! ## C9: bearings of the radial-division camera -/

theorem bearing_norm_pos (x y : ℝ) : 0 < Real.sqrt (x * x + y * y + 1) :=
  Real.sqrt_pos.2 (by nlinarith [mul_self_nonneg x, mul_self_nonneg y])

/-- C9: over the reals, for every undistorted pixel and every camera with `fx != 0` and
`fy != 0`, `convert_point_to_bearing` returns a vector of squared norm exactly 1 whose `z`
component is strictly positive. -/
theorem convert_point_to_bearing_unit (cam : radial_division ℝ) (undist_pt : Point_ ℝ)
    (_hfx : cam.fx_ ≠ 0) (_hfy : cam.fy_ ≠ 0) :
    (cam.convert_point_to_bearing Real.sqrt undist_pt).squaredNorm = 1 ∧
    0 < (cam.convert_point_to_bearing Real.sqrt undist_pt).z := by
  unfold radial_division.convert_point_to_bearing Vec3_t.squaredNorm
  simp only
  generalize (undist_pt.x - cam.cx_) / cam.fx_ = x
  generalize (undist_pt.y - cam.cy_) / cam.fy_ = y
  have hpos := bearing_norm_pos x y
  have hsq : Real.sqrt (x * x + y * y + 1) * Real.sqrt (x * x + y * y + 1)
      = x * x + y * y + 1 :=
    Real.mul_self_sqrt (by nlinarith [mul_self_nonneg x, mul_self_nonneg y])
  generalize Real.sqrt (x * x + y * y + 1) = s at hpos hsq
  have hs : s ≠ 0 := ne_of_gt hpos
  constructor
  · field_simp
    linarith
  · positivity

/-- C9, witness: the camera with unit focal lengths and the pixel at its principal point. -/
theorem convert_point_to_bearing_unit_witness :
    (1 : ℝ) ≠ 0 ∧ (1 : ℝ) ≠ 0 ∧
    ((⟨1, 1, 0, 0, 0⟩ : radial_division ℝ).convert_point_to_bearing Real.sqrt
      ⟨0, 0⟩).squaredNorm = 1 ∧
    0 < ((⟨1, 1, 0, 0, 0⟩ : radial_division ℝ).convert_point_to_bearing Real.sqrt ⟨0, 0⟩).z :=
  ⟨one_ne_zero, one_ne_zero,
    convert_point_to_bearing_unit ⟨1, 1, 0, 0, 0⟩ ⟨0, 0⟩ one_ne_zero one_ne_zero⟩

/-! ## Lists in the `Option` monad -/

theorem mapM_some_forall₂ {α β : Type} (f : α → Option β) :
    ∀ (l : List α) (r : List β), l.mapM f = some r → List.Forall₂ (fun a b => f a = some b) l r
  | [], r, h => by
    simp only [List.mapM_nil, Option.pure_def, Option.some.injEq] at h
    subst h
    exact List.Forall₂.nil
  | a :: l, r, h => by
    simp only [List.mapM_cons, Option.pure_def, Option.bind_eq_bind, Option.bind_eq_some] at h
    obtain ⟨b, hb, bs, hbs, hr⟩ := h
    simp only [Option.some.injEq] at hr
    subst hr
    exact List.Forall₂.cons hb (mapM_some_forall₂ f l bs hbs)

theorem mapM_some_length {α β : Type} (f : α → Option β) (l : List α) (r : List β)
    (h : l.mapM f = some r) : r.length = l.length :=
  (mapM_some_forall₂ f l r h).length_eq.symm

theorem mapM_some_getElem {α β : Type} (f : α → Option β) (l : List α) (r : List β)
    (h : l.mapM f = some r) (i : Nat) (h1 : i < l.length) (h2 : i < r.length) :
    f l[i] = some r[i] :=
  (List.forall₂_iff_get.1 (mapM_some_forall₂ f l r h)).2 i h1 h2

theorem mapM_some_mem {α β : Type} (f : α → Option β) (l : List α) (r : List β)
    (h : l.mapM f = some r) (b : β) (hb : b ∈ r) : ∃ a ∈ l, f a = some b := by
  obtain ⟨i, hi, rfl⟩ := List.getElem_of_mem hb
  have hl : i < l.length := by rw [← mapM_some_length f l r h]; exact hi
  exact ⟨l[i], List.getElem_mem hl, mapM_some_getElem f l r h i hl hi⟩

theorem mapM_range_some_getElem {β : Type} (f : Nat → Option β) (n : Nat) (r : List β)
    (h : (List.range n).mapM f = some r) :
    r.length = n ∧ ∀ (i : Nat), i < n → ∃ b, r[i]? = some b ∧ f i = some b := by
  have hlen := mapM_some_length f _ r h
  rw [List.length_range] at hlen
  refine ⟨hlen, fun i hi => ?_⟩
  have h2 : i < r.length := by omega
  have := mapM_some_getElem f _ r h i (by simpa using hi) h2
  rw [List.getElem_range] at this
  exact ⟨r[i], List.getElem?_eq_getElem h2, this⟩

/-! ## What `compute_fast_keypoints` returns -/

theorem compute_orientation_octave (cv : external) (e : orb_extractor) (image : Mat)
    (keypts r : List KeyPoint) (h : compute_orientation cv e image keypts = some r)
    (level : Int) (hk : ∀ keypt ∈ keypts, keypt.octave = level) :
    ∀ keypt ∈ r, keypt.octave = level := by
  intro keypt hmem
  obtain ⟨a, ha, hf⟩ := mapM_some_mem _ keypts r h keypt hmem
  simp only [Option.pure_def, Option.bind_eq_bind, Option.bind_eq_some, Option.some.injEq] at hf
  obtain ⟨angle, _, rfl⟩ := hf
  exact hk a ha

theorem fast_keypoints_at_level_octave (cv : external) (fuel : Nat) (e : orb_extractor)
    (mask : Mat) (level : Nat) (r : List KeyPoint)
    (h : fast_keypoints_at_level cv fuel e mask level = some r) :
    (∃ scale_factor, vector_at e.orb_params_.scale_factors_ level = some scale_factor) ∧
    ∀ keypt ∈ r, keypt.octave = (level : Int) := by
  unfold fast_keypoints_at_level at h
  simp only [Option.pure_def, Option.bind_eq_bind, Option.bind_eq_some, Option.some.injEq] at h
  obtain ⟨sf, hsf, image, _, cands, _, quota, _, ks, _, rfl⟩ := h
  refine ⟨⟨sf, hsf⟩, ?_⟩
  intro keypt hmem
  simp only [List.mem_map] at hmem
  obtain ⟨a, _, rfl⟩ := hmem
  rfl

/-- The vector `all_keypts` returned by `compute_fast_keypoints` has one entry per level, the
level has an image and a scale factor, and every keypoint of the entry has the level as its
octave. -/
theorem compute_fast_keypoints_levels (cv : external) (fuel : Nat) (e : orb_extractor)
    (mask : Mat) (all_keypts : List (List KeyPoint))
    (h : compute_fast_keypoints cv fuel e mask = some all_keypts) :
    all_keypts.length = e.orb_params_.num_levels_ ∧
    ∀ (level : Nat), level < e.orb_params_.num_levels_ →
      ∃ keypts image scale_factor, all_keypts[level]? = some keypts ∧
        vector_at e.image_pyramid_ level = some image ∧
        vector_at e.orb_params_.scale_factors_ level = some scale_factor ∧
        ∀ keypt ∈ keypts, keypt.octave = (level : Int) := by
  unfold compute_fast_keypoints at h
  simp only [Option.bind_eq_bind, Option.bind_eq_some] at h
  obtain ⟨all0, h0, h1⟩ := h
  obtain ⟨hlen0, hget0⟩ := mapM_range_some_getElem _ _ _ h0
  obtain ⟨hlen, hget⟩ := mapM_range_some_getElem _ _ _ h1
  refine ⟨hlen, fun level hlevel => ?_⟩
  obtain ⟨ks, hks, hbody⟩ := hget level hlevel
  simp only [Option.bind_eq_some] at hbody
  obtain ⟨image, himage, ks0, hks0, horient⟩ := hbody
  obtain ⟨ks0', hks0', hlevel0⟩ := hget0 level hlevel
  have e0 : ks0 = ks0' := by
    unfold vector_at at hks0
    rw [List.get?_eq_getElem?, hks0'] at hks0
    exact (Option.some_inj.1 hks0).symm
  subst e0
  obtain ⟨⟨sf, hsf⟩, hoct⟩ := fast_keypoints_at_level_octave cv fuel e mask level _ hlevel0
  exact ⟨ks, image, sf, hks, himage, hsf,
    compute_orientation_octave cv e image _ _ horient level hoct⟩

/-! ## The second part of `extract` -/

theorem keypoint_count_succ (all_keypts : List (List KeyPoint)) (k : Nat) :
    keypoint_count all_keypts (k + 1)
      = keypoint_count all_keypts k + (all_keypts.getD k []).length := by
  simp [keypoint_count, List.range_succ]

theorem keypoint_count_mono (all_keypts : List (List KeyPoint)) (k n : Nat) (h : k ≤ n) :
    keypoint_count all_keypts k ≤ keypoint_count all_keypts n := by
  induction n with
  | zero =>
    have : k = 0 := by omega
    subst this
    exact le_refl _
  | succ n ih =>
    rcases Nat.lt_or_ge k (n + 1) with h1 | h1
    · rw [keypoint_count_succ]
      have := ih (by omega)
      omega
    · have : k = n + 1 := by omega
      subst this
      exact le_refl _

theorem vector_at_getD {α : Type} (v : List α) (i : Nat) (a d : α) (h : vector_at v i = some a) :
    v.getD i d = a := by
  unfold vector_at at h
  rw [List.get?_eq_getElem?] at h
  simp [List.getD, h]

theorem getElem?_getD {α : Type} (v : List α) (i : Nat) (a d : α) (h : v[i]? = some a) :
    v.getD i d = a := by
  simp [List.getD, h]

/-- The count of the keypoints in `extract`. -/
theorem num_keypts_fold (all_keypts : List (List KeyPoint)) (k : Nat)
    (hk : k ≤ all_keypts.length) :
    (List.range k).foldlM (fun (n : Nat) (level : Nat) => do
        let keypts_at_level ← vector_at all_keypts level
        pure (uadd n keypts_at_level.length)) 0
      = some (keypoint_count all_keypts k % 4294967296) := by
  induction k with
  | zero => simp [keypoint_count]
  | succ k ih =>
    have hk1 : k < all_keypts.length := hk
    rw [List.range_succ, List.foldlM_append, ih (Nat.le_of_lt hk1)]
    have hat : vector_at all_keypts k = some all_keypts[k] := by
      unfold vector_at
      rw [List.get?_eq_getElem?]
      exact List.getElem?_eq_getElem hk1
    have hD : all_keypts.getD k [] = all_keypts[k] := vector_at_getD _ _ _ _ hat
    simp only [List.foldlM_cons, List.foldlM_nil, Option.bind_eq_bind, Option.some_bind, hat,
      Option.pure_def, Option.bind_some, keypoint_count_succ, hD]
    simp [uadd, Nat.add_mod]

theorem compute_orb_descriptor_length (cv : external) (keypt : KeyPoint) (image : Mat) :
    (compute_orb_descriptor cv keypt image).length = 32 := by
  simp [compute_orb_descriptor]

theorem to_int_of_lt {n : Nat} (h : n < 2147483648) : to_int n = (n : Int) := by
  unfold to_int
  rw [if_pos h]

theorem uadd_of_lt {a b : Nat} (h : a + b < 4294967296) : uadd a b = a + b :=
  Nat.mod_eq_of_lt h

/-- One turn of the second loop of `extract`, when the rows of the level fit into the
descriptors: the keypoints of the level are appended and their rows are written at `offset`. -/
theorem extract_level_eq (cv : external) (e : orb_extractor)
    (all_keypts : List (List KeyPoint)) (level : Nat) (keypts : List KeyPoint)
    (descriptors : Mat) (offset : Nat) (keypts_at_level : List KeyPoint) (image : Mat)
    (scale_factor : ℚ)
    (hks : all_keypts[level]? = some keypts_at_level)
    (himage : vector_at e.image_pyramid_ level = some image)
    (hsf : vector_at e.orb_params_.scale_factors_ level = some scale_factor)
    (hfit : offset + keypts_at_level.length ≤ descriptors.rows)
    (hsmall : offset + keypts_at_level.length < 2147483648) :
    extract_level cv e all_keypts (keypts, descriptors, offset) level =
      some (keypts ++ (described_level cv e all_keypts level).map Prod.fst,
        write_rows descriptors offset ((described_level cv e all_keypts level).map Prod.snd),
        offset + keypts_at_level.length) := by
  have hat : vector_at all_keypts level = some keypts_at_level := by
    unfold vector_at
    rw [List.get?_eq_getElem?]
    exact hks
  have hD : all_keypts.getD level [] = keypts_at_level := getElem?_getD _ _ _ _ hks
  have hI : e.image_pyramid_.getD level Mat.released = image := vector_at_getD _ _ _ _ himage
  have hS : e.orb_params_.scale_factors_.getD level 0 = scale_factor :=
    vector_at_getD _ _ _ _ hsf
  unfold extract_level described_level
  simp only [Option.bind_eq_bind, Option.some_bind, hat, hD, hI, hS]
  by_cases h0 : keypts_at_level.length = 0
  · have hnil : keypts_at_level = [] := List.length_eq_zero.1 h0
    subst hnil
    simp [write_rows]
  · rw [if_neg h0]
    have hrange : descriptors.rowRange (to_int offset)
        (to_int (uadd offset keypts_at_level.length))
        = some ⟨((offset + keypts_at_level.length : Nat) - (offset : Int)).toNat, descriptors.cols,
            (descriptors.data.drop (offset : Int).toNat).take
              ((offset + keypts_at_level.length : Nat) - (offset : Int)).toNat⟩ := by
      rw [uadd_of_lt (by omega), to_int_of_lt (by omega), to_int_of_lt hsmall]
      unfold Mat.rowRange
      rw [if_pos (by omega)]
    rw [hrange, uadd_of_lt (by omega)]
    simp only [Option.some_bind, Option.pure_def]
    by_cases hl : level = 0
    · subst hl
      simp [correct_keypoint_scale, compute_orb_descriptors, List.map_map, Function.comp_def,
        himage]
    · simp [correct_keypoint_scale, compute_orb_descriptors, List.map_map, Function.comp_def,
        hl, hsf, himage]

theorem described_level_length (cv : external) (e : orb_extractor)
    (all_keypts : List (List KeyPoint)) (level : Nat) :
    (described_level cv e all_keypts level).length = (all_keypts.getD level []).length := by
  simp [described_level]

theorem described_levels_succ (cv : external) (e : orb_extractor)
    (all_keypts : List (List KeyPoint)) (k : Nat) :
    described_levels cv e all_keypts (k + 1)
      = described_levels cv e all_keypts k ++ described_level cv e all_keypts k := by
  simp [described_levels, List.range_succ]

theorem described_levels_length (cv : external) (e : orb_extractor)
    (all_keypts : List (List KeyPoint)) (k : Nat) :
    (described_levels cv e all_keypts k).length = keypoint_count all_keypts k := by
  induction k with
  | zero => simp [described_levels, keypoint_count]
  | succ k ih =>
    rw [described_levels_succ, List.length_append, ih, described_level_length,
      keypoint_count_succ]

theorem write_rows_append (descriptors : Mat) (pre rows : List (List Nat)) (offset : Nat)
    (hpre : pre.length = offset) :
    write_rows { descriptors with data := pre ++ descriptors.data.drop offset } offset rows
      = { descriptors with
          data := (pre ++ rows) ++ descriptors.data.drop (offset + rows.length) } := by
  unfold write_rows
  simp only [Mat.mk.injEq, true_and]
  have h1 : (pre ++ descriptors.data.drop offset).take offset = pre := by
    rw [List.take_append_of_le_length (by omega), List.take_of_length_le (by omega)]
  have h2 : (pre ++ descriptors.data.drop offset).drop (offset + rows.length)
      = descriptors.data.drop (offset + rows.length) := by
    rw [List.drop_append_eq_append_drop, List.drop_eq_nil_of_le (by omega), List.nil_append,
      List.drop_drop]
    congr 1
    omega
  rw [h1, h2]

/-- The second loop of `extract` over the levels `0 .. k - 1`: the keypoints of these levels
have been appended in order and their rows fill the first rows of the descriptors. -/
theorem extract_level_fold (cv : external) (e : orb_extractor)
    (all_keypts : List (List KeyPoint)) (descriptors : Mat)
    (hlev : ∀ level, level < e.orb_params_.num_levels_ →
      ∃ keypts image scale_factor, all_keypts[level]? = some keypts ∧
        vector_at e.image_pyramid_ level = some image ∧
        vector_at e.orb_params_.scale_factors_ level = some scale_factor)
    (hrows : descriptors.rows = keypoint_count all_keypts e.orb_params_.num_levels_)
    (hsmall : keypoint_count all_keypts e.orb_params_.num_levels_ < 2147483648)
    (k : Nat) (hk : k ≤ e.orb_params_.num_levels_) :
    (List.range k).foldlM (extract_level cv e all_keypts) ([], descriptors, 0) =
      some ((described_levels cv e all_keypts k).map Prod.fst,
        { descriptors with
          data := (described_levels cv e all_keypts k).map Prod.snd
            ++ descriptors.data.drop (keypoint_count all_keypts k) },
        keypoint_count all_keypts k) := by
  induction k with
  | zero => simp [described_levels, keypoint_count]
  | succ k ih =>
    have hk1 : k < e.orb_params_.num_levels_ := hk
    obtain ⟨keypts, image, sf, hks, himage, hsf⟩ := hlev k hk1
    have hD : all_keypts.getD k [] = keypts := getElem?_getD _ _ _ _ hks
    have hmono := keypoint_count_mono all_keypts (k + 1) _ hk
    rw [keypoint_count_succ, hD] at hmono
    rw [List.range_succ, List.foldlM_append, ih (Nat.le_of_lt hk1)]
    simp only [Option.bind_eq_bind, Option.some_bind, List.foldlM_cons, List.foldlM_nil]
    rw [extract_level_eq cv e all_keypts k _ _ _ keypts image sf hks himage hsf
      (by simp only [hrows]; omega) (by omega)]
    simp only [Option.some_bind, Option.pure_def, Option.some.injEq, Prod.mk.injEq]
    refine ⟨?_, ?_, ?_⟩
    · rw [described_levels_succ, List.map_append]
    · rw [write_rows_append descriptors _ _ _ (by
        rw [List.length_map, described_levels_length])]
      rw [described_levels_succ, List.map_append, List.length_map, described_level_length,
        keypoint_count_succ]
    · rw [keypoint_count_succ, hD]

/-- The second part of `extract` returns the keypoints of all levels, level after level, and a
matrix whose rows are their descriptor rows in the same order; the matrix is released when
there is no keypoint and has 32 columns otherwise. -/
theorem extract_describe_eq (cv : external) (e : orb_extractor)
    (all_keypts : List (List KeyPoint))
    (hlen : all_keypts.length = e.orb_params_.num_levels_)
    (hlev : ∀ level, level < e.orb_params_.num_levels_ →
      ∃ keypts image scale_factor, all_keypts[level]? = some keypts ∧
        vector_at e.image_pyramid_ level = some image ∧
        vector_at e.orb_params_.scale_factors_ level = some scale_factor)
    (hsmall : keypoint_count all_keypts e.orb_params_.num_levels_ < 2147483648) :
    extract_describe cv e all_keypts =
      some ((described_levels cv e all_keypts e.orb_params_.num_levels_).map Prod.fst,
        { rows := keypoint_count all_keypts e.orb_params_.num_levels_,
          cols := if keypoint_count all_keypts e.orb_params_.num_levels_ = 0 then 0 else 32,
          data := (described_levels cv e all_keypts e.orb_params_.num_levels_).map Prod.snd }) := by
  unfold extract_describe
  rw [num_keypts_fold all_keypts _ (by omega), Nat.mod_eq_of_lt (by omega)]
  simp only [Option.bind_eq_bind, Option.some_bind]
  have hrows : (if keypoint_count all_keypts e.orb_params_.num_levels_ = 0 then Mat.released
      else create_descriptors (keypoint_count all_keypts e.orb_params_.num_levels_)).rows
      = keypoint_count all_keypts e.orb_params_.num_levels_ := by
    split
    · rename_i h; rw [h]; rfl
    · rfl
  have hdata : (if keypoint_count all_keypts e.orb_params_.num_levels_ = 0 then Mat.released
      else create_descriptors (keypoint_count all_keypts e.orb_params_.num_levels_)).data.length
      = keypoint_count all_keypts e.orb_params_.num_levels_ := by
    split
    · rename_i h; rw [h]; rfl
    · simp [create_descriptors, Mat.filled]
  rw [extract_level_fold cv e all_keypts _ hlev hrows hsmall _ (le_refl _)]
  simp only [Option.some_bind, Option.pure_def, Option.some.injEq, Prod.mk.injEq, true_and]
  rw [List.drop_eq_nil_of_le (by omega), List.append_nil]
  split
  · rename_i h
    rw [h]
    rfl
  · rfl

/-! ## C1: an empty input image -/

/-- C1: for every extractor state and every caller-supplied keypoint vector and descriptor
output, `extract` called with an empty input image returns at once and leaves the extractor
(image pyramid, rectangle mask and the flag `mask_is_initialized_` included), the keypoint
vector and the descriptor output exactly as they were. -/
theorem extract_empty_image (cv : external) (fuel : Nat) (e : orb_extractor)
    (in_image in_image_mask : Mat) (keypts : List KeyPoint) (out_descriptors : Mat)
    (hempty : in_image.empty = true) :
    extract cv fuel e in_image in_image_mask keypts out_descriptors
      = some (e, keypts, out_descriptors) := by
  unfold extract
  rw [if_pos hempty]

/-- C1, witness: the released image given to an extractor of eight levels, with one keypoint
and one descriptor row already in the caller's outputs. -/
theorem extract_empty_image_witness :
    Mat.released.empty = true ∧
    extract cv_stand_in 0 extractor_eight_levels Mat.released Mat.released
        [fast_keypoint 1 2 3] (Mat.filled 1 32 7)
      = some (extractor_eight_levels, [fast_keypoint 1 2 3], Mat.filled 1 32 7) :=
  ⟨by decide, extract_empty_image cv_stand_in 0 extractor_eight_levels Mat.released Mat.released
    [fast_keypoint 1 2 3] (Mat.filled 1 32 7) (by decide)⟩

/-! ## C4: the quota of a level is not an upper bound -/

/-- C4 (the code at the failing inputs): with a quota of one keypoint and two candidates lying
in the two initial nodes of a detection area of 200 by 100 pixels,
`distribute_keypoints_via_tree` returns both candidates; with a quota of two keypoints and five
candidates in one initial node of 100 by 100 pixels, whose division gives four non-empty
children, it returns four keypoints. -/
theorem distribute_keypoints_exceeds_quota :
    Option.map List.length
      (distribute_keypoints_via_tree cv_stand_in 2 two_keypoints 19 219 19 119 1) = some 2 ∧
    Option.map List.length
      (distribute_keypoints_via_tree cv_stand_in 3 five_keypoints 19 119 19 119 2) = some 4 := by
  decide!

/-! ## `extract` returns: the pyramid, the mask and the orientations -/

theorem foldlM_some_of_invariant {α β : Type} (f : β → α → Option β) (I : β → Prop) :
    ∀ (l : List α) (b : β), I b →
      (∀ b a, I b → a ∈ l → ∃ b', f b a = some b' ∧ I b') →
      ∃ r, l.foldlM f b = some r ∧ I r
  | [], b, hb, _ => ⟨b, rfl, hb⟩
  | a :: l, b, hb, hstep => by
    obtain ⟨b', hb', hI⟩ := hstep b a hb (List.mem_cons_self _ _)
    obtain ⟨r, hr, hIr⟩ := foldlM_some_of_invariant f I l b' hI
      (fun b a hb ha => hstep b a hb (List.mem_cons_of_mem _ ha))
    refine ⟨r, ?_, hIr⟩
    simp only [List.foldlM_cons, Option.bind_eq_bind, hb', Option.some_bind]
    exact hr

theorem mapM_some_of_forall {α β : Type} (f : α → Option β) :
    ∀ (l : List α), (∀ a ∈ l, ∃ b, f a = some b) → ∃ r, l.mapM f = some r
  | [], _ => ⟨[], rfl⟩
  | a :: l, h => by
    obtain ⟨b, hb⟩ := h a (List.mem_cons_self _ _)
    obtain ⟨r, hr⟩ := mapM_some_of_forall f l (fun a ha => h a (List.mem_cons_of_mem _ ha))
    exact ⟨b :: r, by rw [List.mapM_cons, hb, hr]; rfl⟩

theorem foldlM_some_of_forall {α β : Type} (f : β → α → Option β) (l : List α) (b : β)
    (hstep : ∀ b a, a ∈ l → ∃ b', f b a = some b') : ∃ r, l.foldlM f b = some r := by
  obtain ⟨r, hr, _⟩ := foldlM_some_of_invariant f (fun _ => True) l b trivial
    (fun b a _ ha => by
      obtain ⟨b', hb'⟩ := hstep b a ha
      exact ⟨b', hb', trivial⟩)
  exact ⟨r, hr⟩

theorem bind_some_of_some {α β : Type} (x : Option α) (g : α → Option β)
    (hx : ∃ a, x = some a) (hg : ∀ a, ∃ b, g a = some b) : ∃ b, x.bind g = some b := by
  obtain ⟨a, rfl⟩ := hx
  exact hg a

theorem vector_at_of_lt {α : Type} (v : List α) (i : Nat) (h : i < v.length) :
    vector_at v i = some v[i] := by
  unfold vector_at
  rw [List.get?_eq_getElem?]
  exact List.getElem?_eq_getElem h

theorem vector_set_of_lt {α : Type} (v : List α) (i : Nat) (a : α) (h : i < v.length) :
    vector_set v i a = some (v.set i a) := by
  unfold vector_set
  rw [if_pos h]

/-- The method `compute_image_pyramid` returns a pyramid with one image per level. -/
theorem compute_image_pyramid_returns (cv : external) (e : orb_extractor) (image : Mat)
    (hwf : e.well_formed) :
    ∃ pyramid, compute_image_pyramid cv e image = some pyramid ∧
      pyramid.length = e.orb_params_.num_levels_ := by
  unfold compute_image_pyramid
  have h1 := hwf.levels
  have h2 := hwf.pyramid
  rw [vector_set_of_lt _ _ _ (by omega)]
  simp only [Option.bind_eq_bind, Option.some_bind]
  refine foldlM_some_of_invariant (pyramid_step cv e.orb_params_ image)
    (fun p => p.length = e.orb_params_.num_levels_) _ _ (by simp [h2]) ?_
  intro p level hp hlevel
  rw [List.mem_range'_1] at hlevel
  unfold pyramid_step
  rw [vector_at_of_lt _ _ (by rw [hwf.scale_factors]; omega),
    vector_at_of_lt p (level - 1) (by omega)]
  simp only [Option.bind_eq_bind, Option.some_bind]
  rw [vector_set_of_lt _ _ _ (by omega)]
  exact ⟨_, rfl, by simp [hp]⟩

/-- The method `create_rectangle_mask` returns when every mask rectangle has four entries. -/
theorem create_rectangle_mask_returns (cv : external) (e : orb_extractor) (cols rows : Nat)
    (hrects : ∀ mask_rect ∈ e.mask_rects_, 4 ≤ mask_rect.length) :
    ∃ rect_mask, create_rectangle_mask cv e cols rows = some rect_mask := by
  unfold create_rectangle_mask
  obtain ⟨r, hr, _⟩ := foldlM_some_of_invariant (draw_mask_rect cv cols rows) (fun _ => True)
    e.mask_rects_ (if e.rect_mask_.empty then Mat.filled rows cols 255 else e.rect_mask_)
    trivial (by
      intro b mask_rect _ hmem
      have h4 := hrects mask_rect hmem
      unfold draw_mask_rect
      rw [vector_at_of_lt _ 0 (by omega), vector_at_of_lt _ 1 (by omega),
        vector_at_of_lt _ 2 (by omega), vector_at_of_lt _ 3 (by omega)]
      exact ⟨_, rfl, trivial⟩)
  exact ⟨r, hr⟩

/-- The method `ic_angle` returns when `u_max_` covers the half patch. -/
theorem ic_angle_returns (cv : external) (e : orb_extractor) (image : Mat) (point : Point2f)
    (hu : fast_half_patch_size_ < e.u_max_.length) :
    ∃ angle, ic_angle cv e image point = some angle := by
  unfold ic_angle
  simp only [Option.bind_eq_bind, Option.pure_def]
  apply bind_some_of_some
  · apply foldlM_some_of_forall
    intro b v hv
    rw [List.mem_range'_1] at hv
    rw [vector_at_of_lt _ v (by omega)]
    exact ⟨_, rfl⟩
  · intro a
    exact ⟨_, rfl⟩

/-- The method `compute_orientation` returns when `u_max_` covers the half patch. -/
theorem compute_orientation_returns (cv : external) (e : orb_extractor) (image : Mat)
    (keypts : List KeyPoint) (hu : fast_half_patch_size_ < e.u_max_.length) :
    ∃ r, compute_orientation cv e image keypts = some r := by
  unfold compute_orientation
  apply mapM_some_of_forall
  intro keypt _
  obtain ⟨a, ha⟩ := ic_angle_returns cv e image keypt.pt hu
  rw [ha]
  exact ⟨_, rfl⟩

/-! ## `extract` returns: the distribution tree -/

theorem isEmpty_eq_false_of_ne {α : Type} {l : List α} (h : l ≠ []) : l.isEmpty = false := by
  cases l with
  | nil => exact absurd rfl h
  | cons a l => rfl

theorem ne_nil_of_isEmpty_eq_false {α : Type} {l : List α} (h : l.isEmpty = false) : l ≠ [] := by
  intro e
  subst e
  simp at h

/-- The method `assign_child_nodes` keeps every node non-empty, never shortens the list of
nodes, and lengthens it when a child holds a keypoint. -/
theorem assign_child_nodes_spec (child_nodes : List orb_extractor_node) :
    ∀ st : tree_state, st.nonempty →
      (assign_child_nodes child_nodes st).nonempty ∧
      st.nodes.length ≤ (assign_child_nodes child_nodes st).nodes.length ∧
      ((∃ child ∈ child_nodes, child.keypts_ ≠ []) →
        st.nodes.length < (assign_child_nodes child_nodes st).nodes.length) := by
  induction child_nodes with
  | nil =>
    intro st h
    exact ⟨h, le_refl _, fun ⟨_, hc, _⟩ => absurd hc (List.not_mem_nil _)⟩
  | cons c cs ih =>
    intro st h
    unfold assign_child_nodes
    rw [List.foldl_cons]
    by_cases hc : c.keypts_.isEmpty = true
    · rw [if_pos hc]
      obtain ⟨i1, i2, i3⟩ := ih st h
      refine ⟨i1, i2, ?_⟩
      rintro ⟨child, hmem, hne⟩
      rcases List.mem_cons.1 hmem with rfl | hmem
      · exact absurd (isEmpty_eq_false_of_ne hne) (by simp [hc])
      · exact i3 ⟨child, hmem, hne⟩
    · rw [if_neg hc]
      have hne : c.keypts_ ≠ [] := ne_nil_of_isEmpty_eq_false (by simpa using hc)
      by_cases h1 : c.keypts_.length = 1
      · rw [if_pos h1]
        obtain ⟨i1, i2, _⟩ := ih
          { st with nodes := { c with iter_ := st.fresh } :: st.nodes, fresh := st.fresh + 1 }
          ⟨by
            intro node hnode
            rcases List.mem_cons.1 hnode with rfl | hnode
            · exact hne
            · exact h.1 node hnode, h.2⟩
        refine ⟨i1, ?_, fun _ => ?_⟩
        · exact le_trans (by simp) i2
        · exact lt_of_lt_of_le (by simp) i2
      · rw [if_neg h1]
        obtain ⟨i1, i2, _⟩ := ih
          { nodes := { c with iter_ := st.fresh } :: st.nodes,
            leaf_nodes_pool := st.leaf_nodes_pool
              ++ [(c.keypts_.length, { c with iter_ := st.fresh })],
            fresh := st.fresh + 1 }
          ⟨by
            intro node hnode
            rcases List.mem_cons.1 hnode with rfl | hnode
            · exact hne
            · exact h.1 node hnode, by
            intro p hp
            rcases List.mem_append.1 hp with hp | hp
            · exact h.2 p hp
            · rw [List.mem_singleton] at hp
              subst hp
              exact hne⟩
        refine ⟨i1, ?_, fun _ => ?_⟩
        · exact le_trans (by simp) i2
        · exact lt_of_lt_of_le (by simp) i2

/-- The inner loop of the first loop of `distribute_keypoints_via_tree` keeps every node
non-empty and never shortens the list of nodes. -/
theorem fork_nodes_spec (cv : external) (hcv : cv.sound) :
    ∀ (rest kept : List orb_extractor_node) (st : tree_state),
      (∀ node ∈ rest, node.keypts_ ≠ []) → (∀ node ∈ kept, node.keypts_ ≠ []) → st.nonempty →
      (fork_nodes cv rest kept st).nonempty ∧
      st.nodes.length + kept.length + rest.length ≤ (fork_nodes cv rest kept st).nodes.length := by
  intro rest
  induction rest with
  | nil =>
    intro kept st _ hkept hst
    unfold fork_nodes
    refine ⟨⟨?_, hst.2⟩, by simp⟩
    intro node hnode
    rcases List.mem_append.1 hnode with h | h
    · exact hst.1 node h
    · exact hkept node h
  | cons node rest ih =>
    intro kept st hrest hkept hst
    have hnode := hrest node (List.mem_cons_self _ _)
    have hrest' : ∀ n ∈ rest, n.keypts_ ≠ [] := fun n hn => hrest n (List.mem_cons_of_mem _ hn)
    unfold fork_nodes
    by_cases hleaf : node.is_leaf_node_ = true
    · rw [if_pos hleaf]
      obtain ⟨i1, i2⟩ := ih (kept ++ [node]) st hrest' (by
        intro n hn
        rcases List.mem_append.1 hn with h | h
        · exact hkept n h
        · rw [List.mem_singleton] at h
          subst h
          exact hnode) hst
      refine ⟨i1, ?_⟩
      simp only [List.length_append, List.length_cons, List.length_nil] at i2 ⊢
      omega
    · rw [if_neg hleaf]
      obtain ⟨a1, _, a3⟩ := assign_child_nodes_spec (cv.divide_node node) st hst
      have a3' := a3 (hcv.divide_node_keeps node hnode)
      obtain ⟨i1, i2⟩ := ih kept _ hrest' hkept a1
      refine ⟨i1, ?_⟩
      simp only [List.length_cons] at i2 ⊢
      omega

/-- The first loop of `distribute_keypoints_via_tree` ends within `num_keypts + 1` turns. -/
theorem fork_loop_returns (cv : external) (hcv : cv.sound) (num_keypts : Nat) :
    ∀ (fuel : Nat) (st : tree_state), st.nonempty → 0 < fuel →
      num_keypts < fuel + st.nodes.length →
      ∃ r, fork_loop cv num_keypts fuel st = some r ∧ r.1.nonempty := by
  intro fuel
  induction fuel with
  | zero => intro st _ h0; omega
  | succ fuel ih =>
    intro st hst _ hfuel
    obtain ⟨i1, i2⟩ := fork_nodes_spec cv hcv st.nodes []
      { st with nodes := [], leaf_nodes_pool := [] } hst.1
      (fun _ h => absurd h (List.not_mem_nil _))
      ⟨fun _ h => absurd h (List.not_mem_nil _), fun _ h => absurd h (List.not_mem_nil _)⟩
    simp only [List.length_nil, zero_add] at i2
    unfold fork_loop
    simp only
    split
    · exact ⟨_, rfl, i1⟩
    · rename_i hc
      split
      · exact ⟨_, rfl, i1⟩
      · have hc' := not_or.1 hc
        exact ih _ i1 (by omega) (by omega)

/-- The inner loop of the second loop of `distribute_keypoints_via_tree` keeps every node
non-empty and never shortens the list of nodes. -/
theorem select_for_target_spec (cv : external) (hcv : cv.sound)
    (num_keypts target_num_keypts : Nat) :
    ∀ (pool : List (Nat × orb_extractor_node)) (st : tree_state) (is_filled : Bool),
      (∀ prev_leaf_node ∈ pool, prev_leaf_node.2.keypts_ ≠ []) → st.nonempty →
      (select_for_target cv num_keypts target_num_keypts pool (st, is_filled)).1.nonempty ∧
      st.nodes.length
        ≤ (select_for_target cv num_keypts target_num_keypts pool (st, is_filled)).1.nodes.length := by
  intro pool
  induction pool with
  | nil =>
    intro st is_filled _ hst
    unfold select_for_target
    exact ⟨hst, le_refl _⟩
  | cons p pool ih =>
    intro st is_filled hpool hst
    have hp := hpool p (List.mem_cons_self _ _)
    have hpool' : ∀ q ∈ pool, q.2.keypts_ ≠ [] := fun q hq => hpool q (List.mem_cons_of_mem _ hq)
    unfold select_for_target
    by_cases ht : p.1 = target_num_keypts
    · rw [if_pos ht]
      obtain ⟨a1, _, a3⟩ := assign_child_nodes_spec (cv.divide_node p.2) st hst
      have a3' := a3 (hcv.divide_node_keeps p.2 hp)
      have herase : (assign_child_nodes (cv.divide_node p.2) st).nodes.length - 1
          ≤ ((assign_child_nodes (cv.divide_node p.2) st).nodes.eraseP
              (fun node => node.iter_ == p.2.iter_)).length := by
        rw [List.length_eraseP]
        split <;> omega
      have hst2 : tree_state.nonempty
          { assign_child_nodes (cv.divide_node p.2) st with
            nodes := (assign_child_nodes (cv.divide_node p.2) st).nodes.eraseP
              (fun node => node.iter_ == p.2.iter_) } :=
        ⟨fun node hnode => a1.1 node (List.mem_of_mem_eraseP hnode), a1.2⟩
      simp only
      split
      · exact ⟨hst2, by simp only; omega⟩
      · obtain ⟨i1, i2⟩ := ih _ is_filled hpool' hst2
        exact ⟨i1, by simp only at i2; omega⟩
    · rw [if_neg ht]
      exact ih st is_filled hpool' hst

theorem select_targets_spec (cv : external) (hcv : cv.sound) (num_keypts : Nat)
    (pool : List (Nat × orb_extractor_node))
    (hpool : ∀ prev_leaf_node ∈ pool, prev_leaf_node.2.keypts_ ≠ []) :
    ∀ (targets : List Nat) (r : tree_state × Bool), r.1.nonempty →
      (targets.foldl (fun r target_num_keypts =>
        select_for_target cv num_keypts target_num_keypts pool r) r).1.nonempty ∧
      r.1.nodes.length ≤ (targets.foldl (fun r target_num_keypts =>
        select_for_target cv num_keypts target_num_keypts pool r) r).1.nodes.length := by
  intro targets
  induction targets with
  | nil => intro r hr; exact ⟨hr, le_refl _⟩
  | cons t targets ih =>
    intro r hr
    rw [List.foldl_cons]
    obtain ⟨s1, s2⟩ := select_for_target_spec cv hcv num_keypts t pool r.1 r.2 hpool hr
    obtain ⟨i1, i2⟩ := ih _ s1
    exact ⟨i1, le_trans s2 i2⟩

/-- The second loop of `distribute_keypoints_via_tree` ends within `num_keypts + 1` turns. -/
theorem select_loop_returns (cv : external) (hcv : cv.sound) (num_keypts : Nat) :
    ∀ (fuel : Nat) (st : tree_state), st.nonempty → 0 < fuel →
      num_keypts < fuel + st.nodes.length →
      ∃ r, select_loop cv num_keypts fuel st = some r ∧ r.nonempty := by
  intro fuel
  induction fuel with
  | zero => intro st _ h0; omega
  | succ fuel ih =>
    intro st hst _ hfuel
    obtain ⟨i1, i2⟩ := select_targets_spec cv hcv num_keypts st.leaf_nodes_pool hst.2
      ((List.range ((st.leaf_nodes_pool.map (fun prev_leaf_node => prev_leaf_node.1)).foldl
        (fun m c => if m < c then c else m) 0)).reverse.map (fun t => t + 1))
      ({ st with leaf_nodes_pool := [] }, false)
      ⟨hst.1, fun _ h => absurd h (List.not_mem_nil _)⟩
    unfold select_loop
    simp only
    split
    · exact ⟨_, rfl, i1⟩
    · rename_i hc
      simp only [not_or] at hc
      exact ih _ i1 (by simp only at i2; omega) (by simp only at i2; omega)

/-- The method `find_keypoints_with_max_response` returns when every node holds a keypoint. -/
theorem find_keypoints_with_max_response_returns (nodes : List orb_extractor_node)
    (h : ∀ node ∈ nodes, node.keypts_ ≠ []) :
    ∃ r, find_keypoints_with_max_response nodes = some r := by
  unfold find_keypoints_with_max_response
  apply mapM_some_of_forall
  intro node hnode
  have hne := h node hnode
  rw [vector_at_of_lt _ 0 (List.length_pos.2 hne)]
  exact ⟨_, rfl⟩

/-- The method `distribute_keypoints_via_tree` returns once `initialize_nodes` has returned,
with fuel above the quota. -/
theorem distribute_keypoints_via_tree_returns (cv : external) (hcv : cv.sound) (fuel : Nat)
    (keypts_to_distribute : List KeyPoint) (min_x max_x min_y max_y : Int) (num_keypts : Nat)
    (hfuel : num_keypts < fuel)
    (hnodes : ∃ nodes, initialize_nodes keypts_to_distribute min_x max_x min_y max_y = some nodes ∧
      ∀ node ∈ nodes, node.keypts_ ≠ []) :
    ∃ r, distribute_keypoints_via_tree cv fuel keypts_to_distribute min_x max_x min_y max_y
      num_keypts = some r := by
  obtain ⟨nodes, hinit, hne⟩ := hnodes
  unfold distribute_keypoints_via_tree
  rw [hinit]
  simp only [Option.bind_eq_bind, Option.some_bind]
  obtain ⟨r, hr, hrne⟩ := fork_loop_returns cv hcv num_keypts fuel
    { nodes := nodes, leaf_nodes_pool := [], fresh := 1 }
    ⟨hne, fun _ h => absurd h (List.not_mem_nil _)⟩ (by omega) (by simp only; omega)
  rw [hr]
  simp only [Option.some_bind]
  by_cases hfilled : r.2 = true
  · rw [if_pos hfilled]
    exact find_keypoints_with_max_response_returns _ hrne.1
  · rw [if_neg hfilled]
    obtain ⟨st, hst, hstne⟩ := select_loop_returns cv hcv num_keypts fuel r.1 hrne (by omega)
      (by omega)
    rw [hst]
    simp only [Option.some_bind]
    exact find_keypoints_with_max_response_returns _ hstne.1

/-! ## `extract` returns: the initial nodes -/

theorem std_round_pos_of_one_le {x : ℚ} (h : 1 ≤ x) : 1 ≤ std_round x := by
  unfold std_round
  rw [if_pos (by linarith)]
  exact Int.le_floor.2 (by push_cast; linarith)

theorem std_round_lt_of_le {x : ℚ} (h0 : 0 ≤ x) {b : Int} (h : x + 1 / 2 < b) :
    std_round x < b := by
  unfold std_round
  rw [if_pos h0]
  exact Int.floor_lt.2 h

theorem truncate_div_lt {x d : ℚ} {n : Nat} (hx : 0 ≤ x) (hd : 0 < d) (h : x < d * n) :
    0 ≤ truncate (x / d) ∧ truncate (x / d) < n := by
  have h0 : 0 ≤ x / d := div_nonneg hx (le_of_lt hd)
  unfold truncate
  rw [if_pos h0]
  refine ⟨Int.floor_nonneg.2 h0, Int.floor_lt.2 ?_⟩
  rw [div_lt_iff₀ hd]
  push_cast
  linarith

/-- The grid of `initialize_nodes` for a non-empty detection area whose left and upper borders
are equal (as in the call from `compute_fast_keypoints`): at least one column and one row, and
the patches cover the area. -/
theorem initial_grid_spec (min_x max_x min_y max_y : Int) (hxy : min_x = min_y)
    (hw : 0 < max_x - min_x) (hh : 0 < max_y - min_y)
    (hw' : max_x - min_x < 2147483648) (hh' : max_y - min_y < 2147483648) :
    1 ≤ (initial_grid min_x max_x min_y max_y).1 ∧
    1 ≤ (initial_grid min_x max_x min_y max_y).2.1 ∧
    (initial_grid min_x max_x min_y max_y).1 * (initial_grid min_x max_x min_y max_y).2.1
      < 4294967296 ∧
    0 < (initial_grid min_x max_x min_y max_y).2.2.1 ∧
    0 < (initial_grid min_x max_x min_y max_y).2.2.2 ∧
    ((max_x - min_x : Int) : ℚ) ≤ (initial_grid min_x max_x min_y max_y).2.2.1
      * ((initial_grid min_x max_x min_y max_y).1 : ℚ) ∧
    ((max_y - min_y : Int) : ℚ) ≤ (initial_grid min_x max_x min_y max_y).2.2.2
      * ((initial_grid min_x max_x min_y max_y).2.1 : ℚ) := by
  subst hxy
  have hW : (0 : ℚ) < ((max_x - min_x : Int) : ℚ) := by exact_mod_cast hw
  have hH : (0 : ℚ) < ((max_y - min_x : Int) : ℚ) := by exact_mod_cast hh
  have hW1 : (1 : ℚ) ≤ ((max_x - min_x : Int) : ℚ) := by
    have : (1 : Int) ≤ max_x - min_x := hw
    exact_mod_cast this
  have hH1 : (1 : ℚ) ≤ ((max_y - min_x : Int) : ℚ) := by
    have : (1 : Int) ≤ max_y - min_x := hh
    exact_mod_cast this
  have hW' : ((max_x - min_x : Int) : ℚ) < 2147483648 := by exact_mod_cast hw'
  have hH' : ((max_y - min_x : Int) : ℚ) < 2147483648 := by exact_mod_cast hh'
  have hbig : ((4294967296 : Int) : ℚ) = 4294967296 := by norm_num
  unfold initial_grid
  generalize ((max_x - min_x : Int) : ℚ) = W at hW hW1 hW'
  generalize ((max_y - min_x : Int) : ℚ) = H at hH hH1 hH'
  dsimp only
  split
  · rename_i hratio
    have hr1 : 1 ≤ std_round (W / H) := std_round_pos_of_one_le (le_of_lt hratio)
    have hle : W / H ≤ W := div_le_self (le_of_lt hW) hH1
    have hr2 : std_round (W / H) < 4294967296 :=
      std_round_lt_of_le (by linarith) (by rw [hbig]; linarith)
    rw [to_unsigned_of_nonneg (by omega) hr2]
    generalize std_round (W / H) = r at hr1 hr2
    have hn : (1 : ℚ) ≤ (r.toNat : ℚ) := by
      have : 1 ≤ r.toNat := by omega
      exact_mod_cast this
    dsimp only
    refine ⟨by omega, le_refl _, by omega, ?_, hH, ?_, ?_⟩
    · exact div_pos hW (by linarith)
    · rw [div_mul_cancel₀ _ (by linarith)]
    · simp
  · rename_i hratio
    have hratio' : W / H ≤ 1 := not_lt.1 hratio
    have hpos : 0 < W / H := div_pos hW hH
    have hinv : 1 ≤ 1 / (W / H) := by
      rw [le_div_iff₀ hpos]
      linarith
    have hinv' : 1 / (W / H) ≤ H := by
      rw [one_div_div]
      exact div_le_self (le_of_lt hH) hW1
    have hr1 := std_round_pos_of_one_le hinv
    have hr2 : std_round (1 / (W / H)) < 4294967296 :=
      std_round_lt_of_le (by linarith) (by rw [hbig]; linarith)
    rw [to_unsigned_of_nonneg (by omega) hr2]
    generalize std_round (1 / (W / H)) = r at hr1 hr2
    have hn : (1 : ℚ) ≤ (r.toNat : ℚ) := by
      have : 1 ≤ r.toNat := by omega
      exact_mod_cast this
    dsimp only
    refine ⟨le_refl _, by omega, by omega, hW, ?_, ?_, ?_⟩
    · exact div_pos hH (by linarith)
    · simp
    · rw [div_mul_cancel₀ _ (by linarith)]

theorem to_unsigned_truncate_div_lt {x d : ℚ} {n : Nat} (hx : 0 ≤ x) (hd : 0 < d)
    (h : x < d * n) (hn : n < 4294967296) : to_unsigned (truncate (x / d)) < n := by
  obtain ⟨h0, h1⟩ := truncate_div_lt hx hd h
  rw [to_unsigned_of_nonneg h0 (by omega)]
  omega

/-- The method `initialize_nodes` returns, with a keypoint in every node, when the keypoints
lie in the detection area. -/
theorem initialize_nodes_returns (keypts_to_distribute : List KeyPoint)
    (min_x max_x min_y max_y : Int) (hxy : min_x = min_y)
    (hw : 0 < max_x - min_x) (hh : 0 < max_y - min_y)
    (hw' : max_x - min_x < 2147483648) (hh' : max_y - min_y < 2147483648)
    (hk : ∀ keypt ∈ keypts_to_distribute,
      0 ≤ keypt.pt.x ∧ keypt.pt.x < ((max_x - min_x : Int) : ℚ) ∧
      0 ≤ keypt.pt.y ∧ keypt.pt.y < ((max_y - min_y : Int) : ℚ)) :
    ∃ nodes, initialize_nodes keypts_to_distribute min_x max_x min_y max_y = some nodes ∧
      ∀ node ∈ nodes, node.keypts_ ≠ [] := by
  obtain ⟨g1, g2, g3, g4, g5, g6, g7⟩ :=
    initial_grid_spec min_x max_x min_y max_y hxy hw hh hw' hh'
  unfold initialize_nodes
  generalize initial_grid min_x max_x min_y max_y = g at g1 g2 g3 g4 g5 g6 g7
  obtain ⟨nx, ny, dx, dy⟩ := g
  dsimp only at g1 g2 g3 g4 g5 g6 g7 ⊢
  have hmul : umul nx ny = nx * ny := Nat.mod_eq_of_lt g3
  rw [hmul]
  have hnx : nx < 4294967296 := by
    calc nx = nx * 1 := (Nat.mul_one nx).symm
      _ ≤ nx * ny := Nat.mul_le_mul_left nx g2
      _ < 4294967296 := g3
  have hny : ny < 4294967296 := by
    calc ny = 1 * ny := (Nat.one_mul ny).symm
      _ ≤ nx * ny := Nat.mul_le_mul_right ny g1
      _ < 4294967296 := g3
  obtain ⟨nodes1, h1, _⟩ := foldlM_some_of_invariant (assign_to_initial_node nx dx dy)
    (fun nodes => nodes.length = nx * ny) keypts_to_distribute
    ((List.range (nx * ny)).map (fun i =>
      initial_node ⟨truncate (dx * ((i % nx : Nat) : ℚ)), truncate (dy * ((i / nx : Nat) : ℚ))⟩
        ⟨truncate (dx * ((i % nx + 1 : Nat) : ℚ)), truncate (dy * ((i / nx + 1 : Nat) : ℚ))⟩))
    (by simp) (by
      intro nodes keypt hlen hmem
      obtain ⟨k1, k2, k3, k4⟩ := hk keypt hmem
      have hix := to_unsigned_truncate_div_lt k1 g4 (lt_of_lt_of_le k2 g6) hnx
      have hiy := to_unsigned_truncate_div_lt k3 g5 (lt_of_lt_of_le k4 g7) hny
      unfold assign_to_initial_node
      generalize to_unsigned (truncate (keypt.pt.x / dx)) = ix at hix
      generalize to_unsigned (truncate (keypt.pt.y / dy)) = iy at hiy
      have hprod : iy * nx + nx ≤ nx * ny := by
        calc iy * nx + nx = (iy + 1) * nx := by ring
          _ ≤ ny * nx := Nat.mul_le_mul_right nx hiy
          _ = nx * ny := Nat.mul_comm _ _
      have hum : umul iy nx = iy * nx := Nat.mod_eq_of_lt (by omega)
      have hua : uadd ix (umul iy nx) = ix + iy * nx := by
        rw [hum]
        exact Nat.mod_eq_of_lt (by omega)
      dsimp only
      rw [hua, vector_at_of_lt _ _ (by omega)]
      simp only [Option.bind_eq_bind, Option.some_bind]
      rw [vector_set_of_lt _ _ _ (by omega)]
      exact ⟨_, rfl, by simp [hlen]⟩)
  simp only [Option.bind_eq_bind, Option.pure_def]
  rw [h1]
  refine ⟨_, rfl, ?_⟩
  intro node hnode
  simp only [List.mem_map, List.mem_filter] at hnode
  obtain ⟨a, ⟨_, ha⟩, rfl⟩ := hnode
  exact ne_nil_of_isEmpty_eq_false (by simpa using ha)

/-! ## `extract` returns: the cells of a level -/

theorem rowRange_of_le (m : Mat) (a b : Nat) (hab : a ≤ b) (hb : b ≤ m.rows)
    (hsmall : b < 2147483648) :
    ∃ r, m.rowRange (to_int a) (to_int b) = some r ∧ r.rows = b - a ∧ r.cols = m.cols := by
  rw [to_int_of_lt (by omega), to_int_of_lt hsmall]
  unfold Mat.rowRange
  rw [if_pos (by omega)]
  exact ⟨_, rfl, by simp only; omega, rfl⟩

theorem colRange_of_le (m : Mat) (a b : Nat) (hab : a ≤ b) (hb : b ≤ m.cols)
    (hsmall : b < 2147483648) :
    ∃ r, m.colRange (to_int a) (to_int b) = some r ∧ r.cols = b - a ∧ r.rows = m.rows := by
  rw [to_int_of_lt (by omega), to_int_of_lt hsmall]
  unfold Mat.colRange
  rw [if_pos (by omega)]
  exact ⟨_, rfl, by simp only; omega, rfl⟩

/-- The cell `(i, j)` of a level: the ranges of the cell lie in the image, and the keypoints it
contributes lie in the detection area. -/
theorem fast_keypoints_in_cell_returns (cv : external) (hcv : cv.sound) (p : orb_params)
    (image mask : Mat) (scale_factor : ℚ) (min_y max_y i j : Nat)
    (hfit : level_fits image) (hj : 64 * j + 38 ≤ image.cols)
    (hmin : min_y = 19 + 64 * i) (hle : min_y ≤ max_y) (hmax : max_y + 19 ≤ image.rows) :
    ∃ r, fast_keypoints_in_cell cv p image mask scale_factor (usub image.cols orb_patch_radius_)
        min_y max_y i j = some r ∧
      ∀ keypt ∈ r, 0 ≤ keypt.pt.x ∧ keypt.pt.x < (image.cols : ℚ) - 38 ∧
        0 ≤ keypt.pt.y ∧ keypt.pt.y < (image.rows : ℚ) - 38 := by
  obtain ⟨f1, f2, f3, f4⟩ := hfit
  have h19 : orb_patch_radius_ = 19 := rfl
  have h64 : cell_size = 64 := rfl
  have h6 : overlap = 6 := rfl
  rw [h19] at f1 f3
  have hborder : usub image.cols 19 = image.cols - 19 := by
    unfold usub; rw [if_pos (by omega)]
  have hmj : umul j 64 = 64 * j := by
    unfold umul; rw [Nat.mod_eq_of_lt (by omega)]; omega
  have hmi : umul i 64 = 64 * i := by
    unfold umul; rw [Nat.mod_eq_of_lt (by omega)]; omega
  have hminx : uadd 19 (64 * j) = 19 + 64 * j := Nat.mod_eq_of_lt (by omega)
  unfold fast_keypoints_in_cell
  simp only [h19, h64, h6, hborder, hmj, hmi, hminx]
  have hsub6 : usub (image.cols - 19) 6 = image.cols - 25 := by
    unfold usub; rw [if_pos (by omega)]; omega
  have hadd : uadd (uadd (19 + 64 * j) 64) 6 = 89 + 64 * j := by
    unfold uadd
    rw [Nat.mod_eq_of_lt (by omega), Nat.mod_eq_of_lt (by omega)]
    omega
  rw [hsub6, hadd]
  by_cases hskip : image.cols - 25 ≤ 19 + 64 * j
  · rw [if_pos hskip]
    exact ⟨[], rfl, fun _ h => absurd h (List.not_mem_nil _)⟩
  · rw [if_neg hskip]
    generalize hmx : (if image.cols - 19 < 89 + 64 * j then image.cols - 19 else 89 + 64 * j)
      = max_x
    have hmx1 : 19 + 64 * j ≤ max_x := by rw [← hmx]; split <;> omega
    have hmx2 : max_x + 19 ≤ image.cols := by rw [← hmx]; split <;> omega
    split
    · exact ⟨[], rfl, fun _ h => absurd h (List.not_mem_nil _)⟩
    · obtain ⟨rows, hrows, hr1, hr2⟩ := rowRange_of_le image min_y max_y hle (by omega)
        (by omega)
      obtain ⟨cell, hcell, hc1, hc2⟩ := colRange_of_le rows (19 + 64 * j) max_x hmx1
        (by rw [hr2]; omega) (by omega)
      rw [hrows]
      simp only [Option.bind_eq_bind, Option.some_bind, Option.pure_def]
      rw [hcell]
      simp only [Option.some_bind]
      refine ⟨_, rfl, ?_⟩
      intro keypt hkeypt
      have hmem := (List.mem_filter.1 hkeypt).1
      rw [List.mem_map] at hmem
      obtain ⟨k0, hk0, rfl⟩ := hmem
      have hfast : 0 ≤ k0.pt.x ∧ k0.pt.x < (cell.cols : ℚ) ∧ 0 ≤ k0.pt.y
          ∧ k0.pt.y < (cell.rows : ℚ) := by
        split at hk0
        · exact hcv.FAST_in_image _ _ _ hk0
        · exact hcv.FAST_in_image _ _ _ hk0
      obtain ⟨k1, k2, k3, k4⟩ := hfast
      rw [hc1] at k2
      rw [hc2, hr1] at k4
      have e1 : ((max_x - (19 + 64 * j) : Nat) : ℚ) = (max_x : ℚ) - 19 - 64 * j := by
        rw [Nat.cast_sub hmx1]; push_cast; ring
      have e2 : ((max_y - min_y : Nat) : ℚ) = (max_y : ℚ) - 19 - 64 * i := by
        rw [Nat.cast_sub hle, hmin]; push_cast; ring
      rw [e1] at k2
      rw [e2] at k4
      have b1 : (max_x : ℚ) + 19 ≤ image.cols := by exact_mod_cast hmx2
      have b2 : (max_y : ℚ) + 19 ≤ image.rows := by exact_mod_cast hmax
      have j0 : (0 : ℚ) ≤ ((64 * j : Nat) : ℚ) := Nat.cast_nonneg _
      have i0 : (0 : ℚ) ≤ ((64 * i : Nat) : ℚ) := Nat.cast_nonneg _
      push_cast at j0 i0 ⊢
      refine ⟨by linarith, by linarith, by linarith, by linarith⟩

theorem mem_flatten_of_mapM {α β : Type} (f : α → Option (List β)) (l : List α)
    (r : List (List β)) (h : l.mapM f = some r) (P : β → Prop)
    (hP : ∀ a ∈ l, ∀ bs, f a = some bs → ∀ b ∈ bs, P b) : ∀ b ∈ r.flatten, P b := by
  intro b hb
  rw [List.mem_flatten] at hb
  obtain ⟨bs, hbs, hb⟩ := hb
  obtain ⟨a, ha, hf⟩ := mapM_some_mem f l r h bs hbs
  exact hP a ha bs hf b hb

/-- The row `i` of cells of a level returns keypoints of the detection area. -/
theorem fast_keypoints_in_row_returns (cv : external) (hcv : cv.sound) (p : orb_params)
    (image mask : Mat) (scale_factor : ℚ) (i : Nat)
    (hfit : level_fits image) (hi : 64 * i + 38 ≤ image.rows) :
    ∃ r, fast_keypoints_in_row cv p image mask scale_factor (usub image.cols orb_patch_radius_)
        (usub image.rows orb_patch_radius_)
        (uadd (usub (usub image.cols orb_patch_radius_) orb_patch_radius_ / cell_size) 1) i
        = some r ∧
      ∀ keypt ∈ r, 0 ≤ keypt.pt.x ∧ keypt.pt.x < (image.cols : ℚ) - 38 ∧
        0 ≤ keypt.pt.y ∧ keypt.pt.y < (image.rows : ℚ) - 38 := by
  have hfit' := hfit
  obtain ⟨f1, f2, f3, f4⟩ := hfit'
  have h19 : orb_patch_radius_ = 19 := rfl
  have h64 : cell_size = 64 := rfl
  have h6 : overlap = 6 := rfl
  rw [h19] at f1 f3
  have hborder : usub image.rows 19 = image.rows - 19 := by
    unfold usub; rw [if_pos (by omega)]
  have hcols : uadd (usub (usub image.cols 19) 19 / 64) 1 = (image.cols - 38) / 64 + 1 := by
    have e1 : usub image.cols 19 = image.cols - 19 := by
      unfold usub; rw [if_pos (by omega)]
    have e2 : usub (image.cols - 19) 19 = image.cols - 38 := by
      unfold usub; rw [if_pos (by omega)]; omega
    rw [e1, e2]
    exact Nat.mod_eq_of_lt (by omega)
  have hmi : umul i 64 = 64 * i := by
    unfold umul; rw [Nat.mod_eq_of_lt (by omega)]; omega
  have hminy : uadd 19 (64 * i) = 19 + 64 * i := Nat.mod_eq_of_lt (by omega)
  have hsub6 : usub (image.rows - 19) 6 = image.rows - 25 := by
    unfold usub; rw [if_pos (by omega)]; omega
  have hadd : uadd (uadd (19 + 64 * i) 64) 6 = 89 + 64 * i := by
    unfold uadd
    rw [Nat.mod_eq_of_lt (by omega), Nat.mod_eq_of_lt (by omega)]
    omega
  have hb19 : usub image.cols orb_patch_radius_ = usub image.cols 19 := rfl
  unfold fast_keypoints_in_row
  simp only [h64, h6, hmi]
  rw [show (orb_patch_radius_ : Nat) = 19 from rfl] at *
  rw [hborder, hcols, hminy, hsub6, hadd]
  by_cases hskip : image.rows - 25 ≤ 19 + 64 * i
  · rw [if_pos hskip]
    exact ⟨[], rfl, fun _ h => absurd h (List.not_mem_nil _)⟩
  · rw [if_neg hskip]
    generalize hmy : (if image.rows - 19 < 89 + 64 * i then image.rows - 19 else 89 + 64 * i)
      = max_y
    have hmy1 : 19 + 64 * i ≤ max_y := by rw [← hmy]; split <;> omega
    have hmy2 : max_y + 19 ≤ image.rows := by rw [← hmy]; split <;> omega
    have hcell : ∀ j ∈ List.range ((image.cols - 38) / 64 + 1),
        ∃ r, fast_keypoints_in_cell cv p image mask scale_factor (usub image.cols 19)
            (19 + 64 * i) max_y i j = some r ∧
          ∀ keypt ∈ r, 0 ≤ keypt.pt.x ∧ keypt.pt.x < (image.cols : ℚ) - 38 ∧
            0 ≤ keypt.pt.y ∧ keypt.pt.y < (image.rows : ℚ) - 38 := by
      intro j hj
      rw [List.mem_range] at hj
      have hj' : 64 * j + 38 ≤ image.cols := by
        have := Nat.div_mul_le_self (image.cols - 38) 64
        omega
      exact fast_keypoints_in_cell_returns cv hcv p image mask scale_factor (19 + 64 * i)
        max_y i j hfit hj' rfl hmy1 hmy2
    obtain ⟨cells, hcells⟩ := mapM_some_of_forall
      (fast_keypoints_in_cell cv p image mask scale_factor (usub image.cols 19)
        (19 + 64 * i) max_y i) _ (fun j hj => by
          obtain ⟨r, hr, _⟩ := hcell j hj
          exact ⟨r, hr⟩)
    rw [hcells]
    refine ⟨_, rfl, ?_⟩
    apply mem_flatten_of_mapM _ _ _ hcells
    intro j hj bs hbs
    obtain ⟨r, hr, hP⟩ := hcell j hj
    rw [hbs] at hr
    rw [Option.some_inj.1 hr]
    exact hP

/-! ## `extract` returns: the detection -/

theorem border_width (n : Nat) (h1 : 2 * orb_patch_radius_ < n) (h2 : n < 2147483648) :
    to_int (usub n orb_patch_radius_) - to_int orb_patch_radius_ = (n : Int) - 38 := by
  have h19 : orb_patch_radius_ = 19 := rfl
  rw [h19] at h1 ⊢
  have e1 : usub n 19 = n - 19 := by
    unfold usub; rw [if_pos (by omega)]
  rw [e1, to_int_of_lt (by omega), to_int_of_lt (by omega)]
  omega

/-- The first loop of `compute_fast_keypoints` returns at a level whose image fits. -/
theorem fast_keypoints_at_level_returns (cv : external) (hcv : cv.sound) (fuel : Nat)
    (e : orb_extractor) (mask : Mat) (level : Nat) (hwf : e.well_formed)
    (hlevel : level < e.orb_params_.num_levels_)
    (hfit : ∀ image ∈ e.image_pyramid_, level_fits image)
    (hfuel : ∀ num_keypts ∈ e.num_keypts_per_level_, num_keypts < fuel) :
    ∃ r, fast_keypoints_at_level cv fuel e mask level = some r := by
  have hsf : level < e.orb_params_.scale_factors_.length := by rw [hwf.scale_factors]; exact hlevel
  have hpy : level < e.image_pyramid_.length := by rw [hwf.pyramid]; exact hlevel
  have hqu : level < e.num_keypts_per_level_.length := by rw [hwf.quotas]; exact hlevel
  have hfit' := hfit _ (List.getElem_mem hpy)
  have hq := hfuel _ (List.getElem_mem hqu)
  unfold fast_keypoints_at_level
  rw [vector_at_of_lt _ _ hsf, vector_at_of_lt _ _ hpy, vector_at_of_lt _ _ hqu]
  generalize e.image_pyramid_[level] = image at hfit' ⊢
  generalize e.num_keypts_per_level_[level] = num_keypts at hq ⊢
  generalize e.orb_params_.scale_factors_[level] = scale_factor
  have hfit'' := hfit'
  obtain ⟨f1, f2, f3, f4⟩ := hfit''
  have h19 : orb_patch_radius_ = 19 := rfl
  simp only [Option.bind_eq_bind, Option.some_bind, Option.pure_def]
  have hrowsn : uadd (usub (usub image.rows orb_patch_radius_) orb_patch_radius_ / cell_size) 1
      = (image.rows - 38) / 64 + 1 := by
    rw [h19] at f3 ⊢
    have e1 : usub image.rows 19 = image.rows - 19 := by
      unfold usub; rw [if_pos (by omega)]
    have e2 : usub (image.rows - 19) 19 = image.rows - 38 := by
      unfold usub; rw [if_pos (by omega)]; omega
    rw [e1, e2, show cell_size = 64 from rfl]
    exact Nat.mod_eq_of_lt (by omega)
  rw [hrowsn]
  have hrow : ∀ i ∈ List.range ((image.rows - 38) / 64 + 1),
      ∃ r, fast_keypoints_in_row cv e.orb_params_ image mask scale_factor
          (usub image.cols orb_patch_radius_) (usub image.rows orb_patch_radius_)
          (uadd (usub (usub image.cols orb_patch_radius_) orb_patch_radius_ / cell_size) 1) i
          = some r ∧
        ∀ keypt ∈ r, 0 ≤ keypt.pt.x ∧ keypt.pt.x < (image.cols : ℚ) - 38 ∧
          0 ≤ keypt.pt.y ∧ keypt.pt.y < (image.rows : ℚ) - 38 := by
    intro i hi
    rw [List.mem_range] at hi
    have hi' : 64 * i + 38 ≤ image.rows := by
      have := Nat.div_mul_le_self (image.rows - 38) 64
      rw [h19] at f3
      omega
    exact fast_keypoints_in_row_returns cv hcv e.orb_params_ image mask scale_factor i hfit' hi'
  obtain ⟨rows, hrows⟩ := mapM_some_of_forall _ _ (fun i hi => by
    obtain ⟨r, hr, _⟩ := hrow i hi
    exact ⟨r, hr⟩)
  rw [hrows]
  simp only [Option.map_some', Option.some_bind]
  have hcand : ∀ keypt ∈ rows.flatten, 0 ≤ keypt.pt.x ∧ keypt.pt.x < (image.cols : ℚ) - 38 ∧
      0 ≤ keypt.pt.y ∧ keypt.pt.y < (image.rows : ℚ) - 38 := by
    apply mem_flatten_of_mapM _ _ _ hrows
    intro i hi bs hbs
    obtain ⟨r, hr, hP⟩ := hrow i hi
    rw [hbs] at hr
    rw [Option.some_inj.1 hr]
    exact hP
  have hw := border_width image.cols f1 f2
  have hh := border_width image.rows f3 f4
  have hinit := initialize_nodes_returns rows.flatten (to_int orb_patch_radius_)
    (to_int (usub image.cols orb_patch_radius_)) (to_int orb_patch_radius_)
    (to_int (usub image.rows orb_patch_radius_)) rfl
    (by rw [hw]; rw [h19] at f1; omega) (by rw [hh]; rw [h19] at f3; omega)
    (by rw [hw]; omega) (by rw [hh]; omega) (by
      intro keypt hkeypt
      obtain ⟨k1, k2, k3, k4⟩ := hcand keypt hkeypt
      rw [hw, hh]
      push_cast
      exact ⟨k1, k2, k3, k4⟩)
  obtain ⟨r, hr⟩ := distribute_keypoints_via_tree_returns cv hcv fuel rows.flatten
    (to_int orb_patch_radius_) (to_int (usub image.cols orb_patch_radius_))
    (to_int orb_patch_radius_) (to_int (usub image.rows orb_patch_radius_)) num_keypts hq hinit
  rw [hr]
  exact ⟨_, rfl⟩

/-- The method `compute_fast_keypoints` returns for a well-formed extractor whose pyramid
images fit, with sound external functions and fuel above every quota. -/
theorem compute_fast_keypoints_returns (cv : external) (hcv : cv.sound) (fuel : Nat)
    (e : orb_extractor) (mask : Mat) (hwf : e.well_formed)
    (hfit : ∀ image ∈ e.image_pyramid_, level_fits image)
    (hfuel : ∀ num_keypts ∈ e.num_keypts_per_level_, num_keypts < fuel) :
    ∃ all_keypts, compute_fast_keypoints cv fuel e mask = some all_keypts := by
  unfold compute_fast_keypoints
  obtain ⟨all0, h0⟩ := mapM_some_of_forall (fast_keypoints_at_level cv fuel e mask)
    (List.range e.orb_params_.num_levels_) (fun level hlevel =>
      fast_keypoints_at_level_returns cv hcv fuel e mask level hwf (List.mem_range.1 hlevel)
        hfit hfuel)
  rw [h0]
  simp only [Option.bind_eq_bind, Option.some_bind]
  have hlen := mapM_some_length _ _ _ h0
  rw [List.length_range] at hlen
  apply mapM_some_of_forall
  intro level hlevel
  rw [List.mem_range] at hlevel
  rw [vector_at_of_lt _ _ (by rw [hwf.pyramid]; exact hlevel),
    vector_at_of_lt _ _ (by rw [hlen]; exact hlevel)]
  simp only [Option.some_bind]
  exact compute_orientation_returns cv e _ _ hwf.u_max

/-- The first part of `extract` returns for a well-formed extractor, when the images of the
pyramid fit, with sound external functions and fuel above every quota. -/
theorem extract_detect_returns (cv : external) (hcv : cv.sound) (fuel : Nat)
    (e : orb_extractor) (in_image in_image_mask : Mat) (hwf : e.well_formed)
    (hfit : ∀ image_pyramid, compute_image_pyramid cv e in_image = some image_pyramid →
      ∀ image ∈ image_pyramid, level_fits image)
    (hfuel : ∀ num_keypts ∈ e.num_keypts_per_level_, num_keypts < fuel) :
    ∃ e2 all_keypts, extract_detect cv fuel e in_image in_image_mask = some (e2, all_keypts) := by
  obtain ⟨pyramid, hpyr, hlen⟩ := compute_image_pyramid_returns cv e in_image hwf
  have hfit' := hfit pyramid hpyr
  unfold extract_detect
  rw [hpyr]
  simp only [Option.bind_eq_bind, Option.some_bind, Option.pure_def]
  have hwf1 : orb_extractor.well_formed { e with image_pyramid_ := pyramid } :=
    ⟨hwf.levels, hlen, hwf.scale_factors, hwf.quotas, hwf.u_max, hwf.mask_rects⟩
  by_cases hmask : (!e.mask_is_initialized_ && !e.mask_rects_.isEmpty) = true
  · rw [if_pos hmask]
    obtain ⟨rect_mask, hrect⟩ := create_rectangle_mask_returns cv
      { e with image_pyramid_ := pyramid } in_image.cols in_image.rows hwf.mask_rects
    rw [hrect]
    simp only [Option.some_bind]
    have hwf2 : orb_extractor.well_formed
        { e with image_pyramid_ := pyramid, rect_mask_ := rect_mask,
                 mask_is_initialized_ := true } :=
      ⟨hwf.levels, hlen, hwf.scale_factors, hwf.quotas, hwf.u_max, hwf.mask_rects⟩
    obtain ⟨all_keypts, hall⟩ := compute_fast_keypoints_returns cv hcv fuel _
      (if (!in_image_mask.empty) = true then in_image_mask
        else if (!rect_mask.empty) = true then rect_mask else Mat.released) hwf2 hfit' hfuel
    exact ⟨_, all_keypts, by rw [hall]; rfl⟩
  · rw [if_neg hmask]
    obtain ⟨all_keypts, hall⟩ := compute_fast_keypoints_returns cv hcv fuel _
      (if (!in_image_mask.empty) = true then in_image_mask
        else if (!e.rect_mask_.empty) = true then e.rect_mask_ else Mat.released) hwf1 hfit' hfuel
    exact ⟨_, all_keypts, by rw [hall]; rfl⟩

/-! ## C2, C3: the keypoints and descriptors returned by `extract` -/

/-- After the first part of `extract`, `all_keypts` is what `compute_fast_keypoints` returned on
the extractor as `extract` leaves it. -/
theorem extract_detect_levels (cv : external) (fuel : Nat) (e e2 : orb_extractor)
    (in_image in_image_mask : Mat) (all_keypts : List (List KeyPoint))
    (h : extract_detect cv fuel e in_image in_image_mask = some (e2, all_keypts)) :
    ∃ mask, compute_fast_keypoints cv fuel e2 mask = some all_keypts := by
  unfold extract_detect at h
  simp only [Option.bind_eq_bind, Option.pure_def] at h
  obtain ⟨pyramid, _, h⟩ := Option.bind_eq_some.1 h
  split at h
  · simp only [Option.bind_eq_some, Option.some.injEq, Prod.mk.injEq] at h
    obtain ⟨rect_mask, _, e2', rfl, all', hall, rfl, rfl⟩ := h
    exact ⟨_, hall⟩
  · simp only [Option.bind_eq_some, Option.some.injEq, Prod.mk.injEq] at h
    obtain ⟨e2', rfl, all', hall, rfl, rfl⟩ := h
    exact ⟨_, hall⟩

/-- The result of `extract` on a non-empty image, once the detection has returned fewer than
`2^31` keypoints. -/
theorem extract_eq (cv : external) (fuel : Nat) (e e2 : orb_extractor)
    (in_image in_image_mask : Mat) (keypts : List KeyPoint) (out_descriptors : Mat)
    (all_keypts : List (List KeyPoint)) (hnonempty : in_image.empty = false)
    (h : extract_detect cv fuel e in_image in_image_mask = some (e2, all_keypts))
    (hcount : keypoint_count all_keypts e2.orb_params_.num_levels_ < 2147483648) :
    extract cv fuel e in_image in_image_mask keypts out_descriptors =
      some (e2, (described_levels cv e2 all_keypts e2.orb_params_.num_levels_).map Prod.fst,
        { rows := keypoint_count all_keypts e2.orb_params_.num_levels_,
          cols := if keypoint_count all_keypts e2.orb_params_.num_levels_ = 0 then 0 else 32,
          data := (described_levels cv e2 all_keypts e2.orb_params_.num_levels_).map
            Prod.snd }) := by
  obtain ⟨mask, hmask⟩ := extract_detect_levels cv fuel e e2 in_image in_image_mask all_keypts h
  obtain ⟨hlen, hlev⟩ := compute_fast_keypoints_levels cv fuel e2 mask all_keypts hmask
  have hdesc := extract_describe_eq cv e2 all_keypts hlen (fun level hlevel => by
    obtain ⟨ks, image, sf, h1, h2, h3, _⟩ := hlev level hlevel
    exact ⟨ks, image, sf, h1, h2, h3⟩) hcount
  unfold extract
  rw [hnonempty, h]
  simp only [Bool.false_eq_true, if_false, Option.bind_eq_bind, Option.some_bind, hdesc,
    Option.pure_def]

theorem mem_described_levels (cv : external) (e : orb_extractor)
    (all_keypts : List (List KeyPoint)) (k : Nat) (p : KeyPoint × List Nat)
    (hp : p ∈ described_levels cv e all_keypts k) :
    ∃ level, level < k ∧ p ∈ described_level cv e all_keypts level := by
  unfold described_levels at hp
  rw [List.mem_flatten] at hp
  obtain ⟨l, hl, hpl⟩ := hp
  rw [List.mem_map] at hl
  obtain ⟨level, hlevel, rfl⟩ := hl
  exact ⟨level, List.mem_range.1 hlevel, hpl⟩

/-- A pair of `described_level` is made of a keypoint of the level: its scale-corrected copy
(what `correct_keypoint_scale` returns for it) and its descriptor row. -/
theorem mem_described_level (cv : external) (e : orb_extractor)
    (all_keypts : List (List KeyPoint)) (level : Nat) (p : KeyPoint × List Nat)
    (keypts_at_level : List KeyPoint) (image : Mat) (scale_factor : ℚ)
    (hks : all_keypts[level]? = some keypts_at_level)
    (himage : vector_at e.image_pyramid_ level = some image)
    (hsf : vector_at e.orb_params_.scale_factors_ level = some scale_factor)
    (hp : p ∈ described_level cv e all_keypts level) :
    ∃ keypt ∈ keypts_at_level, correct_keypoint_scale e [keypt] level = some [p.1] ∧
      p.2 = compute_orb_descriptor cv keypt (cv.GaussianBlur image) ∧
      p.1.octave = keypt.octave := by
  unfold described_level at hp
  rw [getElem?_getD _ _ _ _ hks, vector_at_getD _ _ _ _ himage, vector_at_getD _ _ _ _ hsf,
    List.mem_map] at hp
  obtain ⟨keypt, hkeypt, rfl⟩ := hp
  refine ⟨keypt, hkeypt, ?_, rfl, ?_⟩
  · unfold correct_keypoint_scale
    by_cases hl : level = 0
    · simp [hl]
    · simp [hl, hsf]
  · by_cases hl : level = 0
    · simp [hl]
    · simp [hl]

theorem extract_detect_orb_params (cv : external) (fuel : Nat) (e e2 : orb_extractor)
    (in_image in_image_mask : Mat) (all_keypts : List (List KeyPoint))
    (h : extract_detect cv fuel e in_image in_image_mask = some (e2, all_keypts)) :
    e2.orb_params_ = e.orb_params_ := by
  unfold extract_detect at h
  simp only [Option.bind_eq_bind, Option.pure_def] at h
  obtain ⟨pyramid, _, h⟩ := Option.bind_eq_some.1 h
  split at h
  · simp only [Option.bind_eq_some, Option.some.injEq, Prod.mk.injEq] at h
    obtain ⟨rect_mask, _, e2', rfl, all', hall, rfl, rfl⟩ := h
    rfl
  · simp only [Option.bind_eq_some, Option.some.injEq, Prod.mk.injEq] at h
    obtain ⟨e2', rfl, all', hall, rfl, rfl⟩ := h
    rfl

theorem described_level_row_length (cv : external) (e : orb_extractor)
    (all_keypts : List (List KeyPoint)) (level : Nat) (p : KeyPoint × List Nat)
    (hp : p ∈ described_level cv e all_keypts level) : p.2.length = 32 := by
  unfold described_level at hp
  rw [List.mem_map] at hp
  obtain ⟨keypt, _, rfl⟩ := hp
  exact compute_orb_descriptor_length _ _ _

theorem keypoint_count_eq_zero (all_keypts : List (List KeyPoint)) (k : Nat)
    (h : ∀ keypts_at_level ∈ all_keypts, keypts_at_level = []) :
    keypoint_count all_keypts k = 0 := by
  induction k with
  | zero => rfl
  | succ k ih =>
    rw [keypoint_count_succ, ih]
    have : all_keypts.getD k [] = [] := by
      rw [List.getD_eq_getElem?_getD]
      cases hk : all_keypts[k]? with
      | none => rfl
      | some ks => exact h ks (List.getElem?_mem hk)
    rw [this]
    rfl

/-- The octaves along the keypoints of the levels `0 .. k - 1` never decrease. -/
theorem described_levels_octaves (cv : external) (e : orb_extractor)
    (all_keypts : List (List KeyPoint)) (n : Nat)
    (hoct : ∀ level, level < n → ∀ p ∈ described_level cv e all_keypts level,
      p.1.octave = (level : Int)) (k : Nat) (hk : k ≤ n) :
    ((described_levels cv e all_keypts k).map (fun p => p.1.octave)).Pairwise (· ≤ ·) ∧
    ∀ p ∈ described_levels cv e all_keypts k, p.1.octave < (k : Int) := by
  induction k with
  | zero => simp [described_levels]
  | succ k ih =>
    obtain ⟨i1, i2⟩ := ih (Nat.le_of_succ_le hk)
    have hk' : k < n := hk
    rw [described_levels_succ]
    constructor
    · rw [List.map_append, List.pairwise_append]
      refine ⟨i1, ?_, ?_⟩
      · apply List.pairwise_of_forall_mem_list
        intro a ha b hb
        rw [List.mem_map] at ha hb
        obtain ⟨p, hp, rfl⟩ := ha
        obtain ⟨q, hq, rfl⟩ := hb
        rw [hoct k hk' p hp, hoct k hk' q hq]
      · intro a ha b hb
        rw [List.mem_map] at ha hb
        obtain ⟨p, hp, rfl⟩ := ha
        obtain ⟨q, hq, rfl⟩ := hb
        have := i2 p hp
        rw [hoct k hk' q hq]
        omega
    · intro p hp
      rcases List.mem_append.1 hp with h | h
      · have := i2 p h
        push_cast
        omega
      · rw [hoct k hk' p h]
        push_cast
        omega

/-- C2: on a non-empty image, for a well-formed extractor, sound external functions, pyramid
images larger than the border, fuel above the quotas and fewer than `2^31` keypoints detected:
`extract` returns, the descriptor matrix has exactly `keypts.size()` rows of 32 bytes each, and
for every index `i` the row `i` is the descriptor computed (on the blurred image of its level)
for the keypoint of `all_keypts` whose scale-corrected copy is `keypts[i]`; when no keypoint is
found at any level, `keypts` is empty and the descriptor output is released. -/
theorem extract_descriptors_aligned (cv : external) (fuel : Nat) (e : orb_extractor)
    (in_image in_image_mask : Mat) (keypts : List KeyPoint) (out_descriptors : Mat)
    (hnonempty : in_image.empty = false) (hcv : cv.sound) (hwf : e.well_formed)
    (hfit : ∀ image_pyramid, compute_image_pyramid cv e in_image = some image_pyramid →
      ∀ image ∈ image_pyramid, level_fits image)
    (hfuel : ∀ num_keypts ∈ e.num_keypts_per_level_, num_keypts < fuel)
    (hcount : ∀ e2 all_keypts,
      extract_detect cv fuel e in_image in_image_mask = some (e2, all_keypts) →
      keypoint_count all_keypts e2.orb_params_.num_levels_ < 2147483648) :
    ∃ e2 all_keypts keypts_out descriptors,
      extract_detect cv fuel e in_image in_image_mask = some (e2, all_keypts) ∧
      extract cv fuel e in_image in_image_mask keypts out_descriptors
        = some (e2, keypts_out, descriptors) ∧
      descriptors.rows = keypts_out.length ∧
      descriptors.data.length = keypts_out.length ∧
      (∀ row ∈ descriptors.data, row.length = 32) ∧
      (keypts_out ≠ [] → descriptors.cols = 32) ∧
      (∀ i, i < keypts_out.length →
        ∃ level keypts_at_level keypt image keypt_out,
          all_keypts[level]? = some keypts_at_level ∧ keypt ∈ keypts_at_level ∧
          vector_at e2.image_pyramid_ level = some image ∧
          keypts_out[i]? = some keypt_out ∧
          correct_keypoint_scale e2 [keypt] level = some [keypt_out] ∧
          descriptors.data[i]? = some (compute_orb_descriptor cv keypt (cv.GaussianBlur image))) ∧
      ((∀ keypts_at_level ∈ all_keypts, keypts_at_level = []) →
        keypts_out = [] ∧ descriptors = Mat.released) := by
  obtain ⟨e2, all_keypts, hdet⟩ := extract_detect_returns cv hcv fuel e in_image in_image_mask
    hwf hfit hfuel
  have hc := hcount e2 all_keypts hdet
  have hext := extract_eq cv fuel e e2 in_image in_image_mask keypts out_descriptors all_keypts
    hnonempty hdet hc
  obtain ⟨mask, hmask⟩ := extract_detect_levels cv fuel e e2 in_image in_image_mask all_keypts
    hdet
  obtain ⟨hlen, hlev⟩ := compute_fast_keypoints_levels cv fuel e2 mask all_keypts hmask
  have hD := described_levels_length cv e2 all_keypts e2.orb_params_.num_levels_
  refine ⟨e2, all_keypts, _, _, hdet, hext, ?_, ?_, ?_, ?_, ?_, ?_⟩
  · simp only [List.length_map, hD]
  · simp only [List.length_map]
  · intro row hrow
    rw [List.mem_map] at hrow
    obtain ⟨p, hp, rfl⟩ := hrow
    obtain ⟨level, _, hpl⟩ := mem_described_levels cv e2 all_keypts _ p hp
    exact described_level_row_length cv e2 all_keypts level p hpl
  · intro hne
    have : keypoint_count all_keypts e2.orb_params_.num_levels_ ≠ 0 := by
      intro h0
      apply hne
      rw [← hD] at h0
      rw [List.length_eq_zero.1 h0]
      rfl
    simp only [if_neg this]
  · intro i hi
    rw [List.length_map] at hi
    have hp := List.getElem_mem hi
    obtain ⟨level, hlevel, hpl⟩ := mem_described_levels cv e2 all_keypts _ _ hp
    obtain ⟨ks, image, sf, h1, h2, h3, _⟩ := hlev level hlevel
    obtain ⟨keypt, hkeypt, hscale, hrow, _⟩ := mem_described_level cv e2 all_keypts level _ ks
      image sf h1 h2 h3 hpl
    refine ⟨level, ks, keypt, image, _, h1, hkeypt, h2, ?_, hscale, ?_⟩
    · rw [List.getElem?_map, List.getElem?_eq_getElem hi]
      rfl
    · rw [List.getElem?_map, List.getElem?_eq_getElem hi, ← hrow]
      rfl
  · intro hall
    have h0 := keypoint_count_eq_zero all_keypts e2.orb_params_.num_levels_ hall
    rw [h0] at hD
    rw [List.length_eq_zero.1 hD, h0]
    exact ⟨rfl, rfl⟩

/-- C3: on a non-empty image, under the same assumptions, the keypoint sequence returned by
`extract` is the concatenation of the keypoints of level 0, then level 1, up to the last level
(each level being `all_keypts.at(level)` with its scale corrected), every keypoint of a level
has the level as its octave, and the octaves never decrease along the sequence. -/
theorem extract_keypoints_by_level (cv : external) (fuel : Nat) (e : orb_extractor)
    (in_image in_image_mask : Mat) (keypts : List KeyPoint) (out_descriptors : Mat)
    (hnonempty : in_image.empty = false) (hcv : cv.sound) (hwf : e.well_formed)
    (hfit : ∀ image_pyramid, compute_image_pyramid cv e in_image = some image_pyramid →
      ∀ image ∈ image_pyramid, level_fits image)
    (hfuel : ∀ num_keypts ∈ e.num_keypts_per_level_, num_keypts < fuel)
    (hcount : ∀ e2 all_keypts,
      extract_detect cv fuel e in_image in_image_mask = some (e2, all_keypts) →
      keypoint_count all_keypts e2.orb_params_.num_levels_ < 2147483648) :
    ∃ (e2 : orb_extractor) (all_keypts : List (List KeyPoint)) (keypts_out : List KeyPoint)
      (descriptors : Mat) (levels : List (List KeyPoint)),
      extract_detect cv fuel e in_image in_image_mask = some (e2, all_keypts) ∧
      extract cv fuel e in_image in_image_mask keypts out_descriptors
        = some (e2, keypts_out, descriptors) ∧
      levels.length = e.orb_params_.num_levels_ ∧
      keypts_out = levels.flatten ∧
      (∀ level, level < e.orb_params_.num_levels_ →
        ∃ keypts_at_level, all_keypts[level]? = some keypts_at_level ∧
          correct_keypoint_scale e2 keypts_at_level level = levels[level]?) ∧
      (∀ level, ∀ keypt ∈ levels.getD level [], keypt.octave = (level : Int)) ∧
      (keypts_out.map (fun keypt => keypt.octave)).Pairwise (· ≤ ·) := by
  obtain ⟨e2, all_keypts, hdet⟩ := extract_detect_returns cv hcv fuel e in_image in_image_mask
    hwf hfit hfuel
  have hc := hcount e2 all_keypts hdet
  have hext := extract_eq cv fuel e e2 in_image in_image_mask keypts out_descriptors all_keypts
    hnonempty hdet hc
  have hparams := extract_detect_orb_params cv fuel e e2 in_image in_image_mask all_keypts hdet
  obtain ⟨mask, hmask⟩ := extract_detect_levels cv fuel e e2 in_image in_image_mask all_keypts
    hdet
  obtain ⟨hlen, hlev⟩ := compute_fast_keypoints_levels cv fuel e2 mask all_keypts hmask
  have hoct : ∀ level, level < e2.orb_params_.num_levels_ →
      ∀ p ∈ described_level cv e2 all_keypts level, p.1.octave = (level : Int) := by
    intro level hlevel p hp
    obtain ⟨ks, image, sf, h1, h2, h3, h4⟩ := hlev level hlevel
    obtain ⟨keypt, hkeypt, _, _, ho⟩ := mem_described_level cv e2 all_keypts level p ks
      image sf h1 h2 h3 hp
    rw [ho]
    exact h4 keypt hkeypt
  refine ⟨e2, all_keypts, _, _,
    (List.range e2.orb_params_.num_levels_).map
      (fun level => (described_level cv e2 all_keypts level).map Prod.fst),
    hdet, hext, ?_, ?_, ?_, ?_, ?_⟩
  · rw [List.length_map, List.length_range, hparams]
  · unfold described_levels
    rw [List.map_flatten, List.map_map]
    rfl
  · intro level hlevel
    rw [← hparams] at hlevel
    obtain ⟨ks, image, sf, h1, h2, h3, _⟩ := hlev level hlevel
    refine ⟨ks, h1, ?_⟩
    rw [List.getElem?_map, List.getElem?_range hlevel]
    simp only [Option.map_some']
    unfold described_level correct_keypoint_scale
    rw [getElem?_getD _ _ _ _ h1, vector_at_getD _ _ _ _ h3]
    by_cases hl : level = 0
    · simp [hl, Function.comp_def]
    · simp [hl, h3, List.map_map, Function.comp_def]
  · intro level keypt hkeypt
    rw [List.getD_eq_getElem?_getD, List.getElem?_map] at hkeypt
    by_cases hlevel : level < e2.orb_params_.num_levels_
    · rw [List.getElem?_range hlevel] at hkeypt
      simp only [Option.map_some', Option.getD_some, List.mem_map] at hkeypt
      obtain ⟨p, hp, rfl⟩ := hkeypt
      exact hoct level hlevel p hp
    · rw [List.getElem?_eq_none (by simpa using hlevel)] at hkeypt
      simp at hkeypt
  · rw [List.map_map]
    exact (described_levels_octaves cv e2 all_keypts _ hoct _ (le_refl _)).1

/-! ## The stand-ins are sound, and a concrete run of `extract` -/


theorem divide_node_quadrants_keeps (node : orb_extractor_node) (h : node.keypts_ ≠ []) :
    ∃ child ∈ divide_node_quadrants node, child.keypts_ ≠ [] := by
  obtain ⟨k, rest, hk⟩ := List.exists_cons_of_ne_nil h
  have hmem : k ∈ node.keypts_ := by rw [hk]; exact List.mem_cons_self _ _
  unfold divide_node_quadrants
  by_cases hr : ((node.pt_begin_.x + (node.pt_end_.x - node.pt_begin_.x + 1) / 2 : Int) : ℚ)
      ≤ k.pt.x <;>
  by_cases hb : ((node.pt_begin_.y + (node.pt_end_.y - node.pt_begin_.y + 1) / 2 : Int) : ℚ)
      ≤ k.pt.y
  · refine ⟨_, List.mem_cons_of_mem _ (List.mem_cons_of_mem _ (List.mem_cons_of_mem _
      (List.mem_cons_self _ _))), ?_⟩
    exact List.ne_nil_of_mem (List.mem_filter.2 ⟨hmem, by
      simp only [Bool.and_eq_true, decide_eq_true_eq]; exact ⟨hr, hb⟩⟩)
  · refine ⟨_, List.mem_cons_of_mem _ (List.mem_cons_self _ _), ?_⟩
    exact List.ne_nil_of_mem (List.mem_filter.2 ⟨hmem, by
      simp only [Bool.and_eq_true, decide_eq_true_eq, Bool.not_eq_true', decide_eq_false_iff_not]
      exact ⟨hr, hb⟩⟩)
  · refine ⟨_, List.mem_cons_of_mem _ (List.mem_cons_of_mem _ (List.mem_cons_self _ _)), ?_⟩
    exact List.ne_nil_of_mem (List.mem_filter.2 ⟨hmem, by
      simp only [Bool.and_eq_true, decide_eq_true_eq, Bool.not_eq_true', decide_eq_false_iff_not]
      exact ⟨hr, hb⟩⟩)
  · refine ⟨_, List.mem_cons_self _ _, ?_⟩
    exact List.ne_nil_of_mem (List.mem_filter.2 ⟨hmem, by
      simp only [Bool.and_eq_true, decide_eq_true_eq, Bool.not_eq_true', decide_eq_false_iff_not]
      exact ⟨hr, hb⟩⟩)

/-- The stand-ins for the external functions satisfy what the extractor relies on. -/
theorem cv_stand_in_sound : cv_stand_in.sound := by
  constructor
  · intro image threshold keypt hkeypt
    simp only [cv_stand_in, List.mem_flatMap, List.mem_map, List.mem_filter, List.mem_range]
      at hkeypt
    obtain ⟨y, hy, x, ⟨hx, _⟩, rfl⟩ := hkeypt
    refine ⟨Nat.cast_nonneg _, ?_, Nat.cast_nonneg _, ?_⟩
    · show ((x : Nat) : ℚ) < (image.cols : ℚ)
      exact_mod_cast hx
    · show ((y : Nat) : ℚ) < (image.rows : ℚ)
      exact_mod_cast hy
  · exact divide_node_quadrants_keeps

theorem option_all_of_eq {α : Type} (o : Option α) (p : α → Bool) (a : α) (h : o = some a)
    (hcheck : o.all p = true) : p a = true := by
  subst h
  simpa using hcheck

theorem level_fits_of_check (image : Mat) (h : level_fits_check image = true) :
    level_fits image := by
  simpa [level_fits_check, level_fits, and_assoc] using h

theorem extractor_two_levels_well_formed : extractor_two_levels.well_formed :=
  ⟨by decide, by decide, by decide, by decide, by decide,
    fun _ h => absurd h (List.not_mem_nil _)⟩

theorem two_corner_pyramid_fits (image_pyramid : List Mat)
    (h : compute_image_pyramid cv_stand_in extractor_two_levels two_corner_image
      = some image_pyramid) : ∀ image ∈ image_pyramid, level_fits image := by
  have hcheck : (compute_image_pyramid cv_stand_in extractor_two_levels two_corner_image).all
      (fun image_pyramid => image_pyramid.all level_fits_check) = true := by decide!
  have hall := option_all_of_eq _ _ _ h hcheck
  rw [List.all_eq_true] at hall
  exact fun image himage => level_fits_of_check image (hall image himage)

set_option maxRecDepth 100000 in
set_option maxHeartbeats 4000000 in
theorem two_corner_count (e2 : orb_extractor) (all_keypts : List (List KeyPoint))
    (h : extract_detect cv_stand_in 8 extractor_two_levels two_corner_image Mat.released
      = some (e2, all_keypts)) :
    keypoint_count all_keypts e2.orb_params_.num_levels_ < 2147483648 := by
  have hcheck : (extract_detect cv_stand_in 8 extractor_two_levels two_corner_image
      Mat.released).all
      (fun r => decide (keypoint_count r.2 r.1.orb_params_.num_levels_ < 2147483648))
      = true := by decide!
  have hall := option_all_of_eq _ _ _ h hcheck
  exact of_decide_eq_true hall

/-- C2, witness: an image of 56 by 56 pixels with two bright pixels, given without a mask to
the extractor of two levels. -/
theorem extract_descriptors_aligned_witness :
    two_corner_image.empty = false ∧
    ∃ (e2 : orb_extractor) (keypts_out : List KeyPoint) (descriptors : Mat),
      extract cv_stand_in 8 extractor_two_levels two_corner_image Mat.released [] Mat.released
        = some (e2, keypts_out, descriptors) ∧
      descriptors.rows = keypts_out.length ∧
      ∀ row ∈ descriptors.data, row.length = 32 := by
  obtain ⟨e2, _, keypts_out, descriptors, _, hextract, hrows, _, hrow, _⟩ :=
    extract_descriptors_aligned cv_stand_in 8 extractor_two_levels two_corner_image Mat.released
      [] Mat.released (by decide) cv_stand_in_sound extractor_two_levels_well_formed
      two_corner_pyramid_fits (by decide) two_corner_count
  exact ⟨by decide, e2, keypts_out, descriptors, hextract, hrows, hrow⟩

/-- C3, witness: the same run of `extract`; the octaves of the keypoints returned never
decrease. -/
theorem extract_keypoints_by_level_witness :
    two_corner_image.empty = false ∧
    ∃ (e2 : orb_extractor) (keypts_out : List KeyPoint) (descriptors : Mat),
      extract cv_stand_in 8 extractor_two_levels two_corner_image Mat.released [] Mat.released
        = some (e2, keypts_out, descriptors) ∧
      (keypts_out.map (fun keypt => keypt.octave)).Pairwise (· ≤ ·) := by
  obtain ⟨e2, _, keypts_out, descriptors, _, _, hextract, _, _, _, _, hoctaves⟩ :=
    extract_keypoints_by_level cv_stand_in 8 extractor_two_levels two_corner_image Mat.released
      [] Mat.released (by decide) cv_stand_in_sound extractor_two_levels_well_formed
      two_corner_pyramid_fits (by decide) two_corner_count
  exact ⟨by decide, e2, keypts_out, descriptors, hextract, hoctaves⟩

/-! ## C12: the keypoint of maximum response of every node -/

/-- The loop of `find_keypoints_with_max_response` over one node keeps the first keypoint of
maximum response among those seen so far. -/
theorem max_response_fold (l : List KeyPoint) :
    ∀ (pre : List KeyPoint) (r : KeyPoint) (j : Nat), pre[j]? = some r →
      (∀ k ∈ pre, k.response ≤ r.response) →
      (∀ (j2 : Nat) (k : KeyPoint), j2 < j → pre[j2]? = some k → k.response < r.response) →
      ∃ j1, (pre ++ l)[j1]? = some (max_response_keypoint l r) ∧
        (∀ k ∈ pre ++ l, k.response ≤ (max_response_keypoint l r).response) ∧
        (∀ (j2 : Nat) (k : KeyPoint), j2 < j1 → (pre ++ l)[j2]? = some k →
          k.response < (max_response_keypoint l r).response) := by
  induction l with
  | nil =>
    intro pre r j hj hmax hfirst
    refine ⟨j, ?_, ?_, ?_⟩
    · simpa [max_response_keypoint] using hj
    · simpa [max_response_keypoint] using hmax
    · simpa [max_response_keypoint] using hfirst
  | cons a l ih =>
    intro pre r j hj hmax hfirst
    have hlt : j < pre.length := (List.getElem?_eq_some_iff.1 hj).1
    by_cases ha : a.response > r.response
    · have hstep : max_response_keypoint (a :: l) r = max_response_keypoint l a := by
        simp [max_response_keypoint, List.foldl_cons, ha]
      obtain ⟨j1, h1, h2, h3⟩ := ih (pre ++ [a]) a pre.length (by simp)
        (by
          intro k hk
          rcases List.mem_append.1 hk with hk | hk
          · exact le_trans (hmax k hk) (le_of_lt ha)
          · rw [List.mem_singleton.1 hk])
        (by
          intro j2 k hj2 hk
          rw [List.getElem?_append_left hj2] at hk
          exact lt_of_le_of_lt (hmax k (List.getElem?_mem hk)) ha)
      rw [hstep]
      rw [List.append_assoc, List.singleton_append] at h1 h2 h3
      exact ⟨j1, h1, h2, h3⟩
    · have hstep : max_response_keypoint (a :: l) r = max_response_keypoint l r := by
        simp [max_response_keypoint, List.foldl_cons, ha]
      obtain ⟨j1, h1, h2, h3⟩ := ih (pre ++ [a]) r j
        (by rw [List.getElem?_append_left hlt]; exact hj)
        (by
          intro k hk
          rcases List.mem_append.1 hk with hk | hk
          · exact hmax k hk
          · rw [List.mem_singleton.1 hk]; exact not_lt.1 ha)
        (by
          intro j2 k hj2 hk
          rw [List.getElem?_append_left (lt_trans hj2 hlt)] at hk
          exact hfirst j2 k hj2 hk)
      rw [hstep]
      rw [List.append_assoc, List.singleton_append] at h1 h2 h3
      exact ⟨j1, h1, h2, h3⟩

/-- C12: when every node holds a keypoint, `find_keypoints_with_max_response` returns one
keypoint per node, in the order of the nodes; the keypoint returned for a node is a keypoint
of the node, its response is greater than or equal to that of every keypoint of the node, and
every keypoint before it in the node has a smaller response (it is the first of maximum
response). -/
theorem find_keypoints_with_max_response_spec (nodes : List orb_extractor_node)
    (h : ∀ node ∈ nodes, node.keypts_ ≠ []) :
    ∃ result_keypts, find_keypoints_with_max_response nodes = some result_keypts ∧
      result_keypts.length = nodes.length ∧
      ∀ (i : Nat) (node : orb_extractor_node), nodes[i]? = some node →
        ∃ (keypt : KeyPoint) (j : Nat), result_keypts[i]? = some keypt ∧
          node.keypts_[j]? = some keypt ∧
          (∀ k ∈ node.keypts_, k.response ≤ keypt.response) ∧
          (∀ (j2 : Nat) (k : KeyPoint), j2 < j → node.keypts_[j2]? = some k →
            k.response < keypt.response) := by
  obtain ⟨result_keypts, hresult⟩ := find_keypoints_with_max_response_returns nodes h
  refine ⟨result_keypts, hresult, ?_, ?_⟩
  · exact mapM_some_length _ _ _ hresult
  · intro i node hnode
    have hi : i < nodes.length := (List.getElem?_eq_some_iff.1 hnode).1
    have hnode2 : nodes[i] = node := (List.getElem?_eq_some_iff.1 hnode).2
    have hr : i < result_keypts.length := by rw [mapM_some_length _ _ _ hresult]; exact hi
    have hf := mapM_some_getElem _ _ _ hresult i hi hr
    rw [hnode2] at hf
    have hne := h node (List.getElem?_mem hnode)
    obtain ⟨k0, rest, hk⟩ := List.exists_cons_of_ne_nil hne
    rw [hk] at hf
    simp only [vector_at, List.get?_cons_zero, Option.bind_eq_bind, Option.some_bind,
      List.drop_succ_cons, List.drop_zero, Option.pure_def, Option.some.injEq] at hf
    obtain ⟨j1, h1, h2, h3⟩ := max_response_fold rest [k0] k0 0 rfl
      (by intro k hk; rw [List.mem_singleton.1 hk])
      (by intro j2 k hj2; exact absurd hj2 (Nat.not_lt_zero _))
    rw [hf, List.singleton_append, ← hk] at h1 h2 h3
    exact ⟨result_keypts[i], j1, List.getElem?_eq_getElem hr, h1, h2, h3⟩

/-- C12, witness: two nodes, the first with a tie for the maximum response. -/
theorem find_keypoints_with_max_response_spec_witness :
    (∀ node ∈ two_nodes, node.keypts_ ≠ []) ∧
    ∃ result_keypts, find_keypoints_with_max_response two_nodes = some result_keypts ∧
      result_keypts.length = two_nodes.length := by
  have hnodes : ∀ node ∈ two_nodes, node.keypts_ ≠ [] := by decide
  obtain ⟨result_keypts, hresult, hlength, _⟩ :=
    find_keypoints_with_max_response_spec two_nodes hnodes
  exact ⟨hnodes, result_keypts, hresult, hlength⟩

/-! ## The width of the initial patches when the borders differ -/

/-- The branch of `initialize_nodes` for a ratio of at most 1 computes `delta_x` as
`max_x - min_y`.  In the call from `compute_fast_keypoints`, the only one, `min_x` and `min_y`
are both `orb_patch_radius_` and this is the width; for an area with `min_x = 0`, `max_x = 10`,
`min_y = 5`, `max_y = 25`, which no call passes, it gives one column and two rows of patches
with `delta_x = 5`, and `num_x_grid * delta_x` is 5 and not the width 10. -/
theorem initial_grid_width_slip :
    initial_grid 0 10 5 25 = (1, 2, 5, 10) ∧
    ((initial_grid 0 10 5 25).1 : ℚ) * (initial_grid 0 10 5 25).2.2.1
      ≠ (((10 : Int) - 0 : Int) : ℚ) := by
  decide!

/-- In the same area, which no call passes, the keypoint at `(7, 15)` gets the node index 2 of
two nodes and `initialize_nodes` throws `std::out_of_range`; the keypoint at `(7, 5)` is put
into the second node, whose patch is `(0, 10) .. (5, 20)`. -/
theorem initialize_nodes_width_slip :
    initialize_nodes [fast_keypoint 7 15 1] 0 10 5 25 = none ∧
    (initialize_nodes [fast_keypoint 7 5 1] 0 10 5 25).map
        (fun nodes => nodes.map (fun node => (node.pt_begin_, node.pt_end_, node.keypts_)))
      = some [(⟨0, 10⟩, ⟨5, 20⟩, [fast_keypoint 7 5 1])] := by
  decide!

/-! ## C18: the correction of the scale -/

/-- C18: at level 0 `correct_keypoint_scale` leaves the keypoints as they are; at a level
`L >= 1` which has a scale factor it returns as many keypoints, in the same order, and the
keypoint `i` differs from the keypoint `i` given only in its position, whose two coordinates are
those given multiplied by `scale_factors_[L]`: octave, angle, size, response and class are
unchanged. -/
theorem correct_keypoint_scale_position_only (e : orb_extractor)
    (keypts_at_level : List KeyPoint) (level : Nat)
    (hlevel : level < e.orb_params_.scale_factors_.length) :
    correct_keypoint_scale e keypts_at_level 0 = some keypts_at_level ∧
    (1 ≤ level →
      ∃ (scale_at_level : ℚ) (corrected : List KeyPoint),
        vector_at e.orb_params_.scale_factors_ level = some scale_at_level ∧
        correct_keypoint_scale e keypts_at_level level = some corrected ∧
        corrected.length = keypts_at_level.length ∧
        ∀ (i : Nat) (keypt : KeyPoint), keypts_at_level[i]? = some keypt →
          ∃ keypt_out, corrected[i]? = some keypt_out ∧
            keypt_out.pt.x = keypt.pt.x * scale_at_level ∧
            keypt_out.pt.y = keypt.pt.y * scale_at_level ∧
            keypt_out.octave = keypt.octave ∧ keypt_out.angle = keypt.angle ∧
            keypt_out.size = keypt.size ∧ keypt_out.response = keypt.response ∧
            keypt_out.class_id = keypt.class_id) := by
  refine ⟨by simp [correct_keypoint_scale], fun h1 => ?_⟩
  refine ⟨e.orb_params_.scale_factors_[level], keypts_at_level.map (fun keypt =>
    { keypt with pt := ⟨keypt.pt.x * e.orb_params_.scale_factors_[level],
                        keypt.pt.y * e.orb_params_.scale_factors_[level]⟩ }),
    vector_at_of_lt _ _ hlevel, ?_, ?_, ?_⟩
  · unfold correct_keypoint_scale
    rw [if_neg (by omega), vector_at_of_lt _ _ hlevel]
    rfl
  · simp
  · intro i keypt hkeypt
    refine ⟨{ keypt with pt := ⟨keypt.pt.x * e.orb_params_.scale_factors_[level],
      keypt.pt.y * e.orb_params_.scale_factors_[level]⟩ }, ?_, rfl, rfl, rfl, rfl, rfl, rfl, rfl⟩
    rw [List.getElem?_map, hkeypt]
    rfl

/-- C18, witness: three keypoints corrected to the scale of level 1 of the extractor of two
levels, whose scale factor is 1.2. -/
theorem correct_keypoint_scale_position_only_witness :
    1 < extractor_two_levels.orb_params_.scale_factors_.length ∧
    correct_keypoint_scale extractor_two_levels three_keypoints 0 = some three_keypoints ∧
    ((correct_keypoint_scale extractor_two_levels three_keypoints 1).map
      (fun corrected => corrected.length)) = some 3 := by
  obtain ⟨h0, h1⟩ := correct_keypoint_scale_position_only extractor_two_levels three_keypoints 1
    (by decide)
  obtain ⟨_, corrected, _, hc, hlength, _⟩ := h1 (le_refl 1)
  refine ⟨by decide, h0, ?_⟩
  rw [hc, Option.map_some', hlength]
  rfl

/-! ## C20: marker detection in a build without ArUco -/

/-- C20: in the build without ArUco, `aruco::is_valid` returns false, and for every detector,
every input image and every content of the vectors `corners` and `ids`, `aruco::detect_2d`
leaves both vectors as they were. -/
theorem aruco_disabled_detects_nothing (detector : marker_detector.aruco) (in_image : Mat)
    (corners : List (List Point2f)) (ids : List Int) :
    marker_detector.aruco.is_valid = false ∧
    detector.detect_2d in_image corners ids = (corners, ids) :=
  ⟨rfl, rfl⟩

/-! ## C15: the selection of the mask -/

theorem extract_detect_eq (cv : external) (fuel : Nat) (e : orb_extractor)
    (in_image in_image_mask : Mat) :
    extract_detect cv fuel e in_image in_image_mask
      = (extract_prepare cv e in_image).bind (fun e2 =>
          (compute_fast_keypoints cv fuel e2
            (if !in_image_mask.empty then in_image_mask
             else if !e2.rect_mask_.empty then e2.rect_mask_ else Mat.released)).map
            (fun all_keypts => (e2, all_keypts))) := by
  unfold extract_detect extract_prepare
  cases compute_image_pyramid cv e in_image with
  | none => rfl
  | some image_pyramid =>
    simp only [Option.bind_eq_bind, Option.some_bind]
    split
    · cases create_rectangle_mask cv { e with image_pyramid_ := image_pyramid } in_image.cols
        in_image.rows with
      | none => rfl
      | some rect_mask =>
        simp only [Option.bind_eq_bind, Option.some_bind, Option.pure_def]
        cases compute_fast_keypoints cv fuel _ _ <;> rfl
    · simp only [Option.bind_eq_bind, Option.some_bind, Option.pure_def]
      cases compute_fast_keypoints cv fuel _ _ <;> rfl

theorem extract_eq_extract_with_mask (cv : external) (fuel : Nat) (e : orb_extractor)
    (in_image in_image_mask : Mat) (keypts : List KeyPoint) (out_descriptors : Mat)
    (hnonempty : in_image.empty = false) :
    extract cv fuel e in_image in_image_mask keypts out_descriptors
      = (extract_prepare cv e in_image).bind (fun e2 =>
          extract_with_mask cv fuel e2
            (if !in_image_mask.empty then in_image_mask
             else if !e2.rect_mask_.empty then e2.rect_mask_ else Mat.released)) := by
  unfold extract
  rw [hnonempty, extract_detect_eq]
  simp only [Bool.false_eq_true, if_false]
  cases extract_prepare cv e in_image with
  | none => rfl
  | some e2 =>
    simp only [Option.bind_eq_bind, Option.some_bind, extract_with_mask]
    cases compute_fast_keypoints cv fuel e2 _ <;> rfl

/-- With an empty mask, a cell of `compute_fast_keypoints` never consults the mask. -/
theorem fast_keypoints_in_cell_empty_mask (cv : external) (p : orb_params) (image mask : Mat)
    (scale_factor : ℚ) (max_border_x min_y max_y i j : Nat) (hmask : mask.empty = true) :
    fast_keypoints_in_cell cv p image mask scale_factor max_border_x min_y max_y i j
      = fast_keypoints_in_cell cv p image Mat.released scale_factor max_border_x min_y max_y
          i j := by
  have hreleased : Mat.released.empty = true := rfl
  unfold fast_keypoints_in_cell
  simp only [hmask, hreleased, Bool.not_true, Bool.false_and, Bool.not_false]

theorem compute_fast_keypoints_empty_mask (cv : external) (fuel : Nat) (e : orb_extractor)
    (mask : Mat) (hmask : mask.empty = true) :
    compute_fast_keypoints cv fuel e mask = compute_fast_keypoints cv fuel e Mat.released := by
  have hcell : ∀ (p : orb_params) (image : Mat) (scale_factor : ℚ)
      (max_border_x min_y max_y i : Nat),
      fast_keypoints_in_cell cv p image mask scale_factor max_border_x min_y max_y i
        = fast_keypoints_in_cell cv p image Mat.released scale_factor max_border_x min_y max_y
            i :=
    fun p image scale_factor max_border_x min_y max_y i =>
      funext (fun j => fast_keypoints_in_cell_empty_mask cv p image mask scale_factor
        max_border_x min_y max_y i j hmask)
  have hrow : ∀ (p : orb_params) (image : Mat) (scale_factor : ℚ)
      (max_border_x max_border_y num_cols : Nat),
      fast_keypoints_in_row cv p image mask scale_factor max_border_x max_border_y num_cols
        = fast_keypoints_in_row cv p image Mat.released scale_factor max_border_x max_border_y
            num_cols := by
    intro p image scale_factor max_border_x max_border_y num_cols
    funext i
    unfold fast_keypoints_in_row
    simp only [hcell]
  have hlevel : fast_keypoints_at_level cv fuel e mask
      = fast_keypoints_at_level cv fuel e Mat.released := by
    funext level
    unfold fast_keypoints_at_level
    simp only [hrow]
  unfold compute_fast_keypoints
  rw [hlevel]

/-- C15: on a non-empty image `extract` prepares the pyramid and the rectangle mask and then
goes on with one mask: the caller's image mask when it is not empty; otherwise the rectangle
mask when that is not empty; otherwise no mask, that is the result is that of
`compute_fast_keypoints` called with `cv::Mat()`, which is the same for every empty mask. -/
theorem extract_mask_precedence (cv : external) (fuel : Nat) (e : orb_extractor)
    (in_image in_image_mask : Mat) (keypts : List KeyPoint) (out_descriptors : Mat)
    (hnonempty : in_image.empty = false) :
    (in_image_mask.empty = false →
      extract cv fuel e in_image in_image_mask keypts out_descriptors
        = (extract_prepare cv e in_image).bind (fun e2 =>
            extract_with_mask cv fuel e2 in_image_mask)) ∧
    (in_image_mask.empty = true →
      extract cv fuel e in_image in_image_mask keypts out_descriptors
        = (extract_prepare cv e in_image).bind (fun e2 =>
            if e2.rect_mask_.empty = false then extract_with_mask cv fuel e2 e2.rect_mask_
            else extract_with_mask cv fuel e2 Mat.released)) ∧
    (∀ (e2 : orb_extractor) (mask : Mat), mask.empty = true →
      extract_with_mask cv fuel e2 mask = extract_with_mask cv fuel e2 Mat.released) := by
  refine ⟨fun hmask => ?_, fun hmask => ?_, fun e2 mask hmask => ?_⟩
  · rw [extract_eq_extract_with_mask cv fuel e in_image in_image_mask keypts out_descriptors
      hnonempty]
    simp only [hmask, Bool.not_false, if_true]
  · rw [extract_eq_extract_with_mask cv fuel e in_image in_image_mask keypts out_descriptors
      hnonempty]
    simp only [hmask, Bool.not_true, Bool.false_eq_true, if_false]
    congr 1
    funext e2
    cases h : e2.rect_mask_.empty <;> simp
  · unfold extract_with_mask
    rw [compute_fast_keypoints_empty_mask cv fuel e2 mask hmask]

/-- C15, witness: the image with two bright pixels, given with a mask hiding its left half to
the extractor of two levels. -/
theorem extract_mask_precedence_witness :
    two_corner_image.empty = false ∧ left_half_mask.empty = false ∧
    extract cv_stand_in 8 extractor_two_levels two_corner_image left_half_mask [] Mat.released
      = (extract_prepare cv_stand_in extractor_two_levels two_corner_image).bind (fun e2 =>
          extract_with_mask cv_stand_in 8 e2 left_half_mask) :=
  ⟨by decide, by decide,
    (extract_mask_precedence cv_stand_in 8 extractor_two_levels two_corner_image left_half_mask
      [] Mat.released (by decide)).1 (by decide)⟩

/-! ## C19: the sizes of the levels of the pyramid -/

/-- What `compute_image_pyramid` has established once the levels below `k` are computed: the
pyramid has `n` entries, the entry 0 is `image`, and every entry `1 <= level < k` has the
size rounded from the size of `image`. -/
theorem pyramid_fold (cv : external) (p : orb_params) (image : Mat) (n : Nat)
    (hsf : p.scale_factors_.length = n) (hnonempty : image.empty = false)
    (hresize : ∀ (src : Mat) (width height : Int), src.empty = false → 0 < width → 0 < height →
      ((cv.resize src width height).cols : Int) = width ∧
      ((cv.resize src width height).rows : Int) = height)
    (hsize : ∀ (level : Nat) (scale : ℚ), 1 ≤ level →
      vector_at p.scale_factors_ level = some scale →
      0 < std_round ((image.cols : ℚ) * 1 / scale) ∧
      0 < std_round ((image.rows : ℚ) * 1 / scale)) :
    ∀ (len s : Nat) (pyramid : List Mat), 1 ≤ s → s + len = n →
      pyramid.length = n → pyramid[0]? = some image →
      (∀ level, 1 ≤ level → level < s → ∃ (m : Mat) (scale : ℚ), pyramid[level]? = some m ∧
        vector_at p.scale_factors_ level = some scale ∧
        (m.cols : Int) = std_round ((image.cols : ℚ) * 1 / scale) ∧
        (m.rows : Int) = std_round ((image.rows : ℚ) * 1 / scale)) →
      ∃ r, (List.range' s len).foldlM (pyramid_step cv p image) pyramid = some r ∧
        r.length = n ∧ r[0]? = some image ∧
        ∀ level, 1 ≤ level → level < n → ∃ (m : Mat) (scale : ℚ), r[level]? = some m ∧
          vector_at p.scale_factors_ level = some scale ∧
          (m.cols : Int) = std_round ((image.cols : ℚ) * 1 / scale) ∧
          (m.rows : Int) = std_round ((image.rows : ℚ) * 1 / scale) := by
  intro len
  induction len with
  | zero =>
    intro s pyramid _ hs hlen h0 hdone
    refine ⟨pyramid, rfl, hlen, h0, fun level h1 hlevel => hdone level h1 (by omega)⟩
  | succ len ih =>
    intro s pyramid h1s hs hlen h0 hdone
    have hs_lt : s < p.scale_factors_.length := by omega
    have hsrc_lt : s - 1 < pyramid.length := by omega
    have h0_lt : 0 < pyramid.length := by omega
    have hscale := vector_at_of_lt p.scale_factors_ s hs_lt
    have hsrc := vector_at_of_lt pyramid (s - 1) hsrc_lt
    generalize p.scale_factors_[s] = scale_s at hscale
    generalize pyramid[s - 1] = src at hsrc
    obtain ⟨hw, hh⟩ := hsize s scale_s h1s hscale
    have hsrc2 : pyramid[s - 1]? = some src := by
      unfold vector_at at hsrc
      rw [List.get?_eq_getElem?] at hsrc
      exact hsrc
    have hsrc_nonempty : src.empty = false := by
      by_cases hs1 : s = 1
      · subst hs1
        rw [h0] at hsrc2
        rw [← Option.some_inj.1 hsrc2]
        exact hnonempty
      · obtain ⟨m, scale, hm, hscale2, hc, hr⟩ := hdone (s - 1) (by omega) (by omega)
        obtain ⟨hw2, hh2⟩ := hsize (s - 1) scale (by omega) hscale2
        rw [hm] at hsrc2
        rw [← Option.some_inj.1 hsrc2]
        have hc2 : 0 < m.cols := by omega
        have hr2 : 0 < m.rows := by omega
        have hpos : 0 < m.rows * m.cols := Nat.mul_pos hr2 hc2
        simp only [Mat.empty, beq_eq_false_iff_ne, ne_eq]
        omega
    obtain ⟨hcols, hrows⟩ := hresize src _ _ hsrc_nonempty hw hh
    have hstep : pyramid_step cv p image pyramid s = some (pyramid.set s
        (cv.resize src (std_round ((image.cols : ℚ) * 1 / scale_s))
          (std_round ((image.rows : ℚ) * 1 / scale_s)))) := by
      simp only [pyramid_step, hscale, hsrc, Option.bind_eq_bind, Option.some_bind]
      exact vector_set_of_lt _ _ _ (by omega)
    obtain ⟨r, hr, hrest⟩ := ih (s + 1) (pyramid.set s
        (cv.resize src (std_round ((image.cols : ℚ) * 1 / scale_s))
          (std_round ((image.rows : ℚ) * 1 / scale_s)))) (by omega) (by omega)
      (by rw [List.length_set]; exact hlen)
      (by rw [List.getElem?_set_ne (by omega)]; exact h0)
      (by
        intro level h1 hlevel
        by_cases heq : level = s
        · subst heq
          refine ⟨_, _, ?_, hscale, hcols, hrows⟩
          rw [List.getElem?_set_self (by omega)]
        · obtain ⟨m, scale, hm, hrest⟩ := hdone level h1 (by omega)
          refine ⟨m, scale, ?_, hrest⟩
          rw [List.getElem?_set_ne (by omega)]
          exact hm)
    refine ⟨r, ?_, hrest⟩
    rw [List.range'_succ, List.foldlM_cons, hstep]
    exact hr

/-- C19: for an extractor with one pyramid entry and one scale factor per level, a non-empty
input image, a `cv::resize` that gives its output the size asked for, and rounded sizes of
at least one pixel: `compute_image_pyramid` returns, the level 0 of the pyramid is the input
image itself, and every level `1 <= L < num_levels` is an image of
`round(cols / scale_factors_[L])` columns and `round(rows / scale_factors_[L])` rows, `cols`
and `rows` being those of the input image. -/
theorem compute_image_pyramid_sizes (cv : external) (e : orb_extractor) (image : Mat)
    (hlevels : 1 ≤ e.orb_params_.num_levels_)
    (hpyramid : e.image_pyramid_.length = e.orb_params_.num_levels_)
    (hsf : e.orb_params_.scale_factors_.length = e.orb_params_.num_levels_)
    (hnonempty : image.empty = false)
    (hresize : ∀ (src : Mat) (width height : Int), src.empty = false → 0 < width → 0 < height →
      ((cv.resize src width height).cols : Int) = width ∧
      ((cv.resize src width height).rows : Int) = height)
    (hsize : ∀ (level : Nat) (scale : ℚ), 1 ≤ level →
      vector_at e.orb_params_.scale_factors_ level = some scale →
      0 < std_round ((image.cols : ℚ) * 1 / scale) ∧
      0 < std_round ((image.rows : ℚ) * 1 / scale)) :
    ∃ image_pyramid, compute_image_pyramid cv e image = some image_pyramid ∧
      image_pyramid.length = e.orb_params_.num_levels_ ∧
      image_pyramid[0]? = some image ∧
      ∀ level, 1 ≤ level → level < e.orb_params_.num_levels_ →
        ∃ (m : Mat) (scale : ℚ), image_pyramid[level]? = some m ∧
          vector_at e.orb_params_.scale_factors_ level = some scale ∧
          (m.cols : Int) = std_round ((image.cols : ℚ) * 1 / scale) ∧
          (m.rows : Int) = std_round ((image.rows : ℚ) * 1 / scale) := by
  unfold compute_image_pyramid
  rw [vector_set_of_lt _ _ _ (by omega)]
  simp only [Option.bind_eq_bind, Option.some_bind]
  exact pyramid_fold cv e.orb_params_ image e.orb_params_.num_levels_ hsf hnonempty hresize hsize
    (e.orb_params_.num_levels_ - 1) 1 (e.image_pyramid_.set 0 image) (le_refl 1) (by omega)
    (by rw [List.length_set]; exact hpyramid)
    (by rw [List.getElem?_set_self (by omega)])
    (fun level h1 hlt => absurd hlt (by omega))

/-- The stand-in for `cv::resize` gives its output the size asked for. -/
theorem cv_stand_in_resize (src : Mat) (width height : Int) (_hsrc : src.empty = false)
    (hwidth : 0 < width) (hheight : 0 < height) :
    ((cv_stand_in.resize src width height).cols : Int) = width ∧
    ((cv_stand_in.resize src width height).rows : Int) = height :=
  ⟨Int.toNat_of_nonneg (le_of_lt hwidth), Int.toNat_of_nonneg (le_of_lt hheight)⟩

/-- C19, witness: the pyramid of the image of 56 by 56 pixels for the extractor of two
levels; the level 1 has 47 by 47 pixels. -/
theorem compute_image_pyramid_sizes_witness :
    two_corner_image.empty = false ∧
    ∃ image_pyramid,
      compute_image_pyramid cv_stand_in extractor_two_levels two_corner_image
        = some image_pyramid ∧
      image_pyramid[0]? = some two_corner_image ∧
      ∃ m, image_pyramid[1]? = some m ∧ m.cols = 47 ∧ m.rows = 47 := by
  have hround : std_round ((56 : ℚ) * 1 / (6 / 5)) = 47 := by decide!
  obtain ⟨image_pyramid, hreturn, _, h0, hsizes⟩ :=
    compute_image_pyramid_sizes cv_stand_in extractor_two_levels two_corner_image
      (by decide) (by decide) (by decide) (by decide) cv_stand_in_resize
      (by
        intro level scale h1 hscale
        match level, h1, hscale with
        | 1, _, hscale =>
          have h2 : scale = 6 / 5 := (Option.some_inj.1 hscale).symm
          subst h2
          exact ⟨by decide!, by decide!⟩
        | level + 2, _, hscale => exact absurd hscale (by simp [vector_at, extractor_two_levels]))
  obtain ⟨m, scale, hm, hscale, hcols, hrows⟩ := hsizes 1 (le_refl 1) (by decide)
  have h2 : scale = 6 / 5 := (Option.some_inj.1 hscale).symm
  subst h2
  have hc : ((two_corner_image.cols : Nat) : ℚ) = 56 := by decide!
  have hr : ((two_corner_image.rows : Nat) : ℚ) = 56 := by decide!
  rw [hc, hround] at hcols
  rw [hr, hround] at hrows
  exact ⟨by decide, image_pyramid, hreturn, h0, m, hm, by omega, by omega⟩

/-! ## C17: the rectangle mask -/

end openvslam
